import Mathlib

/-!
SquareMatrixGM: a shallow embedding of `Vector` and `SquareMatrix`.

The C++ classes `VectorGM::Vector` (`src/Vector/Vector.cpp`) and
`SquareMatrixGM::SquareMatrix` (`src/Matrix/SquareMatrix.cpp`) are embedded as pure
functions.  Conventions:

* a `double` is an exact rational (`ℚ`): rounding is not modelled;
* a C++ `int` that can be negative at the call site (constructor sizes, indices, the
  exponent) is an `Int`; a stored size and a loop counter are `Nat`;
* a function that can throw returns `Except Error _`; one exception class, one constructor;
* a recursion or a `while` loop whose termination is not structural carries a fuel
  argument and returns `none` when the fuel runs out.
-/

/-- The exception classes of `Exception/MyExceptions.hpp`. -/
inductive Error where
  | MyOutOfRange
  | MyOutOfRow
  | InvalidArgument
  | MyLogicError (message : String)
deriving DecidableEq

deriving instance DecidableEq for Except

/-- The counted loop `for (int i = 0; i < n; ++i) body(i)` over a state `σ`; an exception
thrown by the body leaves the loop. -/
def forLoop {σ : Type} (body : Nat → σ → Except Error σ) : Nat → σ → Except Error σ
  | 0, s => .ok s
  | n + 1, s =>
    match forLoop body n s with
    | .ok s' => body n s'
    | .error e => .error e

namespace VectorGM

/-- A cell of a `Vector`: `struct Cell`, default `{0.0, false}`. -/
structure Cell where
  value : ℚ := 0
  initialized : Bool := false
deriving DecidableEq

/-- The class `Vector`: the array `data`; the field `size` is its length. -/
structure Vector where
  data : List Cell
deriving DecidableEq

namespace Vector

/-- The field `size` (`getSize()`). -/
def size (v : Vector) : Nat := v.data.length

/-- The default constructor `Vector()`: no cell. -/
def empty : Vector := ⟨[]⟩

/-- The constructor `Vector(int size)`. -/
def construct (size : Int) : Except Error Vector :=
  if size < 0 then .error .InvalidArgument
  else .ok ⟨List.replicate size.toNat {}⟩

/-- The unchecked access `data[i]`. -/
def cell (v : Vector) (i : Nat) : Cell := v.data.getD i {}

/-- The mutable `double& operator[](int index)`: bounds check, then the cell is marked
initialized. -/
def touch (v : Vector) (index : Int) : Except Error Vector :=
  if index < 0 ∨ index ≥ v.size then .error .MyOutOfRange
  else .ok ⟨v.data.set index.toNat { v.cell index.toNat with initialized := true }⟩

/-- Assignment through the reference returned by the mutable `operator[]`. -/
def store (v : Vector) (i : Nat) (x : ℚ) : Vector :=
  ⟨v.data.set i { v.cell i with value := x }⟩

/-- The statement `v[index] = x`. -/
def set (v : Vector) (index : Int) (x : ℚ) : Except Error Vector :=
  match v.touch index with
  | .ok v' => .ok (v'.store index.toNat x)
  | .error e => .error e

/-- The read-only `const double& operator[](int index) const`. -/
def get (v : Vector) (index : Int) : Except Error ℚ :=
  if index < 0 ∨ index ≥ v.size then .error .MyOutOfRange
  else .ok (v.cell index.toNat).value

/-- The method `isInitialized(int index)`. -/
def isInitialized (v : Vector) (index : Int) : Except Error Bool :=
  if index < 0 ∨ index ≥ v.size then .error .MyOutOfRange
  else .ok (v.cell index.toNat).initialized

/-- The method `allInitialized()`. -/
def allInitialized (v : Vector) : Bool :=
  (List.range v.size).all fun i => (v.cell i).initialized

/-- The dot product `double operator*(const Vector& other) const`. -/
def dot (v other : Vector) : Except Error ℚ :=
  if v.size ≠ other.size then
    .error (.MyLogicError "Vector sizes must match for dot product")
  else
    forLoop (fun i result => do
      let a ← v.isInitialized i
      if !a then
        throw (.MyLogicError "Both vectors must be fully initialized for dot product")
      let b ← other.isInitialized i
      if !b then
        throw (.MyLogicError "Both vectors must be fully initialized for dot product")
      let y ← other.get i
      pure (result + (v.cell i).value * y)) v.size 0

/-- The static `transposeColumnsToRows(const Vector* cols, int count)`.  The array `cols`
is a list; `cols[i]` is unchecked.  The size loop runs over `i = 1 .. count - 1`. -/
def transposeColumnsToRows (cols : List Vector) (count : Int) : Except Error (List Vector) :=
  if count = 0 then .error (.MyLogicError "Empty input")
  else do
    let rowSize := (cols.getD 0 empty).size
    let _ ← forLoop (fun k (_ : Unit) =>
      if (cols.getD (k + 1) empty).size ≠ rowSize then
        .error (.MyLogicError "All vectors must be the same size")
      else .ok ()) (count.toNat - 1) ()
    let result ← forLoop (fun i (result : List Vector) => do
      let v ← construct count
      pure (result.set i v)) rowSize (List.replicate rowSize empty)
    forLoop (fun i (result : List Vector) =>
      forLoop (fun j (result : List Vector) => do
        let b ← (cols.getD j empty).isInitialized i
        if !b then
          throw (.MyLogicError "Column vector is not fully initialized")
        let x ← (cols.getD j empty).get i
        let r ← (result.getD i empty).set j x
        pure (result.set i r)) count.toNat result) rowSize result

end Vector

end VectorGM

namespace SquareMatrixGM

open VectorGM

/-- The class `SquareMatrix`: the array `rows` and the field `size`. -/
structure SquareMatrix where
  rows : List Vector
  size : Nat
deriving DecidableEq

namespace SquareMatrix

/-- The constructor `SquareMatrix(int size)`. -/
def construct (size : Int) : Except Error SquareMatrix :=
  if size < 0 then .error .InvalidArgument
  else do
    let rows ← forLoop (fun i (rows : List Vector) => do
      let v ← Vector.construct size
      pure (rows.set i v)) size.toNat (List.replicate size.toNat Vector.empty)
    pure ⟨rows, size.toNat⟩

/-- The row access `operator[](int row)` (both overloads check the same bounds). -/
def row (M : SquareMatrix) (row : Int) : Except Error Vector :=
  if row < 0 ∨ row ≥ M.size then .error .MyOutOfRow
  else .ok (M.rows.getD row.toNat Vector.empty)

/-- The read `(*this)[i][j]` on a const matrix. -/
def getCell (M : SquareMatrix) (i j : Int) : Except Error ℚ := do
  let r ← M.row i
  r.get j

/-- The statement `M[i][j] = x`. -/
def setCell (M : SquareMatrix) (i j : Int) (x : ℚ) : Except Error SquareMatrix := do
  let r ← M.row i
  let r' ← r.set j x
  pure { M with rows := M.rows.set i.toNat r' }

/-- The static `identity(int size)`. -/
def identity (size : Int) : Except Error SquareMatrix := do
  let result ← construct size
  forLoop (fun i (result : SquareMatrix) =>
    forLoop (fun j (result : SquareMatrix) =>
      result.setCell i j (if i = j then 1 else 0)) size.toNat result) size.toNat result

/-- The matrix product `operator*(const SquareMatrix& other)`. -/
def mul (M other : SquareMatrix) : Except Error SquareMatrix :=
  if M.size ≠ other.size then
    .error (.MyLogicError "Matrix sizes must match for multiplication")
  else do
    let cols ← Vector.transposeColumnsToRows other.rows M.size
    let result ← construct M.size
    forLoop (fun i (result : SquareMatrix) =>
      forLoop (fun j (result : SquareMatrix) => do
        let d ← (M.rows.getD i Vector.empty).dot (cols.getD j Vector.empty)
        result.setCell i j d) M.size result) M.size result

/-- The `while (power > 0)` loop of `operator^`; one unit of fuel per iteration. -/
def powLoop : Nat → SquareMatrix → SquareMatrix → Int → Option (Except Error SquareMatrix)
  | fuel, result, base, power =>
    if power > 0 then
      match fuel with
      | 0 => none
      | fuel + 1 =>
        match (if power % 2 = 1 then result.mul base else .ok result) with
        | .error e => some (.error e)
        | .ok result' =>
          match base.mul base with
          | .error e => some (.error e)
          | .ok base' => powLoop fuel result' base' (power / 2)
    else some (.ok result)

/-- The power `operator^(int power)`. -/
def pow (fuel : Nat) (M : SquareMatrix) (power : Int) : Option (Except Error SquareMatrix) :=
  if power < 0 then some (.error (.MyLogicError "Matrix power must be non-negative"))
  else
    match identity M.size with
    | .error e => some (.error e)
    | .ok result =>
      if power = 0 then some (.ok result)
      else powLoop fuel result M power

/-- The body of `getMinor` before its last line: the matrix `minor`. -/
def buildMinor (M : SquareMatrix) (rowToRemove colToRemove : Int) :
    Except Error SquareMatrix := do
  let n := M.size
  let minor ← construct ((n : Int) - 1)
  let out ← forLoop (fun i (st : SquareMatrix × Nat) =>
    if (i : Int) = rowToRemove then .ok st
    else do
      let inner ← forLoop (fun j (st' : SquareMatrix × Nat) =>
        if (j : Int) = colToRemove then .ok st'
        else do
          let x ← M.getCell i j
          let minor' ← st'.1.setCell st.2 st'.2 x
          pure (minor', st'.2 + 1)) n (st.1, 0)
      pure (inner.1, st.2 + 1)) n (minor, 0)
  pure out.1

/-- The method `getMinor`, its last line `return !minor` calling `minorDet`. -/
def getMinorWith (minorDet : SquareMatrix → Option (Except Error ℚ)) (M : SquareMatrix)
    (rowToRemove colToRemove : Int) : Option (Except Error ℚ) :=
  match buildMinor M rowToRemove colToRemove with
  | .error e => some (.error e)
  | .ok minor => minorDet minor

/-- The cofactor loop of `operator!`: the value of `det` after the columns below `col`.
The operands of `sign * (*this)[0][col] * getMinor(0, col)` are evaluated left to right. -/
def cofactorLoop (minorDet : SquareMatrix → Option (Except Error ℚ)) (M : SquareMatrix) :
    Nat → Option (Except Error ℚ)
  | 0 => some (.ok 0)
  | col + 1 =>
    match cofactorLoop minorDet M col with
    | none => none
    | some (.error e) => some (.error e)
    | some (.ok det) =>
      let sign : ℚ := if col % 2 = 0 then 1 else -1
      match M.getCell 0 col with
      | .error e => some (.error e)
      | .ok x =>
        match getMinorWith minorDet M 0 col with
        | none => none
        | some (.error e) => some (.error e)
        | some (.ok m) => some (.ok (det + sign * x * m))

/-- The body of `operator!`, the recursive call going through `minorDet`. -/
def detBody (minorDet : SquareMatrix → Option (Except Error ℚ)) (M : SquareMatrix) :
    Option (Except Error ℚ) :=
  let n := M.size
  match forLoop (fun i (_ : Unit) =>
      if !(M.rows.getD i Vector.empty).allInitialized then
        .error (.MyLogicError "Matrix must be fully initialized to compute determinant")
      else .ok ()) n () with
  | .error e => some (.error e)
  | .ok _ =>
    if n = 1 then some (M.getCell 0 0)
    else if n = 2 then
      some (do
        let a ← M.getCell 0 0
        let d ← M.getCell 1 1
        let b ← M.getCell 0 1
        let c ← M.getCell 1 0
        pure (a * d - b * c))
    else cofactorLoop minorDet M n

/-- The determinant `operator!`; `fuel` bounds the depth of the recursion through
`getMinor`. -/
def det : Nat → SquareMatrix → Option (Except Error ℚ)
  | 0, M => detBody (fun _ => none) M
  | fuel + 1, M => detBody (det fuel) M

/-- The method `getMinor(rowToRemove, colToRemove)`; the call `!minor` takes one unit of
fuel. -/
def getMinor : Nat → SquareMatrix → Int → Int → Option (Except Error ℚ)
  | 0, M, r, c => getMinorWith (fun _ => none) M r c
  | fuel + 1, M, r, c => getMinorWith (det fuel) M r c

/-- A matrix given by its rows of written values (every cell initialized). -/
def ofLists (rows : List (List ℚ)) : SquareMatrix :=
  ⟨rows.map fun r => ⟨r.map fun x => ⟨x, true⟩⟩, rows.length⟩

end SquareMatrix

end SquareMatrixGM


namespace VectorGM

namespace Vector

/-- The vector whose cell `j` is `c j`, for `j < n`. -/
def tab (n : Nat) (c : Nat → Cell) : Vector := ⟨(List.range n).map c⟩

/-- The fully initialized vector of the values `f 0, ..., f (n - 1)`. -/
def ofFn (n : Nat) (f : Nat → ℚ) : Vector := tab n fun j => ⟨f j, true⟩

/-- The array of `r` vectors of length `k` whose cell `(i, j)` is `c i j`. -/
def table (r k : Nat) (c : Nat → Nat → Cell) : List Vector :=
  (List.range r).map fun i => tab k (c i)

end Vector

end VectorGM

namespace SquareMatrixGM

open VectorGM

namespace SquareMatrix

/-- The matrix of size `n` whose cell `(i, j)` is `c i j`. -/
def tab (n : Nat) (c : Nat → Nat → Cell) : SquareMatrix := ⟨Vector.table n n c, n⟩

/-- The fully initialized matrix of size `n` with the value `f i j` in cell `(i, j)`. -/
def ofFn (n : Nat) (f : Nat → Nat → ℚ) : SquareMatrix := tab n fun i j => ⟨f i j, true⟩

/-- The stored cell `(i, j)` (unchecked). -/
def cellAt (M : SquareMatrix) (i j : Nat) : Cell := (M.rows.getD i Vector.empty).cell j

/-- The stored value of cell `(i, j)` (unchecked). -/
def val (M : SquareMatrix) (i j : Nat) : ℚ := (M.cellAt i j).value

/-- The square invariant: `size` rows, each of length `size`, with `size = n`. -/
def WellFormed (M : SquareMatrix) (n : Nat) : Prop :=
  M.size = n ∧ M.rows.length = n ∧ ∀ r ∈ M.rows, r.size = n

/-- Every cell of every row has been written. -/
def FullyInit (M : SquareMatrix) : Prop :=
  ∀ r ∈ M.rows, ∀ c ∈ r.data, c.initialized = true

instance (M : SquareMatrix) (n : Nat) : Decidable (M.WellFormed n) := by
  unfold WellFormed; infer_instance

instance (M : SquareMatrix) : Decidable M.FullyInit := by
  unfold FullyInit; infer_instance

/-- The cell values of a matrix as a matrix over `ℚ` indexed by `Fin n`. -/
def toMatrix (n : Nat) (M : SquareMatrix) : Matrix (Fin n) (Fin n) ℚ :=
  Matrix.of fun i j => M.val i j

end SquareMatrix

end SquareMatrixGM

namespace SquareMatrixGM

open VectorGM

namespace SquareMatrix

/-- The in-place transpose `operator~`: the new state of `*this`.  The helper throws
before `rows` is replaced, so an exception leaves the matrix as it was. -/
def transpose (M : SquareMatrix) : Except Error SquareMatrix := do
  let transposed ← Vector.transposeColumnsToRows M.rows M.size
  pure { M with rows := transposed }

/-- The naive `p`-fold product `A * A * ... * A` (`p ≥ 1` factors, multiplied from the
left with `operator*`), the reference `operator^` is compared with. -/
def naivePow (A : SquareMatrix) : Nat → Except Error SquareMatrix
  | 0 => .ok A
  | 1 => .ok A
  | p + 2 =>
    match naivePow A (p + 1) with
    | .ok R => R.mul A
    | .error e => .error e

/-- The index of the source row (column) copied to row (column) `i` of a minor that
leaves out row (column) `r`. -/
def skipIndex (r i : Nat) : Nat := if i < r then i else i + 1

/-- The fully initialized matrix of size `n` holding the entries of `X`. -/
def ofMatrix (n : Nat) (X : Matrix (Fin n) (Fin n) ℚ) : SquareMatrix :=
  ofFn n fun i j => if h : i < n ∧ j < n then X ⟨i, h.1⟩ ⟨j, h.2⟩ else 0

end SquareMatrix

end SquareMatrixGM

/-- The outcome of a mutating method: the state of `*this` when the method is left, and
the exception that left it, if any. -/
abbrev Mutated (σ : Type) : Type := σ × Option Error

/-- The counted loop `for (int i = 0; i < n; ++i) body(i)` of a mutating method: an
exception leaves the loop with the state reached so far. -/
def forLoopMut {σ : Type} (body : Nat → σ → Mutated σ) : Nat → σ → Mutated σ
  | 0, s => (s, none)
  | n + 1, s =>
    match forLoopMut body n s with
    | (s', none) => body n s'
    | (s', some e) => (s', some e)

namespace VectorGM

namespace Vector

/-- The common body of `operator+`, `operator-` and `operator%` on two vectors: size
check, a fresh `result(size)`, then per index the two initialization checks and
`result[i] = data[i].value op other[i]`. -/
def elementwise (op : ℚ → ℚ → ℚ) (sizeMsg initMsg : String) (v other : Vector) :
    Except Error Vector :=
  if v.size ≠ other.size then .error (.MyLogicError sizeMsg)
  else do
    let result ← construct v.size
    forLoop (fun i (result : Vector) => do
      let a ← v.isInitialized i
      if !a then
        throw (.MyLogicError initMsg)
      let b ← other.isInitialized i
      if !b then
        throw (.MyLogicError initMsg)
      let y ← other.get i
      result.set i (op (v.cell i).value y)) v.size result

/-- The sum `Vector operator+(const Vector& other) const`. -/
def add (v other : Vector) : Except Error Vector :=
  elementwise (fun x y => x + y) "Vector sizes must match for addition"
    "Both vectors must be fully initialized for addition" v other

/-- The difference `Vector operator-(const Vector& other) const`. -/
def sub (v other : Vector) : Except Error Vector :=
  elementwise (fun x y => x - y) "Vector sizes must match for subtraction"
    "Both vectors must be fully initialized for subtraction" v other

/-- The element-wise product `Vector operator%(const Vector& other) const`. -/
def hadamard (v other : Vector) : Except Error Vector :=
  elementwise (fun x y => x * y) "Vector sizes must match for element-wise multiplication"
    "Both vectors must be fully initialized for element-wise multiplication" v other

/-- The common body of `operator+=` and `operator-=`: size check, then
`data[i].value op= other.data[i].value` on every cell, no flag read or written. -/
def compound (op : ℚ → ℚ → ℚ) (sizeMsg : String) (v other : Vector) : Mutated Vector :=
  if v.size ≠ other.size then (v, some (.MyLogicError sizeMsg))
  else
    forLoopMut (fun i (w : Vector) =>
      (w.store i (op (w.cell i).value (other.cell i).value), none)) v.size v

/-- The compound sum `Vector& operator+=(const Vector& other)`. -/
def addAssign (v other : Vector) : Mutated Vector :=
  compound (fun x y => x + y) "Vector sizes must match for addition" v other

/-- The compound difference `Vector& operator-=(const Vector& other)`. -/
def subAssign (v other : Vector) : Mutated Vector :=
  compound (fun x y => x - y) "Vector sizes must match for subtraction" v other

/-- The method `sum()`. -/
def sum (v : Vector) : Except Error ℚ :=
  forLoop (fun i total => do
    let a ← v.isInitialized i
    if !a then
      throw (.MyLogicError "Uninitialized cell in vector during sum()")
    pure (total + (v.cell i).value)) v.size 0

/-- Every cell of the vector has been written. -/
def FullyInit (v : Vector) : Prop := ∀ c ∈ v.data, c.initialized = true

instance (v : Vector) : Decidable v.FullyInit := by
  unfold FullyInit; infer_instance

/-- A vector given by its written values (every cell initialized). -/
def ofList (xs : List ℚ) : Vector := ⟨xs.map fun x => ⟨x, true⟩⟩

end Vector

end VectorGM

namespace SquareMatrixGM

open VectorGM

namespace SquareMatrix

/-- The statement `M[i] = v` (row access, then the copy assignment of `Vector`). -/
def setRow (M : SquareMatrix) (i : Int) (v : Vector) : Except Error SquareMatrix := do
  let _ ← M.row i
  pure { M with rows := M.rows.set i.toNat v }

/-- The common body of `operator+`, `operator-` and `operator%` on two matrices: size
check, a fresh `result(size)`, then `result[i] = row op other[i]` for every row. -/
def rowwise (f : Vector → Vector → Except Error Vector) (sizeMsg : String)
    (M other : SquareMatrix) : Except Error SquareMatrix :=
  if M.size ≠ other.size then .error (.MyLogicError sizeMsg)
  else do
    let result ← construct M.size
    forLoop (fun i (result : SquareMatrix) => do
      let o ← other.row i
      let s ← f (M.rows.getD i Vector.empty) o
      result.setRow i s) M.size result

/-- The sum `operator+(const SquareMatrix& other)`. -/
def add (M other : SquareMatrix) : Except Error SquareMatrix :=
  rowwise Vector.add "Matrix sizes must match for addition" M other

/-- The difference `operator-(const SquareMatrix& other)`. -/
def sub (M other : SquareMatrix) : Except Error SquareMatrix :=
  rowwise Vector.sub "Matrix sizes must match for subtraction" M other

/-- The element-wise product `operator%(const SquareMatrix& other)`. -/
def hadamard (M other : SquareMatrix) : Except Error SquareMatrix :=
  rowwise Vector.hadamard "Matrix sizes must match for element-wise multiplication" M other

/-- The common body of `operator+=` and `operator-=` on two matrices: size check, then
`row op= other[i]` on every row in place. -/
def rowwiseAssign (f : Vector → Vector → Mutated Vector) (sizeMsg : String)
    (M other : SquareMatrix) : Mutated SquareMatrix :=
  if M.size ≠ other.size then (M, some (.MyLogicError sizeMsg))
  else
    forLoopMut (fun i (M' : SquareMatrix) =>
      match other.row i with
      | .error e => (M', some e)
      | .ok o =>
        let r := f (M'.rows.getD i Vector.empty) o
        ({ M' with rows := M'.rows.set i r.1 }, r.2)) M.size M

/-- The compound sum `operator+=(const SquareMatrix& other)`. -/
def addAssign (M other : SquareMatrix) : Mutated SquareMatrix :=
  rowwiseAssign Vector.addAssign "Matrix sizes must match for addition" M other

/-- The compound difference `operator-=(const SquareMatrix& other)`. -/
def subAssign (M other : SquareMatrix) : Mutated SquareMatrix :=
  rowwiseAssign Vector.subAssign "Matrix sizes must match for subtraction" M other

/-- The in-place transpose `operator~` as a mutating method: `rows` is replaced after the
helper has returned, so an exception of the helper leaves `*this` as it was. -/
def transposeState (M : SquareMatrix) : Mutated SquareMatrix :=
  match Vector.transposeColumnsToRows M.rows M.size with
  | .ok transposed => ({ M with rows := transposed }, none)
  | .error e => (M, some e)

/-- The method `sum()`: the total of the row sums. -/
def sum (M : SquareMatrix) : Except Error ℚ :=
  forLoop (fun i total => do
    let s ← (M.rows.getD i Vector.empty).sum
    pure (total + s)) M.size 0

end SquareMatrix

end SquareMatrixGM

namespace VectorGM.Vector

/-- The contract of a non-mutating element-wise operator `f` computing `op` cell by cell:
it throws a logic error exactly when the sizes differ or a cell of an operand is
unwritten; otherwise the result has the length of the operands, every cell written, and
`op` of the two stored values in every cell. -/
def ElementwiseContract (f : Vector → Vector → Except Error Vector) (op : ℚ → ℚ → ℚ)
    (a b : Vector) : Prop :=
  ((∃ msg, f a b = .error (.MyLogicError msg)) ↔
    (a.size ≠ b.size ∨ ¬ a.FullyInit ∨ ¬ b.FullyInit)) ∧
  (a.size = b.size → a.FullyInit → b.FullyInit →
    ∃ r, f a b = .ok r ∧ r.size = a.size ∧ r.FullyInit ∧
      ∀ i, i < a.size → r.cell i = ⟨op (a.cell i).value (b.cell i).value, true⟩)

end VectorGM.Vector

namespace VectorGM

/-- The conversion `static_cast<int>(x)` of a `double`: truncation toward zero.  C++ leaves
the conversion undefined when the truncated value is outside the range of `int`; the
embedding covers the values inside it. -/
def castInt (x : ℚ) : Int := x.num.tdiv x.den

/-- The `int` remainder `a % b` of C++: the remainder of the division truncated toward
zero (it takes the sign of `a`).  C++ leaves `a % b` undefined for `b = 0` and for
`INT_MIN % -1`; the callers check `b = 0`, the second case is outside the embedding. -/
def cppRem (a b : Int) : Int := a.tmod b

namespace Vector

/-- The common body of the non-mutating unary and scalar operators (`operator-()`,
`operator*(double)`, `operator/(double)`, `operator%(int)`) after their zero check: a fresh
`result(size)`, then per index the initialization check and `result[i] = f(data[i].value)`. -/
def mapChecked (f : ℚ → ℚ) (initMsg : String) (v : Vector) : Except Error Vector := do
  let result ← construct v.size
  forLoop (fun i (result : Vector) => do
    let a ← v.isInitialized i
    if !a then
      throw (.MyLogicError initMsg)
    result.set i (f (v.cell i).value)) v.size result

/-- The common body of the compound scalar operators (`operator*=`, `operator/=`,
`operator%=`) after their zero check: per index the initialization check, then
`data[i].value = f(data[i].value)` in place. -/
def mapInPlace (f : ℚ → ℚ) (initMsg : String) (v : Vector) : Mutated Vector :=
  forLoopMut (fun i (w : Vector) =>
    match w.isInitialized i with
    | .error e => (w, some e)
    | .ok a =>
      if !a then (w, some (.MyLogicError initMsg))
      else (w.store i (f (w.cell i).value), none)) v.size v

/-- The common body of the prefix `operator++` and `operator--`: per index the test of the
flag `data[i].initialized`, then `data[i].value += d` in place. -/
def bumpInPlace (d : ℚ) (initMsg : String) (v : Vector) : Mutated Vector :=
  forLoopMut (fun i (w : Vector) =>
    if !(w.cell i).initialized then (w, some (.MyLogicError initMsg))
    else (w.store i ((w.cell i).value + d), none)) v.size v

/-- The unary minus `Vector operator-() const`. -/
def neg (v : Vector) : Except Error Vector :=
  mapChecked (fun x => -x) "Cannot negate uninitialized cell in vector" v

/-- The scalar product `Vector operator*(double scalar) const`. -/
def mulScalar (v : Vector) (scalar : ℚ) : Except Error Vector :=
  mapChecked (fun x => x * scalar) "Cannot multiply uninitialized cell" v

/-- The compound scalar product `Vector& operator*=(double scalar)`. -/
def mulScalarAssign (v : Vector) (scalar : ℚ) : Mutated Vector :=
  mapInPlace (fun x => x * scalar) "Cannot multiply uninitialized cell" v

/-- The scalar modulo `Vector operator%(int scalar) const`. -/
def modScalar (v : Vector) (scalar : Int) : Except Error Vector :=
  if scalar = 0 then .error (.MyLogicError "Modulo by zero")
  else mapChecked (fun x => (cppRem (castInt x) scalar : Int)) "Cannot modulo uninitialized cell" v

/-- The compound scalar modulo `Vector& operator%=(int scalar)`. -/
def modScalarAssign (v : Vector) (scalar : Int) : Mutated Vector :=
  if scalar = 0 then (v, some (.MyLogicError "Modulo by zero"))
  else mapInPlace (fun x => (cppRem (castInt x) scalar : Int)) "Cannot modulo uninitialized cell" v

/-- The scalar quotient `Vector operator/(double scalar) const`. -/
def divScalar (v : Vector) (scalar : ℚ) : Except Error Vector :=
  if scalar = 0 then .error (.MyLogicError "Division by zero")
  else mapChecked (fun x => x / scalar) "Cannot divide uninitialized cell" v

/-- The compound scalar quotient `Vector& operator/=(double scalar)`. -/
def divScalarAssign (v : Vector) (scalar : ℚ) : Mutated Vector :=
  if scalar = 0 then (v, some (.MyLogicError "Division by zero"))
  else mapInPlace (fun x => x / scalar) "Cannot divide uninitialized cell" v

/-- The prefix increment `Vector& operator++()`; the reference returned is the state. -/
def preInc (v : Vector) : Mutated Vector :=
  bumpInPlace 1 "Cannot increment uninitialized cell" v

/-- The prefix decrement `Vector& operator--()`; the reference returned is the state. -/
def preDec (v : Vector) : Mutated Vector :=
  bumpInPlace (-1) "Cannot decrement uninitialized cell" v

/-- The postfix increment `Vector operator++(int)`: the state of `*this`, and the copy
`temp` taken before the increment, returned unless the increment throws. -/
def postInc (v : Vector) : Mutated Vector × Option Vector :=
  match v.preInc with
  | (w, none) => ((w, none), some v)
  | (w, some e) => ((w, some e), none)

/-- The postfix decrement `Vector operator--(int)`: the state of `*this`, and the copy
`temp` taken before the decrement, returned unless the decrement throws. -/
def postDec (v : Vector) : Mutated Vector × Option Vector :=
  match v.preDec with
  | (w, none) => ((w, none), some v)
  | (w, some e) => ((w, some e), none)

end Vector

end VectorGM

namespace SquareMatrixGM

open VectorGM

namespace SquareMatrix

/-- The common body of the non-mutating unary and scalar operators on a matrix after
their zero check: a fresh `result(size)`, then `result[i] = f(row)` for every row. -/
def mapRows (f : Vector → Except Error Vector) (M : SquareMatrix) :
    Except Error SquareMatrix := do
  let result ← construct M.size
  forLoop (fun i (result : SquareMatrix) => do
    let s ← f (M.rows.getD i Vector.empty)
    result.setRow i s) M.size result

/-- The common body of the mutating unary and scalar operators on a matrix after their
zero check: `f` applied to every row in place. -/
def mapRowsInPlace (f : Vector → Mutated Vector) (M : SquareMatrix) : Mutated SquareMatrix :=
  forLoopMut (fun i (M' : SquareMatrix) =>
    let r := f (M'.rows.getD i Vector.empty)
    ({ M' with rows := M'.rows.set i r.1 }, r.2)) M.size M

/-- The unary minus `operator-() const`. -/
def neg (M : SquareMatrix) : Except Error SquareMatrix :=
  mapRows Vector.neg M

/-- The scalar product `operator*(double scalar) const`. -/
def mulScalar (M : SquareMatrix) (scalar : ℚ) : Except Error SquareMatrix :=
  mapRows (fun row => row.mulScalar scalar) M

/-- The compound scalar product `operator*=(double scalar)`. -/
def mulScalarAssign (M : SquareMatrix) (scalar : ℚ) : Mutated SquareMatrix :=
  mapRowsInPlace (fun row => row.mulScalarAssign scalar) M

/-- The scalar modulo `operator%(int scalar) const`. -/
def modScalar (M : SquareMatrix) (scalar : Int) : Except Error SquareMatrix :=
  if scalar = 0 then .error (.MyLogicError "Modulo by zero")
  else mapRows (fun row => row.modScalar scalar) M

/-- The compound scalar modulo `operator%=(int scalar)`. -/
def modScalarAssign (M : SquareMatrix) (scalar : Int) : Mutated SquareMatrix :=
  if scalar = 0 then (M, some (.MyLogicError "Modulo by zero"))
  else mapRowsInPlace (fun row => row.modScalarAssign scalar) M

/-- The scalar quotient `operator/(double scalar) const`. -/
def divScalar (M : SquareMatrix) (scalar : ℚ) : Except Error SquareMatrix :=
  if scalar = 0 then .error (.MyLogicError "Division by zero")
  else mapRows (fun row => row.divScalar scalar) M

/-- The compound scalar quotient `operator/=(double scalar)`. -/
def divScalarAssign (M : SquareMatrix) (scalar : ℚ) : Mutated SquareMatrix :=
  if scalar = 0 then (M, some (.MyLogicError "Division by zero"))
  else mapRowsInPlace (fun row => row.divScalarAssign scalar) M

/-- The prefix increment `operator++()`; the reference returned is the state. -/
def preInc (M : SquareMatrix) : Mutated SquareMatrix :=
  mapRowsInPlace Vector.preInc M

/-- The prefix decrement `operator--()`; the reference returned is the state. -/
def preDec (M : SquareMatrix) : Mutated SquareMatrix :=
  mapRowsInPlace Vector.preDec M

/-- The postfix increment `operator++(int)`: the state of `*this`, and the copy `temp`
taken before the increment, returned unless the increment throws. -/
def postInc (M : SquareMatrix) : Mutated SquareMatrix × Option SquareMatrix :=
  match M.preInc with
  | (M', none) => ((M', none), some M)
  | (M', some e) => ((M', some e), none)

/-- The postfix decrement `operator--(int)`: the state of `*this`, and the copy `temp`
taken before the decrement, returned unless the decrement throws. -/
def postDec (M : SquareMatrix) : Mutated SquareMatrix × Option SquareMatrix :=
  match M.preDec with
  | (M', none) => ((M', none), some M)
  | (M', some e) => ((M', some e), none)

end SquareMatrix

end SquareMatrixGM

namespace VectorGM

/-- Truncation toward zero, as the specification words it: the floor of a non-negative number,
the ceiling of a negative one. -/
def truncTowardZero (x : ℚ) : Int := if 0 ≤ x then ⌊x⌋ else ⌈x⌉

/-- The range of a 32-bit `int`. -/
def InIntRange (a : Int) : Prop := -2147483648 ≤ a ∧ a ≤ 2147483647

instance (a : Int) : Decidable (InIntRange a) := by
  unfold InIntRange; infer_instance

end VectorGM

namespace VectorGM

/-- The operands on which C++ defines `static_cast<int>(x) % k`: the truncated value is in
the range of `int`, `k` is not 0, and the pair is not `INT_MIN % -1`. -/
def RemDefined (x : ℚ) (k : Int) : Prop :=
  InIntRange (truncTowardZero x) ∧ k ≠ 0 ∧ ¬ (truncTowardZero x = -2147483648 ∧ k = -1)

instance (x : ℚ) (k : Int) : Decidable (RemDefined x k) := by
  unfold RemDefined
  infer_instance

end VectorGM

namespace VectorGM.Vector

/-- A compound operator mirrors its non-mutating form: it throws exactly when the
non-mutating form throws, and the same exception, which is a logic error; and when it does
not throw, the state it leaves is the vector the non-mutating form returns (same length,
same cell values, same flags). -/
def Mirrors (compound : Mutated Vector) (plain : Except Error Vector) : Prop :=
  (∀ e, compound.2 = some e ↔ plain = .error e) ∧
  (∀ e, compound.2 = some e → ∃ msg, e = .MyLogicError msg) ∧
  (compound.2 = none →
    ∃ r, plain = .ok r ∧ compound.1.size = r.size ∧ ∀ i, compound.1.cell i = r.cell i)

end VectorGM.Vector

namespace SquareMatrixGM.SquareMatrix

/-- Modelled from the spec: the common body of the six comparison operators, which
`SquareMatrix.hpp` declares ("Comparison Operators (based on total sum of elements)") and
no file under `src/` defines.  The spec: "ALL comparisons reduce both matrices to their
total element sum and compare those two scalars", and "Any `LogicError` from an
uninitialized row's `sum()` propagates". -/
def compareSums (cmp : ℚ → ℚ → Bool) (M other : SquareMatrix) : Except Error Bool := do
  let a ← M.sum
  let b ← other.sum
  pure (cmp a b)

/-- Modelled from the spec: `operator==`, missing from `src/`.  The spec: "Equality uses an
implementation-defined floating-point tolerance (values extremely close, e.g. differing by
1e-10, compare equal) rather than exact equality"; the tolerance is the parameter `tol`. -/
def eq (tol : ℚ) (M other : SquareMatrix) : Except Error Bool :=
  compareSums (fun a b => decide (|a - b| ≤ tol)) M other

/-- Modelled from the spec: `operator!=`, missing from `src/`: the sums are not equal
within the tolerance. -/
def ne (tol : ℚ) (M other : SquareMatrix) : Except Error Bool :=
  compareSums (fun a b => !decide (|a - b| ≤ tol)) M other

/-- Modelled from the spec: `operator<`, missing from `src/`: the comparison of the sums. -/
def lt (M other : SquareMatrix) : Except Error Bool :=
  compareSums (fun a b => decide (a < b)) M other

/-- Modelled from the spec: `operator>`, missing from `src/`: the comparison of the sums. -/
def gt (M other : SquareMatrix) : Except Error Bool :=
  compareSums (fun a b => decide (a > b)) M other

/-- Modelled from the spec: `operator<=`, missing from `src/`: the comparison of the
sums. -/
def le (M other : SquareMatrix) : Except Error Bool :=
  compareSums (fun a b => decide (a ≤ b)) M other

/-- Modelled from the spec: `operator>=`, missing from `src/`: the comparison of the
sums. -/
def ge (M other : SquareMatrix) : Except Error Bool :=
  compareSums (fun a b => decide (a ≥ b)) M other

/-- The total of all stored values of a matrix of size `n`. -/
def total (n : Nat) (M : SquareMatrix) : ℚ :=
  ∑ i in Finset.range n, ∑ j in Finset.range n, M.val i j

end SquareMatrixGM.SquareMatrix

namespace VectorGM.Vector

/-- The outcome `r` of an in-place operator that maps every value through `f`, run on a
vector `v` with an unwritten cell: a logic error, thrown at the first unwritten cell `m`,
with the cells before `m` already updated and cell `m` and the cells after it as they
were; the length is unchanged. -/
def StopsAtFirstUnwritten (f : ℚ → ℚ) (v : Vector) (r : Mutated Vector) : Prop :=
  ∃ m, m < v.size ∧ (v.cell m).initialized = false ∧
    (∀ j, j < m → (v.cell j).initialized = true) ∧
    (∃ msg, r.2 = some (.MyLogicError msg)) ∧ r.1.size = v.size ∧
    ∀ j, j < v.size → r.1.cell j = if j < m then ⟨f (v.cell j).value, true⟩ else v.cell j

end VectorGM.Vector

namespace SquareMatrixGM.SquareMatrix

/-- The outcome `r` of a row-by-row in-place operator that maps every value through `f`,
run on a matrix `M` of size `n` with an unwritten cell: a logic error, thrown at the first
unwritten cell `(i, m)` in row-major order, with the cells before it already updated and
cell `(i, m)` and the cells after it as they were; the matrix is still well-formed. -/
def StopsAtFirstUnwritten (f : ℚ → ℚ) (n : Nat) (M : SquareMatrix)
    (r : Mutated SquareMatrix) : Prop :=
  ∃ i m, i < n ∧ m < n ∧ (M.cellAt i m).initialized = false ∧
    (∀ a b, a < n → b < n → (a < i ∨ (a = i ∧ b < m)) →
      (M.cellAt a b).initialized = true) ∧
    (∃ msg, r.2 = some (.MyLogicError msg)) ∧ r.1.WellFormed n ∧
    ∀ a b, a < n → b < n →
      r.1.cellAt a b =
        if a < i ∨ (a = i ∧ b < m) then ⟨f (M.val a b), true⟩ else M.cellAt a b

end SquareMatrixGM.SquareMatrix

namespace SquareMatrixGM.SquareMatrix

/-- The copy constructor `SquareMatrix(const SquareMatrix& other)`: `size` default vectors,
then `rows[i] = other.rows[i]` for every `i < size`. -/
def copy (other : SquareMatrix) : SquareMatrix :=
  ⟨(forLoopMut (fun i (rows : List VectorGM.Vector) =>
      (rows.set i (other.rows.getD i VectorGM.Vector.empty), none)) other.size
      (List.replicate other.size VectorGM.Vector.empty)).1, other.size⟩

end SquareMatrixGM.SquareMatrix

/-! ## Loops -/

theorem forLoop_succ {σ : Type} (body : Nat → σ → Except Error σ) (n : Nat) (s : σ) :
    forLoop body (n + 1) s =
      match forLoop body n s with
      | .ok s' => body n s'
      | .error e => .error e := rfl

/-- A loop whose `i`-th iteration takes the state `g i` to `g (i + 1)` ends in `g n`. -/
theorem forLoop_eq_of_steps {σ : Type} (body : Nat → σ → Except Error σ) (g : Nat → σ)
    (n : Nat) (hstep : ∀ i, i < n → body i (g i) = .ok (g (i + 1))) :
    forLoop body n (g 0) = .ok (g n) := by
  induction n with
  | zero => rfl
  | succ k ih =>
    rw [forLoop_succ, ih (fun i hi => hstep i (Nat.lt_succ_of_lt hi))]
    exact hstep k (Nat.lt_succ_self k)

/-- The same, from a start state given apart from the invariant. -/
theorem forLoop_eq_of_steps_from {σ : Type} (body : Nat → σ → Except Error σ) (g : Nat → σ)
    (n : Nat) (s : σ) (h0 : g 0 = s) (hstep : ∀ i, i < n → body i (g i) = .ok (g (i + 1))) :
    forLoop body n s = .ok (g n) := by
  rw [← h0]
  exact forLoop_eq_of_steps body g n hstep

/-- Two loop bodies that agree below the bound run the same loop. -/
theorem forLoop_congr {σ : Type} (body body' : Nat → σ → Except Error σ) (n : Nat) (s : σ)
    (h : ∀ i, i < n → ∀ t, body i t = body' i t) :
    forLoop body n s = forLoop body' n s := by
  induction n with
  | zero => rfl
  | succ k ih =>
    rw [forLoop_succ, forLoop_succ, ih (fun i hi => h i (Nat.lt_succ_of_lt hi))]
    cases forLoop body' k s with
    | ok t => exact h k (Nat.lt_succ_self k) t
    | error e => rfl

theorem List.map_range_set {α : Type} (n : Nat) (c : Nat → α) (j : Nat) (v : α) :
    ((List.range n).map c).set j v = (List.range n).map fun b => if b = j then v else c b := by
  apply List.ext_getElem
  · simp
  · intro i h1 h2
    simp only [List.length_map, List.length_range, List.length_set] at h1 h2
    simp only [List.getElem_set, List.getElem_map, List.getElem_range]
    by_cases hji : j = i
    · simp [hji]
    · have hij : ¬ i = j := fun h => hji h.symm
      simp [hji, hij]

theorem List.getD_map_range {α : Type} (n : Nat) (c : Nat → α) (j : Nat) (d : α)
    (h : j < n) : ((List.range n).map c).getD j d = c j := by
  simp [List.getD, h]

namespace VectorGM.Vector

theorem size_vtab (n : Nat) (c : Nat → Cell) : (tab n c).size = n := by
  simp [tab, size]

theorem cell_tab (n : Nat) (c : Nat → Cell) (j : Nat) (h : j < n) : (tab n c).cell j = c j := by
  unfold cell tab
  exact List.getD_map_range _ _ _ _ h

theorem vtab_congr (n : Nat) (c c' : Nat → Cell) (h : ∀ j, j < n → c j = c' j) :
    tab n c = tab n c' := by
  simp only [tab, Vector.mk.injEq]
  apply List.map_congr_left
  intro j hj
  exact h j (List.mem_range.mp hj)

theorem get_tab (n : Nat) (c : Nat → Cell) (j : Nat) (h : j < n) :
    (tab n c).get j = .ok (c j).value := by
  have : ¬ ((j : Int) < 0 ∨ (j : Int) ≥ ((tab n c).size : Int)) := by
    rw [size_vtab]; omega
  simp only [get, this, if_false, Int.toNat_ofNat, cell_tab n c j h]

theorem isInitialized_tab (n : Nat) (c : Nat → Cell) (j : Nat) (h : j < n) :
    (tab n c).isInitialized j = .ok (c j).initialized := by
  have : ¬ ((j : Int) < 0 ∨ (j : Int) ≥ ((tab n c).size : Int)) := by
    rw [size_vtab]; omega
  simp only [isInitialized, this, if_false, Int.toNat_ofNat, cell_tab n c j h]

theorem set_tab (n : Nat) (c : Nat → Cell) (j : Nat) (x : ℚ) (h : j < n) :
    (tab n c).set j x = .ok (tab n fun b => if b = j then ⟨x, true⟩ else c b) := by
  have hb : ¬ ((j : Int) < 0 ∨ (j : Int) ≥ ((tab n c).size : Int)) := by
    rw [size_vtab]; omega
  simp only [set, touch, hb, if_false, Int.toNat_ofNat, store, cell_tab n c j h]
  simp only [tab, List.map_range_set, cell, Except.ok.injEq, Vector.mk.injEq]
  rw [List.getD_map_range _ _ _ _ h]
  apply List.map_congr_left
  intro b _
  by_cases hbj : b = j <;> simp [hbj]

end VectorGM.Vector

namespace VectorGM.Vector

theorem vconstruct_ofNat (n : Nat) : construct (n : Int) = .ok (tab n fun _ => {}) := by
  have h : ¬ ((n : Int) < 0) := by omega
  simp only [construct, h, if_false, Int.toNat_ofNat, tab, Except.ok.injEq, Vector.mk.injEq]
  apply List.ext_getElem <;> simp

theorem length_table (r k : Nat) (c : Nat → Nat → Cell) : (table r k c).length = r := by
  simp [table]

theorem getD_table (r k : Nat) (c : Nat → Nat → Cell) (i : Nat) (h : i < r) :
    (table r k c).getD i empty = tab k (c i) := by
  unfold table
  exact List.getD_map_range _ _ _ _ h

theorem table_congr (r k : Nat) (c c' : Nat → Nat → Cell)
    (h : ∀ i, i < r → ∀ j, j < k → c i j = c' i j) : table r k c = table r k c' := by
  unfold table
  apply List.map_congr_left
  intro i hi
  exact vtab_congr k _ _ (h i (List.mem_range.mp hi))

theorem set_table (r k : Nat) (c : Nat → Nat → Cell) (i : Nat) (c' : Nat → Cell) :
    (table r k c).set i (tab k c') = table r k fun a => if a = i then c' else c a := by
  unfold table
  rw [List.map_range_set]
  apply List.map_congr_left
  intro a _
  by_cases ha : a = i <;> simp [ha]

/-- Writing the cell `(i, j)` of a table: the statement `result[i][j] = x` on an array. -/
theorem set_set_table (r k : Nat) (c : Nat → Nat → Cell) (i j : Nat) (x : ℚ)
    (hi : i < r) (hj : j < k) :
    (match ((table r k c).getD i empty).set j x with
      | .ok row => Except.ok ((table r k c).set i row)
      | .error e => .error e) =
      .ok (table r k fun a b => if a = i ∧ b = j then ⟨x, true⟩ else c a b) := by
  rw [getD_table r k c i hi, set_tab k (c i) j x hj]
  simp only [set_table, Except.ok.injEq]
  apply table_congr
  intro a _ b _
  by_cases ha : a = i <;> by_cases hb : b = j <;> simp [ha, hb]

/-- The allocation loop `for i: result[i] = Vector(k)` over `r` default vectors. -/
theorem alloc_loop (r k : Nat) :
    forLoop (fun i (result : List Vector) => do
      let v ← construct (k : Int)
      pure (result.set i v)) r (List.replicate r empty) =
      .ok (table r k fun _ _ => {}) := by
  have key := forLoop_eq_of_steps (fun i (result : List Vector) => do
      let v ← construct (k : Int)
      pure (result.set i v))
    (fun m => (List.range r).map fun a => if a < m then tab k (fun _ => {}) else empty) r
    (by
      intro i _
      simp only [vconstruct_ofNat, bind, Except.bind, pure, Except.pure, List.map_range_set,
        Except.ok.injEq]
      apply List.map_congr_left
      intro a _
      by_cases h1 : a = i
      · simp [h1]
      · by_cases h2 : a < i
        · have : a < i + 1 := by omega
          simp [h1, h2, this]
        · have : ¬ a < i + 1 := by omega
          simp [h1, h2, this])
  have h0 : (List.range r).map (fun a => if a < 0 then tab k (fun _ => {}) else empty) =
      List.replicate r empty := by
    apply List.ext_getElem <;> simp
  have hr : (List.range r).map (fun a => if a < r then tab k (fun _ => {}) else empty) =
      table r k fun _ _ => {} := by
    unfold table
    apply List.map_congr_left
    intro a ha
    simp [List.mem_range.mp ha]
  simp only [] at key
  rw [h0, hr] at key
  exact key

end VectorGM.Vector

namespace SquareMatrixGM.SquareMatrix

open VectorGM

theorem construct_ofNat (n : Nat) : construct (n : Int) = .ok (tab n fun _ _ => {}) := by
  have h : ¬ ((n : Int) < 0) := by omega
  simp only [construct, h, if_false, Int.toNat_ofNat]
  have := Vector.alloc_loop n n
  simp only [bind, Except.bind, pure, Except.pure] at this ⊢
  rw [this]
  rfl

theorem size_tab (n : Nat) (c : Nat → Nat → Cell) : (tab n c).size = n := rfl

theorem tab_congr (n : Nat) (c c' : Nat → Nat → Cell)
    (h : ∀ i, i < n → ∀ j, j < n → c i j = c' i j) : tab n c = tab n c' := by
  unfold tab
  rw [Vector.table_congr n n c c' h]

theorem row_tab (n : Nat) (c : Nat → Nat → Cell) (i : Nat) (h : i < n) :
    (tab n c).row i = .ok (Vector.tab n (c i)) := by
  have hb : ¬ ((i : Int) < 0 ∨ (i : Int) ≥ ((tab n c).size : Int)) := by
    rw [size_tab]; omega
  simp only [row, hb, if_false, Int.toNat_ofNat]
  rw [show (tab n c).rows = Vector.table n n c from rfl, Vector.getD_table n n c i h]

theorem getCell_tab (n : Nat) (c : Nat → Nat → Cell) (i j : Nat) (hi : i < n) (hj : j < n) :
    (tab n c).getCell i j = .ok (c i j).value := by
  simp only [getCell, row_tab n c i hi, bind, Except.bind, Vector.get_tab n (c i) j hj]

theorem setCell_tab (n : Nat) (c : Nat → Nat → Cell) (i j : Nat) (x : ℚ)
    (hi : i < n) (hj : j < n) :
    (tab n c).setCell i j x =
      .ok (tab n fun a b => if a = i ∧ b = j then ⟨x, true⟩ else c a b) := by
  simp only [setCell, row_tab n c i hi, bind, Except.bind, Vector.set_tab n (c i) j x hj,
    pure, Except.pure, Int.toNat_ofNat, Except.ok.injEq]
  show (⟨(Vector.table n n c).set i _, n⟩ : SquareMatrix) = ⟨_, n⟩
  rw [Vector.set_table]
  congr 1
  apply Vector.table_congr
  intro a _ b _
  by_cases ha : a = i <;> by_cases hb : b = j <;> simp [ha, hb]

theorem cellAt_tab (n : Nat) (c : Nat → Nat → Cell) (i j : Nat) (hi : i < n) (hj : j < n) :
    (tab n c).cellAt i j = c i j := by
  unfold cellAt
  rw [show (tab n c).rows = Vector.table n n c from rfl, Vector.getD_table n n c i hi,
    Vector.cell_tab n (c i) j hj]

theorem val_ofFn (n : Nat) (f : Nat → Nat → ℚ) (i j : Nat) (hi : i < n) (hj : j < n) :
    (ofFn n f).val i j = f i j := by
  unfold val ofFn
  rw [cellAt_tab n _ i j hi hj]

theorem ofFn_congr (n : Nat) (f g : Nat → Nat → ℚ)
    (h : ∀ i, i < n → ∀ j, j < n → f i j = g i j) : ofFn n f = ofFn n g := by
  unfold ofFn
  apply tab_congr
  intro i hi j hj
  rw [h i hi j hj]

end SquareMatrixGM.SquareMatrix

/-- A double loop that writes `f i j` into cell `(i, j)` of a tabulated state, row by row,
ends in the fully written table, whatever the cells held before. -/
theorem fill_loop {σ : Type} (T : (Nat → Nat → VectorGM.Cell) → σ) (r k : Nat)
    (step : Nat → Nat → σ → Except Error σ) (f : Nat → Nat → ℚ)
    (hcongr : ∀ c c', (∀ i, i < r → ∀ j, j < k → c i j = c' i j) → T c = T c')
    (hstep : ∀ i, i < r → ∀ j, j < k → ∀ c,
      step i j (T c) = .ok (T fun a b => if a = i ∧ b = j then ⟨f i j, true⟩ else c a b))
    (c0 : Nat → Nat → VectorGM.Cell) :
    forLoop (fun i R => forLoop (fun j R' => step i j R') k R) r (T c0) =
      .ok (T fun a b => ⟨f a b, true⟩) := by
  have inner : ∀ i, i < r → ∀ c,
      forLoop (fun j R' => step i j R') k (T c) =
        .ok (T fun a b => if a = i then ⟨f a b, true⟩ else c a b) := by
    intro i hi c
    have key := forLoop_eq_of_steps (fun j R' => step i j R')
      (fun m => T fun a b => if a = i ∧ b < m then ⟨f a b, true⟩ else c a b) k
      (by
        intro j hj
        simp only []
        rw [hstep i hi j hj]
        congr 1
        apply hcongr
        intro a _ b _
        by_cases ha : a = i
        · by_cases hb : b = j
          · have : b < j + 1 := by omega
            simp [ha, hb]
          · by_cases hb' : b < j
            · have : b < j + 1 := by omega
              simp [ha, hb, hb', this]
            · have : ¬ b < j + 1 := by omega
              simp [ha, hb, hb', this]
        · simp [ha])
    simp only [] at key
    have h0 : (T fun a b => if a = i ∧ b < 0 then ⟨f a b, true⟩ else c a b) = T c := by
      apply hcongr
      intro a _ b _
      simp
    have hk : (T fun a b => if a = i ∧ b < k then ⟨f a b, true⟩ else c a b) =
        T fun a b => if a = i then ⟨f a b, true⟩ else c a b := by
      apply hcongr
      intro a _ b hb
      simp [hb]
    rw [h0, hk] at key
    exact key
  have key := forLoop_eq_of_steps (fun i R => forLoop (fun j R' => step i j R') k R)
    (fun m => T fun a b => if a < m then ⟨f a b, true⟩ else c0 a b) r
    (by
      intro i hi
      simp only []
      rw [inner i hi]
      congr 1
      apply hcongr
      intro a _ b _
      by_cases ha : a = i
      · simp [ha]
      · by_cases ha' : a < i
        · have : a < i + 1 := by omega
          simp [ha, ha', this]
        · have : ¬ a < i + 1 := by omega
          simp [ha, ha', this])
  simp only [] at key
  have h0 : (T fun a b => if a < 0 then ⟨f a b, true⟩ else c0 a b) = T c0 := by
    apply hcongr
    intro a _ b _
    simp
  have hr : (T fun a b => if a < r then ⟨f a b, true⟩ else c0 a b) =
      T fun a b => ⟨f a b, true⟩ := by
    apply hcongr
    intro a ha b _
    simp [ha]
  rw [h0, hr] at key
  exact key

namespace SquareMatrixGM.SquareMatrix

open VectorGM

/-- The double loop `for i: for j: result[i][j] = f i j` on a matrix of size `n`. -/
theorem fill_matrix (n : Nat) (step : Nat → Nat → SquareMatrix → Except Error SquareMatrix)
    (f : Nat → Nat → ℚ)
    (hstep : ∀ i, i < n → ∀ j, j < n → ∀ c,
      step i j (tab n c) = (tab n c).setCell i j (f i j))
    (c0 : Nat → Nat → Cell) :
    forLoop (fun i R => forLoop (fun j R' => step i j R') n R) n (tab n c0) =
      .ok (ofFn n f) :=
  fill_loop (tab n) n n step f (tab_congr n)
    (fun i hi j hj c => by rw [hstep i hi j hj c, setCell_tab n c i j (f i j) hi hj]) c0

/-- The result of `identity(n)`: ones on the diagonal, zeros elsewhere, every cell written. -/
theorem identity_ofNat (n : Nat) :
    identity (n : Int) = .ok (ofFn n fun i j => if i = j then 1 else 0) := by
  simp only [identity, construct_ofNat, bind, Except.bind, Int.toNat_ofNat]
  exact fill_matrix n (fun i j R => R.setCell i j (if i = j then 1 else 0))
    (fun i j => if i = j then 1 else 0) (fun i _ j _ c => rfl) _

/-- A well-formed matrix is the table of its stored cells. -/
theorem eq_tab_of_wellFormed (M : SquareMatrix) (n : Nat) (h : M.WellFormed n) :
    M = tab n M.cellAt := by
  obtain ⟨hs, hl, hr⟩ := h
  cases M with
  | mk rows size =>
    simp only at hs hl hr
    subst hs
    simp only [tab, mk.injEq, and_true]
    apply List.ext_getElem
    · simp [Vector.table, hl]
    · intro i h1 h2
      have hrow := hr rows[i] (List.getElem_mem h1)
      simp only [Vector.table, List.getElem_map, List.getElem_range]
      rw [hl] at h1
      have hcell : ∀ j, cellAt ⟨rows, size⟩ i j = (rows[i]).cell j := by
        intro j
        simp [cellAt, List.getD, h1, hl]
      cases hv : rows[i] with
      | mk data =>
        rw [hv] at hrow
        simp only [Vector.size] at hrow
        simp only [Vector.tab, Vector.mk.injEq]
        apply List.ext_getElem
        · simp [hrow]
        · intro j h3 h4
          simp only [List.getElem_map, List.getElem_range, hcell, hv, Vector.cell]
          simp [List.getD, h3]

/-- A well-formed, fully initialized matrix is the table of its values. -/
theorem eq_ofFn_of_fullyInit (M : SquareMatrix) (n : Nat) (h : M.WellFormed n)
    (hi : M.FullyInit) : M = ofFn n M.val := by
  conv_lhs => rw [eq_tab_of_wellFormed M n h]
  unfold ofFn
  apply tab_congr
  intro i hi' j hj
  obtain ⟨_, hl, hr⟩ := h
  have h1 : i < M.rows.length := by omega
  have hrow := hr M.rows[i] (List.getElem_mem h1)
  have h2 : j < (M.rows[i]).data.length := by
    simp only [Vector.size] at hrow; omega
  have hc : M.cellAt i j = (M.rows[i]).data[j] := by
    simp [cellAt, Vector.cell, List.getD, h1, h2]
  have hinit := hi M.rows[i] (List.getElem_mem h1) _ (List.getElem_mem h2)
  rw [← hc] at hinit
  cases hcell : M.cellAt i j with
  | mk v b =>
    rw [hcell] at hinit
    simp only at hinit
    simp [val, hcell, hinit]

theorem wellFormed_tab (n : Nat) (c : Nat → Nat → Cell) : (tab n c).WellFormed n := by
  refine ⟨rfl, by simp [tab, Vector.table], ?_⟩
  intro r hr
  simp only [tab, Vector.table, List.mem_map, List.mem_range] at hr
  obtain ⟨i, _, rfl⟩ := hr
  exact Vector.size_vtab n _

theorem fullyInit_ofFn (n : Nat) (f : Nat → Nat → ℚ) : (ofFn n f).FullyInit := by
  intro r hr c hc
  simp only [ofFn, tab, Vector.table, List.mem_map, List.mem_range] at hr
  obtain ⟨i, _, rfl⟩ := hr
  simp only [Vector.tab, List.mem_map, List.mem_range] at hc
  obtain ⟨j, _, rfl⟩ := hc
  rfl

end SquareMatrixGM.SquareMatrix

/-- A checking loop none of whose iterations throws. -/
theorem forLoop_unit_ok (body : Nat → Unit → Except Error Unit) (n : Nat)
    (h : ∀ i, i < n → body i () = .ok ()) : forLoop body n () = .ok () :=
  forLoop_eq_of_steps body (fun _ => ()) n h

namespace VectorGM.Vector

/-- The dot product of two vectors of the same length with every cell written. -/
theorem dot_tab (n : Nat) (c c' : Nat → Cell)
    (hc : ∀ j, j < n → (c j).initialized = true)
    (hc' : ∀ j, j < n → (c' j).initialized = true) :
    (tab n c).dot (tab n c') = .ok (∑ j in Finset.range n, (c j).value * (c' j).value) := by
  unfold dot
  rw [size_vtab, size_vtab]
  simp only [ne_eq, not_true_eq_false, if_false]
  have key := forLoop_eq_of_steps (fun i result => do
      let a ← (tab n c).isInitialized i
      if !a then
        throw (.MyLogicError "Both vectors must be fully initialized for dot product")
      let b ← (tab n c').isInitialized i
      if !b then
        throw (.MyLogicError "Both vectors must be fully initialized for dot product")
      let y ← (tab n c').get i
      pure (result + ((tab n c).cell i).value * y))
    (fun m => ∑ j in Finset.range m, (c j).value * (c' j).value) n
    (by
      intro i hi
      simp only [isInitialized_tab n c i hi, isInitialized_tab n c' i hi, get_tab n c' i hi,
        cell_tab n c i hi, hc i hi, hc' i hi, bind, Except.bind, pure, Except.pure,
        Bool.not_true, Bool.false_eq_true, if_false, Finset.sum_range_succ])
  simpa using key

theorem dot_ofFn (n : Nat) (f g : Nat → ℚ) :
    (ofFn n f).dot (ofFn n g) = .ok (∑ j in Finset.range n, f j * g j) :=
  dot_tab n _ _ (fun _ _ => rfl) (fun _ _ => rfl)

/-- The transpose helper on `r ≥ 1` columns of length `k` with every cell written. -/
theorem transposeColumnsToRows_table (r k : Nat) (c : Nat → Nat → Cell) (hr : 1 ≤ r)
    (hc : ∀ i, i < r → ∀ j, j < k → (c i j).initialized = true) :
    transposeColumnsToRows (table r k c) (r : Int) =
      .ok (table k r fun i j => ⟨(c j i).value, true⟩) := by
  have h0 : ¬ ((r : Int) = 0) := by omega
  have hsz : ∀ i, i < r → ((table r k c).getD i empty).size = k := by
    intro i hi
    rw [getD_table r k c i hi, size_vtab]
  simp only [transposeColumnsToRows, h0, if_false, Int.toNat_ofNat, hsz 0 (by omega)]
  rw [forLoop_unit_ok _ _ (by
    intro i hi
    have : i + 1 < r := by omega
    simp only [hsz (i + 1) this, ne_eq, not_true_eq_false, if_false])]
  have ha := alloc_loop k r
  simp only [bind, Except.bind] at ha ⊢
  rw [ha]
  simp only []
  exact fill_loop (table k r) k r _ (fun i j => (c j i).value) (table_congr k r)
    (by
      intro i hi j hj c2
      have := set_set_table k r c2 i j (c j i).value hi hj
      simp only [getD_table r k c j hj, isInitialized_tab k (c j) i hi, hc j hj i hi,
        get_tab k (c j) i hi, Bool.not_true, Bool.false_eq_true, if_false, pure, Except.pure]
      simp only [getD_table k r c2 i hi, set_tab r (c2 i) j _ hj] at this ⊢
      exact this) _

end VectorGM.Vector

namespace SquareMatrixGM.SquareMatrix

open VectorGM

/-- The product of two fully initialized matrices of size `n ≥ 1`: cell `(i, j)` is the
sum over `k < n` of `f i k * g k j`. -/
theorem mul_ofFn (n : Nat) (hn : 1 ≤ n) (f g : Nat → Nat → ℚ) :
    (ofFn n f).mul (ofFn n g) =
      .ok (ofFn n fun i j => ∑ k in Finset.range n, f i k * g k j) := by
  unfold mul
  have hs : (ofFn n f).size = n := rfl
  have hs' : (ofFn n g).size = n := rfl
  have hrows : ∀ h : Nat → Nat → ℚ, (ofFn n h).rows = Vector.table n n fun i j => ⟨h i j, true⟩ :=
    fun _ => rfl
  simp only [hs, hs', ne_eq, not_true_eq_false, if_false, hrows]
  rw [Vector.transposeColumnsToRows_table n n _ hn (fun _ _ _ _ => rfl)]
  simp only [bind, Except.bind, construct_ofNat]
  exact fill_matrix n _ (fun i j => ∑ k in Finset.range n, f i k * g k j)
    (by
      intro i hi j hj c
      simp only [Vector.getD_table n n _ i hi, Vector.getD_table n n _ j hj]
      have := Vector.dot_tab n (fun k => ⟨f i k, true⟩) (fun k => ⟨g k j, true⟩)
        (fun _ _ => rfl) (fun _ _ => rfl)
      simp only [] at this
      rw [this]) _

end SquareMatrixGM.SquareMatrix

namespace SquareMatrixGM.SquareMatrix

open VectorGM

/-- The matrix built by `getMinor(r, c)` on a fully initialized matrix of size `n + 1`:
row `r` and column `c` are left out and every cell of the minor is written. -/
theorem buildMinor_ofFn (n : Nat) (f : Nat → Nat → ℚ) (r c : Nat) (hr : r ≤ n) (hc : c ≤ n) :
    buildMinor (ofFn (n + 1) f) r c =
      .ok (ofFn n fun i j => f (skipIndex r i) (skipIndex c j)) := by
  have hsize : (ofFn (n + 1) f).size = n + 1 := rfl
  have hcast : (((n + 1 : Nat) : Int) - 1) = (n : Int) := by push_cast; ring
  simp only [buildMinor, hsize, hcast, construct_ofNat, bind, Except.bind, pure, Except.pure]
  rw [forLoop_eq_of_steps_from _
    (fun m => (tab n (fun a b =>
      if a < (if m ≤ r then m else m - 1)
      then ⟨f (skipIndex r a) (skipIndex c b), true⟩ else {}), (if m ≤ r then m else m - 1)))
    (n + 1) _ ?_ ?_]
  · have hn1 : (if n + 1 ≤ r then n + 1 else n + 1 - 1) = n := by split_ifs <;> omega
    simp only [Except.ok.injEq]
    unfold ofFn
    apply tab_congr
    intro a ha b _
    rw [hn1, if_pos ha]
  · simp only [Prod.mk.injEq]
    constructor
    · apply tab_congr
      intro a _ b _
      simp
    · simp
  · intro i hi
    simp only []
    by_cases hir : i = r
    · subst hir
      simp
    · have hir' : ¬ ((i : Int) = (r : Int)) := by omega
      have hcnt : (if i ≤ r then i else i - 1) = (if i < r then i else i - 1) := by
        split_ifs <;> omega
      have hrc : (if i < r then i else i - 1) < n := by split_ifs <;> omega
      simp only [hir', if_false, hcnt]
      rw [forLoop_eq_of_steps_from _
        (fun m => (tab n (fun a b =>
          if a = (if i < r then i else i - 1) ∧ b < (if m ≤ c then m else m - 1)
          then ⟨f i (skipIndex c b), true⟩
          else if a < (if i < r then i else i - 1)
          then ⟨f (skipIndex r a) (skipIndex c b), true⟩ else {}),
          (if m ≤ c then m else m - 1)))
        (n + 1) _ ?_ ?_]
      · have hn1 : (if n + 1 ≤ c then n + 1 else n + 1 - 1) = n := by split_ifs <;> omega
        simp only [Except.ok.injEq, Prod.mk.injEq]
        constructor
        · apply tab_congr
          intro a _ b hb
          rw [hn1]
          by_cases ha : a = (if i < r then i else i - 1)
          · have h1 : a < (if i + 1 ≤ r then i + 1 else i + 1 - 1) := by
              rw [ha]; split_ifs <;> omega
            have h2 : skipIndex r a = i := by
              unfold skipIndex; rw [ha]; split_ifs <;> omega
            simp only [eq_true ha, eq_true hb, eq_true h1, and_self, if_true, h2]
          · have e1 : (a = (if i < r then i else i - 1)) = False := eq_false ha
            by_cases ha' : a < (if i < r then i else i - 1)
            · have h1 : a < (if i + 1 ≤ r then i + 1 else i + 1 - 1) := by
                revert ha'; split_ifs <;> omega
              simp only [e1, eq_true ha', eq_true h1, false_and, if_true, if_false]
            · have h1 : ¬ a < (if i + 1 ≤ r then i + 1 else i + 1 - 1) := by
                revert ha' ha; split_ifs <;> omega
              simp only [e1, eq_false ha', eq_false h1, false_and, if_false]
        · split_ifs <;> omega
      · simp only [Prod.mk.injEq]
        constructor
        · apply tab_congr
          intro a _ b _
          simp
        · simp
      · intro j hj
        simp only []
        by_cases hjc : j = c
        · subst hjc
          simp
        · have hjc' : ¬ ((j : Int) = (c : Int)) := by omega
          have hcc : (if j ≤ c then j else j - 1) < n := by split_ifs <;> omega
          simp only [hjc', if_false]
          rw [show (ofFn (n + 1) f).getCell i j = .ok (f i j) from
            getCell_tab (n + 1) _ i j hi hj]
          simp only []
          rw [setCell_tab n _ _ _ (f i j) hrc hcc]
          simp only [Except.ok.injEq, Prod.mk.injEq]
          constructor
          · apply tab_congr
            intro a _ b _
            by_cases ha : a = (if i < r then i else i - 1)
            · have e1 : (a = (if i < r then i else i - 1)) = True := eq_true ha
              by_cases hb : b = (if j ≤ c then j else j - 1)
              · have h1 : b < (if j + 1 ≤ c then j + 1 else j + 1 - 1) := by
                  rw [hb]; split_ifs <;> omega
                have h2 : skipIndex c b = j := by
                  unfold skipIndex; rw [hb]; split_ifs <;> omega
                simp only [e1, eq_true hb, eq_true h1, and_self, if_true, h2]
              · by_cases hb' : b < (if j ≤ c then j else j - 1)
                · have h1 : b < (if j + 1 ≤ c then j + 1 else j + 1 - 1) := by
                    revert hb'; split_ifs <;> omega
                  simp only [e1, eq_false hb, eq_true hb', eq_true h1, and_self, and_false,
                    if_true, if_false]
                · have h1 : ¬ b < (if j + 1 ≤ c then j + 1 else j + 1 - 1) := by
                    revert hb' hb; split_ifs <;> omega
                  simp only [e1, eq_false hb, eq_false hb', eq_false h1, and_false, if_false]
            · simp only [eq_false ha, false_and, if_false]
          · split_ifs <;> omega

end SquareMatrixGM.SquareMatrix

theorem VectorGM.Vector.allInitialized_tab (n : Nat) (c : Nat → VectorGM.Cell)
    (h : ∀ j, j < n → (c j).initialized = true) : (tab n c).allInitialized = true := by
  unfold allInitialized
  rw [size_vtab, List.all_eq_true]
  intro j hj
  have hj' := List.mem_range.mp hj
  rw [cell_tab n c j hj']
  exact h j hj'

namespace SquareMatrixGM.SquareMatrix

open VectorGM

theorem toMatrix_ofFn_apply (n : Nat) (f : Nat → Nat → ℚ) (i j : Fin n) :
    toMatrix n (ofFn n f) i j = f i j := by
  simp only [toMatrix, Matrix.of_apply]
  exact val_ofFn n f i j i.isLt j.isLt

/-- The sign of the cofactor of column `col`. -/
theorem sign_eq_neg_one_pow (col : Nat) :
    (if col % 2 = 0 then (1 : ℚ) else -1) = (-1) ^ col := by
  by_cases h : col % 2 = 0
  · rw [if_pos h, Even.neg_one_pow (Nat.even_iff.mpr h)]
  · rw [if_neg h, Odd.neg_one_pow (Nat.odd_iff.mpr (by omega))]

/-- The initialization check of `operator!` passes on a fully initialized matrix. -/
theorem initCheck_ofFn (n : Nat) (f : Nat → Nat → ℚ) :
    forLoop (fun i (_ : Unit) =>
      if !((ofFn n f).rows.getD i Vector.empty).allInitialized then
        .error (.MyLogicError "Matrix must be fully initialized to compute determinant")
      else .ok ()) n () = .ok () := by
  apply forLoop_unit_ok
  intro i hi
  rw [show (ofFn n f).rows = Vector.table n n fun i j => ⟨f i j, true⟩ from rfl,
    Vector.getD_table n n _ i hi, Vector.allInitialized_tab n _ (fun _ _ => rfl)]
  rfl

/-- The cofactor loop on a fully initialized matrix of size `m + 1`, when the determinant
of the minor of column `col` is `d col`. -/
theorem cofactorLoop_ofFn (minorDet : SquareMatrix → Option (Except Error ℚ)) (m : Nat)
    (f : Nat → Nat → ℚ) (d : Nat → ℚ)
    (hd : ∀ col, col ≤ m →
      minorDet (ofFn m fun i j => f (skipIndex 0 i) (skipIndex col j)) = some (.ok (d col)))
    (k : Nat) (hk : k ≤ m + 1) :
    cofactorLoop minorDet (ofFn (m + 1) f) k =
      some (.ok (∑ col in Finset.range k, (-1) ^ col * f 0 col * d col)) := by
  induction k with
  | zero => rfl
  | succ k ih =>
    have hk' : k < m + 1 := by omega
    have hcell : (ofFn (m + 1) f).getCell (0 : Int) (k : Int) = .ok (f 0 k) :=
      getCell_tab (m + 1) _ 0 k (by omega) hk'
    have hminor : getMinorWith minorDet (ofFn (m + 1) f) (0 : Int) (k : Int) =
        some (.ok (d k)) := by
      unfold getMinorWith
      rw [show ((0 : Int)) = ((0 : Nat) : Int) from rfl,
        buildMinor_ofFn m f 0 k (by omega) (by omega)]
      exact hd k (by omega)
    rw [cofactorLoop, ih (by omega)]
    simp only [hcell, hminor, sign_eq_neg_one_pow, Finset.sum_range_succ]

theorem detBody_ofFn_one (minorDet : SquareMatrix → Option (Except Error ℚ))
    (f : Nat → Nat → ℚ) : detBody minorDet (ofFn 1 f) = some (.ok (f 0 0)) := by
  simp only [detBody, show (ofFn 1 f).size = 1 from rfl]
  rw [initCheck_ofFn 1 f]
  have h := getCell_tab 1 (fun i j => (⟨f i j, true⟩ : Cell)) 0 0 (by omega) (by omega)
  simp only [if_true]
  exact congrArg some h

theorem detBody_ofFn_two (minorDet : SquareMatrix → Option (Except Error ℚ))
    (f : Nat → Nat → ℚ) :
    detBody minorDet (ofFn 2 f) = some (.ok (f 0 0 * f 1 1 - f 0 1 * f 1 0)) := by
  simp only [detBody, show (ofFn 2 f).size = 2 from rfl]
  rw [initCheck_ofFn 2 f]
  have h00 := getCell_tab 2 (fun i j => (⟨f i j, true⟩ : Cell)) 0 0 (by omega) (by omega)
  have h01 := getCell_tab 2 (fun i j => (⟨f i j, true⟩ : Cell)) 0 1 (by omega) (by omega)
  have h10 := getCell_tab 2 (fun i j => (⟨f i j, true⟩ : Cell)) 1 0 (by omega) (by omega)
  have h11 := getCell_tab 2 (fun i j => (⟨f i j, true⟩ : Cell)) 1 1 (by omega) (by omega)
  simp only [Nat.cast_zero, Nat.cast_one] at h00 h01 h10 h11
  have e : tab 2 (fun i j => (⟨f i j, true⟩ : Cell)) = ofFn 2 f := rfl
  rw [e] at h00 h01 h10 h11
  simp only [show ¬ (2 = 1) by omega, if_false, if_true, h00, h01, h10, h11, bind,
    Except.bind, pure, Except.pure]

theorem detBody_ofFn_zero (minorDet : SquareMatrix → Option (Except Error ℚ))
    (f : Nat → Nat → ℚ) : detBody minorDet (ofFn 0 f) = some (.ok 0) := by
  simp only [detBody, show (ofFn 0 f).size = 0 from rfl]
  rw [initCheck_ofFn 0 f]
  rfl

theorem detBody_ofFn_succ (minorDet : SquareMatrix → Option (Except Error ℚ)) (m : Nat)
    (hm : 2 ≤ m) (f : Nat → Nat → ℚ) (d : Nat → ℚ)
    (hd : ∀ col, col ≤ m →
      minorDet (ofFn m fun i j => f (skipIndex 0 i) (skipIndex col j)) = some (.ok (d col))) :
    detBody minorDet (ofFn (m + 1) f) =
      some (.ok (∑ col in Finset.range (m + 1), (-1) ^ col * f 0 col * d col)) := by
  simp only [detBody, show (ofFn (m + 1) f).size = m + 1 from rfl]
  rw [initCheck_ofFn (m + 1) f]
  simp only [show ¬ (m + 1 = 1) by omega, show ¬ (m + 1 = 2) by omega, if_false]
  exact cofactorLoop_ofFn minorDet m f d hd (m + 1) (le_refl _)

/-- The minor of column `col` along row 0, as a submatrix. -/
theorem toMatrix_minor (m : Nat) (f : Nat → Nat → ℚ) (col : Fin (m + 1)) :
    toMatrix m (ofFn m fun i j => f (skipIndex 0 i) (skipIndex col j)) =
      (toMatrix (m + 1) (ofFn (m + 1) f)).submatrix Fin.succ col.succAbove := by
  ext i j
  rw [toMatrix_ofFn_apply, Matrix.submatrix_apply, toMatrix_ofFn_apply]
  have h1 : skipIndex 0 i = (Fin.succ i : Nat) := by simp [skipIndex]
  have h2 : skipIndex col j = (col.succAbove j : Nat) := by
    unfold skipIndex Fin.succAbove
    by_cases h : (j : Nat) < col
    · have : Fin.castSucc j < col := h
      simp [h, this]
    · have : ¬ Fin.castSucc j < col := h
      simp [h, this]
  rw [h1, h2]

/-- The determinant operator on a fully initialized matrix of size `n ≥ 1` returns the
determinant of its values, once the fuel covers the `n - 2` nested calls. -/
theorem det_ofFn (fuel : Nat) : ∀ (n : Nat) (f : Nat → Nat → ℚ), 1 ≤ n → n ≤ fuel + 2 →
    det fuel (ofFn n f) = some (.ok (Matrix.det (toMatrix n (ofFn n f)))) := by
  have base1 : ∀ (minorDet : SquareMatrix → Option (Except Error ℚ)) (f : Nat → Nat → ℚ),
      detBody minorDet (ofFn 1 f) = some (.ok (Matrix.det (toMatrix 1 (ofFn 1 f)))) := by
    intro minorDet f
    rw [detBody_ofFn_one, Matrix.det_fin_one, toMatrix_ofFn_apply]
    rfl
  have base2 : ∀ (minorDet : SquareMatrix → Option (Except Error ℚ)) (f : Nat → Nat → ℚ),
      detBody minorDet (ofFn 2 f) = some (.ok (Matrix.det (toMatrix 2 (ofFn 2 f)))) := by
    intro minorDet f
    rw [detBody_ofFn_two, Matrix.det_fin_two]
    simp only [toMatrix_ofFn_apply]
    rfl
  induction fuel with
  | zero =>
    intro n f h1 h2
    have hn : n = 1 ∨ n = 2 := by omega
    rcases hn with rfl | rfl
    · exact base1 _ f
    · exact base2 _ f
  | succ fuel ih =>
    intro n f h1 h2
    by_cases hn1 : n = 1
    · subst hn1; exact base1 _ f
    by_cases hn2 : n = 2
    · subst hn2; exact base2 _ f
    obtain ⟨m, rfl⟩ : ∃ m, n = m + 1 := ⟨n - 1, by omega⟩
    have hm : 2 ≤ m := by omega
    rw [det, detBody_ofFn_succ (det fuel) m hm f
      (fun col => Matrix.det (toMatrix m (ofFn m fun i j => f (skipIndex 0 i) (skipIndex col j))))
      (fun col _ => ih m _ (by omega) (by omega))]
    rw [Matrix.det_succ_row_zero, Finset.sum_range]
    congr 2
    apply Finset.sum_congr rfl
    intro col _
    rw [toMatrix_minor m f col, toMatrix_ofFn_apply]
    rfl

end SquareMatrixGM.SquareMatrix

/-- A checking loop whose iterations pass or throw `e`, one of them throwing, throws `e`. -/
theorem forLoop_unit_error (body : Nat → Unit → Except Error Unit) (e : Error) (n : Nat)
    (h : ∀ i, i < n → body i () = .ok () ∨ body i () = .error e)
    (hex : ∃ i, i < n ∧ body i () = .error e) : forLoop body n () = .error e := by
  induction n with
  | zero => obtain ⟨i, hi, _⟩ := hex; omega
  | succ k ih =>
    rw [forLoop_succ]
    by_cases hk : ∃ i, i < k ∧ body i () = .error e
    · rw [ih (fun i hi => h i (Nat.lt_succ_of_lt hi)) hk]
    · obtain ⟨i, hi, hie⟩ := hex
      have hik : i = k := by
        by_contra hne
        exact hk ⟨i, by omega, hie⟩
      subst hik
      have hall : ∀ j, j < i → body j () = .ok () := by
        intro j hj
        rcases h j (by omega) with h1 | h1
        · exact h1
        · exact absurd ⟨j, hj, h1⟩ hk
      rw [forLoop_unit_ok body i hall]
      exact hie

namespace SquareMatrixGM.SquareMatrix

open VectorGM

/-- A matrix with an unwritten cell has a row on which `allInitialized()` is false. -/
theorem exists_row_not_allInitialized (M : SquareMatrix) (h : ¬ M.FullyInit) :
    ∃ i, i < M.rows.length ∧ (M.rows.getD i Vector.empty).allInitialized = false := by
  unfold FullyInit at h
  push_neg at h
  obtain ⟨r, hr, c, hc, hinit⟩ := h
  obtain ⟨i, hi, rfl⟩ := List.mem_iff_getElem.mp hr
  obtain ⟨j, hj, rfl⟩ := List.mem_iff_getElem.mp hc
  refine ⟨i, hi, ?_⟩
  have hget : M.rows.getD i Vector.empty = M.rows[i] := by simp [List.getD, hi]
  rw [hget]
  by_contra hall
  have hall' : (M.rows[i]).allInitialized = true := by
    cases h' : (M.rows[i]).allInitialized
    · exact absurd h' hall
    · rfl
  unfold Vector.allInitialized at hall'
  rw [List.all_eq_true] at hall'
  have := hall' j (List.mem_range.mpr hj)
  have hcell : (M.rows[i]).cell j = (M.rows[i]).data[j] := by
    simp [Vector.cell, List.getD, hj]
  rw [hcell] at this
  exact hinit this

/-- The determinant operator throws its logic error on a matrix with an unwritten cell,
whatever the fuel. -/
theorem det_of_not_fullyInit (M : SquareMatrix) (hlen : M.rows.length = M.size)
    (h : ¬ M.FullyInit) (fuel : Nat) :
    det fuel M = some (.error
      (.MyLogicError "Matrix must be fully initialized to compute determinant")) := by
  have hbody : ∀ minorDet, detBody minorDet M = some (.error
      (.MyLogicError "Matrix must be fully initialized to compute determinant")) := by
    intro minorDet
    simp only [detBody]
    rw [forLoop_unit_error _
      (.MyLogicError "Matrix must be fully initialized to compute determinant") M.size
      (by
        intro i _
        by_cases hb : (M.rows.getD i Vector.empty).allInitialized = true
        · left; simp only [hb, Bool.not_true, Bool.false_eq_true, if_false]
        · right; simp only [Bool.not_eq_true] at hb
          simp only [hb, Bool.not_false, if_true])
      (by
        obtain ⟨i, hi, hrow⟩ := exists_row_not_allInitialized M h
        refine ⟨i, by omega, ?_⟩
        simp only [hrow, Bool.not_false, if_true])]
  cases fuel with
  | zero => exact hbody _
  | succ k => exact hbody _

/-- The determinant of `identity(n)` for `n ≥ 1`. -/
theorem det_identity_of_pos (n fuel : Nat) (hn : 1 ≤ n) (hfuel : n ≤ fuel + 2) :
    det fuel (ofFn n fun i j => if i = j then 1 else 0) = some (.ok 1) := by
  rw [det_ofFn fuel n _ hn hfuel]
  have : toMatrix n (ofFn n fun i j => if i = j then 1 else 0) = 1 := by
    ext i j
    rw [toMatrix_ofFn_apply, Matrix.one_apply]
    by_cases h : i = j
    · simp [h]
    · have : ¬ (i : Nat) = (j : Nat) := fun h' => h (Fin.ext h')
      simp [h, this]
  rw [this, Matrix.det_one]

/-- The determinant operator on a well-formed, fully initialized matrix of size `n ≥ 1`. -/
theorem det_of_fullyInit (n : Nat) (M : SquareMatrix) (fuel : Nat) (hn : 1 ≤ n)
    (hM : M.WellFormed n) (hinit : M.FullyInit) (hfuel : n ≤ fuel + 2) :
    det fuel M = some (.ok (Matrix.det (toMatrix n M))) := by
  have hdet := det_ofFn fuel n M.val hn hfuel
  rw [← eq_ofFn_of_fullyInit M n hM hinit] at hdet
  exact hdet

/-! ## The determinant -/

/-- C1: on a fully initialized `n x n` matrix, `n ≥ 1`, with fuel for the `n - 2` nested
calls, `!M` returns the determinant of the cell values as the Leibniz formula gives it
(the sum over the permutations `σ` of `sign σ` times the product of the cells
`(σ i, i)`); it is `M[0][0]` for size 1, `M[0][0]*M[1][1] - M[0][1]*M[1][0]` for size 2,
and for size `n ≥ 3` the sum over `col` of `(-1)^col * M[0][col]` times the determinant of
`M` without row 0 and column `col`. -/
theorem det_eq_leibniz (n : Nat) (M : SquareMatrix) (fuel : Nat) (hn : 1 ≤ n)
    (hM : M.WellFormed n) (hinit : M.FullyInit) (hfuel : n ≤ fuel + 2) :
    det fuel M = some (.ok
      (∑ σ : Equiv.Perm (Fin n), Equiv.Perm.sign σ • ∏ i, toMatrix n M (σ i) i)) ∧
    (n = 1 → det fuel M = some (.ok (M.val 0 0))) ∧
    (n = 2 → det fuel M = some (.ok (M.val 0 0 * M.val 1 1 - M.val 0 1 * M.val 1 0))) ∧
    (3 ≤ n → det fuel M = some (.ok (∑ col in Finset.range n, (-1) ^ col * M.val 0 col *
      Matrix.det (toMatrix (n - 1)
        (ofFn (n - 1) fun i j => M.val (i + 1) (if j < col then j else j + 1)))))) := by
  have hdet := det_of_fullyInit n M fuel hn hM hinit hfuel
  have hbody : ∀ k, fuel = k + 1 → det fuel M = detBody (det k) (ofFn n M.val) := by
    intro k hk
    subst hk
    rw [det, ← eq_ofFn_of_fullyInit M n hM hinit]
  have hbody0 : fuel = 0 → det fuel M = detBody (fun _ => none) (ofFn n M.val) := by
    intro hk
    subst hk
    rw [det, ← eq_ofFn_of_fullyInit M n hM hinit]
  refine ⟨?_, ?_, ?_, ?_⟩
  · rw [hdet, Matrix.det_apply]
  · intro h1
    subst h1
    cases fuel with
    | zero => rw [hbody0 rfl, detBody_ofFn_one]
    | succ k => rw [hbody k rfl, detBody_ofFn_one]
  · intro h2
    subst h2
    cases fuel with
    | zero => rw [hbody0 rfl, detBody_ofFn_two]
    | succ k => rw [hbody k rfl, detBody_ofFn_two]
  · intro h3
    obtain ⟨m, rfl⟩ : ∃ m, n = m + 1 := ⟨n - 1, by omega⟩
    obtain ⟨k, rfl⟩ : ∃ k, fuel = k + 1 := ⟨fuel - 1, by omega⟩
    rw [hbody k rfl, detBody_ofFn_succ (det k) m (by omega) M.val
      (fun col => Matrix.det (toMatrix m
        (ofFn m fun i j => M.val (skipIndex 0 i) (skipIndex col j))))
      (fun col _ => det_ofFn k m _ (by omega) (by omega))]
    simp only [skipIndex, Nat.not_lt_zero, if_false]
    rfl

/-- The matrix of the test "Determinant operator" has determinant 1. -/
theorem det_eq_leibniz_witness :
    (ofLists [[1, 2, 3], [0, 1, 4], [5, 6, 0]]).WellFormed 3 ∧
    (ofLists [[1, 2, 3], [0, 1, 4], [5, 6, 0]]).FullyInit ∧
    det 1 (ofLists [[1, 2, 3], [0, 1, 4], [5, 6, 0]]) = some (.ok 1) ∧
    det 1 (ofLists [[1, 2, 3], [0, 1, 4], [5, 6, 0]]) = some (.ok
      (∑ σ : Equiv.Perm (Fin 3), Equiv.Perm.sign σ •
        ∏ i, toMatrix 3 (ofLists [[1, 2, 3], [0, 1, 4], [5, 6, 0]]) (σ i) i)) :=
  ⟨by decide, by decide, by decide!,
    (det_eq_leibniz 3 (ofLists [[1, 2, 3], [0, 1, 4], [5, 6, 0]]) 1 (by decide) (by decide)
      (by decide) (by decide)).1⟩

/-- C2: on a well-formed matrix of size `n ≥ 0`, with fuel for the nested calls, `!M`
throws a logic error exactly when some cell is unwritten, and returns a value when every
cell is written. -/
theorem det_raises_iff (n : Nat) (M : SquareMatrix) (fuel : Nat) (hM : M.WellFormed n)
    (hfuel : n ≤ fuel + 2) :
    ((∃ msg, det fuel M = some (.error (.MyLogicError msg))) ↔ ¬ M.FullyInit) ∧
    (M.FullyInit → ∃ v, det fuel M = some (.ok v)) := by
  have hok : M.FullyInit → ∃ v, det fuel M = some (.ok v) := by
    intro hinit
    by_cases hn : 1 ≤ n
    · exact ⟨_, det_of_fullyInit n M fuel hn hM hinit hfuel⟩
    · have hn0 : n = 0 := by omega
      subst hn0
      refine ⟨0, ?_⟩
      rw [eq_ofFn_of_fullyInit M 0 hM hinit]
      cases fuel with
      | zero => exact detBody_ofFn_zero _ _
      | succ k => exact detBody_ofFn_zero _ _
  refine ⟨⟨?_, ?_⟩, hok⟩
  · rintro ⟨msg, hmsg⟩ hinit
    obtain ⟨v, hv⟩ := hok hinit
    rw [hv] at hmsg
    cases hmsg
  · intro hni
    exact ⟨_, det_of_not_fullyInit M (hM.2.1.trans hM.1.symm) hni fuel⟩

/-- The matrix `m6` of the test "Throw Exception": `SquareMatrix(2)`, nothing written. -/
theorem det_raises_iff_witness :
    (tab 2 fun _ _ => {}).WellFormed 2 ∧ 2 ≤ 0 + 2 ∧
    ((∃ msg, det 0 (tab 2 fun _ _ => {}) = some (.error (.MyLogicError msg))) ↔
      ¬ (tab 2 fun _ _ => {}).FullyInit) ∧
    ((tab 2 fun _ _ => {}).FullyInit → ∃ v, det 0 (tab 2 fun _ _ => {}) = some (.ok v)) :=
  ⟨by decide, by decide, det_raises_iff 2 (tab 2 fun _ _ => {}) 0 (by decide) (by decide)⟩

/-- C3 at size 0: `identity(0)` is the empty matrix, and `!` returns 0 on it (the cofactor
loop runs over no column), not 1. -/
theorem det_identity_zero :
    identity 0 = .ok ⟨[], 0⟩ ∧ ∀ fuel, det fuel ⟨[], 0⟩ = some (.ok 0) := by
  refine ⟨by decide, ?_⟩
  intro fuel
  cases fuel with
  | zero => decide!
  | succ k => exact detBody_ofFn_zero (det k) (fun _ _ => 0)

end SquareMatrixGM.SquareMatrix

namespace SquareMatrixGM.SquareMatrix

open VectorGM

/-! ## The matrix product -/

/-- C4: for fully initialized `n x n` matrices `A` and `B`, `n ≥ 1`, `A * B` returns an
`n x n` matrix with every cell written, cell `(i, j)` holding the sum over `k < n` of
`A[i][k] * B[k][j]`.  (`operator*` is a const method taking a const reference: the
embedding has no state of `A` or `B` that could change.) -/
theorem mul_correct (n : Nat) (A B : SquareMatrix) (hn : 1 ≤ n) (hA : A.WellFormed n)
    (hAi : A.FullyInit) (hB : B.WellFormed n) (hBi : B.FullyInit) :
    ∃ R, A.mul B = .ok R ∧ R.WellFormed n ∧ R.FullyInit ∧
      ∀ i j, i < n → j < n →
        R.cellAt i j = ⟨∑ k in Finset.range n, A.val i k * B.val k j, true⟩ := by
  refine ⟨ofFn n fun i j => ∑ k in Finset.range n, A.val i k * B.val k j, ?_,
    wellFormed_tab n _, fullyInit_ofFn n _, ?_⟩
  · conv_lhs => rw [eq_ofFn_of_fullyInit A n hA hAi, eq_ofFn_of_fullyInit B n hB hBi]
    exact mul_ofFn n hn A.val B.val
  · intro i j hi hj
    exact cellAt_tab n _ i j hi hj

/-- The product of the test "Matrix multiplication". -/
theorem mul_correct_witness :
    (ofLists [[1, 2], [3, 4]]).mul (ofLists [[2, 0], [1, 2]]) =
      .ok (ofLists [[4, 4], [10, 8]]) ∧
    ∃ R, (ofLists [[1, 2], [3, 4]]).mul (ofLists [[2, 0], [1, 2]]) = .ok R ∧
      R.WellFormed 2 ∧ R.FullyInit ∧
      ∀ i j, i < 2 → j < 2 → R.cellAt i j =
        ⟨∑ k in Finset.range 2,
          (ofLists [[1, 2], [3, 4]]).val i k * (ofLists [[2, 0], [1, 2]]).val k j, true⟩ :=
  ⟨by decide!, mul_correct 2 (ofLists [[1, 2], [3, 4]]) (ofLists [[2, 0], [1, 2]])
    (by decide) (by decide) (by decide) (by decide) (by decide)⟩

/-- C5 at size 0: the product of the empty matrix with `identity(0)` throws the logic
error of the transpose helper, called on 0 columns. -/
theorem mul_identity_zero_raises :
    (⟨[], 0⟩ : SquareMatrix).WellFormed 0 ∧ (⟨[], 0⟩ : SquareMatrix).FullyInit ∧
    identity 0 = .ok ⟨[], 0⟩ ∧
    (⟨[], 0⟩ : SquareMatrix).mul ⟨[], 0⟩ = .error (.MyLogicError "Empty input") :=
  ⟨by decide, by decide, by decide, by decide⟩

/-- C5, amended to `n ≥ 1` and to cell values taken as exact numbers (the cells of the
embedding are rationals): for a fully initialized `n x n` matrix `A`, `A * identity(n)`
returns normally and the result is `A`, cell for cell. -/
theorem mul_identity (n : Nat) (A : SquareMatrix) (hn : 1 ≤ n) (hA : A.WellFormed n)
    (hAi : A.FullyInit) :
    ∃ I, identity (n : Int) = .ok I ∧ A.mul I = .ok A := by
  refine ⟨_, identity_ofNat n, ?_⟩
  conv_lhs => rw [eq_ofFn_of_fullyInit A n hA hAi]
  rw [mul_ofFn n hn]
  conv_rhs => rw [eq_ofFn_of_fullyInit A n hA hAi]
  congr 1
  apply ofFn_congr
  intro i _ j hj
  rw [Finset.sum_eq_single j]
  · simp
  · intro k _ hkj
    simp [hkj]
  · intro hnot
    exact absurd (Finset.mem_range.mpr hj) hnot

/-- The product `[[1,2],[3,4]] * identity(2)`. -/
theorem mul_identity_witness :
    ∃ I, identity ((2 : Nat) : Int) = .ok I ∧
      (ofLists [[1, 2], [3, 4]]).mul I = .ok (ofLists [[1, 2], [3, 4]]) :=
  mul_identity 2 (ofLists [[1, 2], [3, 4]]) (by decide) (by decide) (by decide)

end SquareMatrixGM.SquareMatrix

namespace SquareMatrixGM.SquareMatrix

open VectorGM

/-! ## The power -/

theorem eq_ofMatrix_of_fullyInit (M : SquareMatrix) (n : Nat) (h : M.WellFormed n)
    (hi : M.FullyInit) : M = ofMatrix n (toMatrix n M) := by
  conv_lhs => rw [eq_ofFn_of_fullyInit M n h hi]
  unfold ofMatrix
  apply ofFn_congr
  intro i hi' j hj
  rw [dif_pos ⟨hi', hj⟩]
  rfl

theorem mul_ofMatrix (n : Nat) (hn : 1 ≤ n) (X Y : Matrix (Fin n) (Fin n) ℚ) :
    (ofMatrix n X).mul (ofMatrix n Y) = .ok (ofMatrix n (X * Y)) := by
  unfold ofMatrix
  rw [mul_ofFn n hn]
  congr 1
  apply ofFn_congr
  intro i hi j hj
  rw [dif_pos ⟨hi, hj⟩, Matrix.mul_apply, Finset.sum_range]
  apply Finset.sum_congr rfl
  intro k _
  rw [dif_pos ⟨hi, k.isLt⟩, dif_pos ⟨k.isLt, hj⟩]

theorem identity_eq_ofMatrix (n : Nat) : identity (n : Int) = .ok (ofMatrix n 1) := by
  rw [identity_ofNat]
  congr 1
  unfold ofMatrix
  apply ofFn_congr
  intro i hi j hj
  rw [dif_pos ⟨hi, hj⟩, Matrix.one_apply]
  simp only [Fin.mk.injEq]

/-- The loop of `operator^` on fully initialized matrices: after at most `fuel` iterations,
`fuel` the number of binary digits of the exponent, it ends with `result * base ^ power`. -/
theorem powLoop_ofMatrix (n : Nat) (hn : 1 ≤ n) (fuel : Nat) :
    ∀ (q : Nat) (R B : Matrix (Fin n) (Fin n) ℚ), q < 2 ^ fuel →
      powLoop fuel (ofMatrix n R) (ofMatrix n B) (q : Int) =
        some (.ok (ofMatrix n (R * B ^ q))) := by
  induction fuel with
  | zero =>
    intro q R B hq
    have hq0 : q = 0 := by simpa using hq
    subst hq0
    simp [powLoop]
  | succ fuel ih =>
    intro q R B hq
    by_cases hq0 : q = 0
    · subst hq0
      simp [powLoop]
    · have hpos : (q : Int) > 0 := by omega
      have hdiv : (q : Int) / 2 = ((q / 2 : Nat) : Int) := by norm_cast
      have hlt : q / 2 < 2 ^ fuel := by
        rw [pow_succ] at hq
        omega
      have hsq : (B * B) ^ (q / 2) = B ^ (2 * (q / 2)) := by
        rw [pow_mul, pow_two]
      rw [powLoop]
      simp only [hpos, if_true, mul_ofMatrix n hn, hdiv]
      by_cases hodd : (q : Int) % 2 = 1
      · have hq2 : q = 2 * (q / 2) + 1 := by omega
        simp only [hodd, if_true, mul_ofMatrix n hn]
        rw [ih (q / 2) (R * B) (B * B) hlt, hsq, mul_assoc, ← pow_succ']
        rw [← hq2]
      · have hq2 : q = 2 * (q / 2) := by omega
        simp only [hodd, if_false]
        rw [ih (q / 2) R (B * B) hlt, hsq, ← hq2]

/-- The naive product of `p` factors on a fully initialized matrix. -/
theorem naivePow_ofMatrix (n : Nat) (hn : 1 ≤ n) (X : Matrix (Fin n) (Fin n) ℚ) (p : Nat) :
    naivePow (ofMatrix n X) (p + 1) = .ok (ofMatrix n (X ^ (p + 1))) := by
  induction p with
  | zero => simp [naivePow]
  | succ k ih =>
    rw [naivePow, ih]
    simp only [mul_ofMatrix n hn]
    rw [← pow_succ]

/-- C6: for a fully initialized `n x n` matrix `A`, `n ≥ 1`, and `p ≥ 1`, the loop of
`A ^ p` ends within `fuel` iterations as soon as `p < 2 ^ fuel`, and returns the matrix
of the naive `p`-fold product; `A ^ 1` is `A` and `A ^ 2` is `A * A`, cell for cell. -/
theorem pow_eq_naivePow (n : Nat) (A : SquareMatrix) (p : Int) (fuel : Nat) (hn : 1 ≤ n)
    (hA : A.WellFormed n) (hAi : A.FullyInit) (hp : 1 ≤ p) (hfuel : p < 2 ^ fuel) :
    ∃ R, pow fuel A p = some (.ok R) ∧ naivePow A p.toNat = .ok R ∧
      (p = 1 → R = A) ∧ (p = 2 → A.mul A = .ok R) := by
  obtain ⟨q, rfl⟩ : ∃ q : Nat, p = ((q + 1 : Nat) : Int) := ⟨(p - 1).toNat, by omega⟩
  have hsize : A.size = n := hA.1
  have hA' := eq_ofMatrix_of_fullyInit A n hA hAi
  have hq : q + 1 < 2 ^ fuel := by exact_mod_cast hfuel
  have hpow : pow fuel A ((q + 1 : Nat) : Int) =
      some (.ok (ofMatrix n (toMatrix n A ^ (q + 1)))) := by
    have h1 : ¬ (((q + 1 : Nat) : Int) < 0) := by omega
    have h2 : ¬ (((q + 1 : Nat) : Int) = 0) := by omega
    simp only [pow, h1, h2, if_false, hsize, identity_eq_ofMatrix]
    conv_lhs => rw [hA']
    rw [powLoop_ofMatrix n hn fuel (q + 1) 1 (toMatrix n A) hq, one_mul]
  have hnaive : naivePow A (q + 1) = .ok (ofMatrix n (toMatrix n A ^ (q + 1))) := by
    conv_lhs => rw [hA']
    exact naivePow_ofMatrix n hn _ q
  refine ⟨_, hpow, by rw [Int.toNat_ofNat]; exact hnaive, ?_, ?_⟩
  · intro h1
    have : q = 0 := by omega
    subst this
    rw [pow_one, ← hA']
  · intro h2
    have : q = 1 := by omega
    subst this
    conv_lhs => rw [hA']
    rw [mul_ofMatrix n hn, pow_two]

/-- The power of the test "Matrix power": `diag(2,2) ^ 3 = diag(8,8)`, in two iterations
of the loop (`3 < 2 ^ 2`). -/
theorem pow_eq_naivePow_witness :
    pow 2 (ofLists [[2, 0], [0, 2]]) 3 = some (.ok (ofLists [[8, 0], [0, 8]])) ∧
    ∃ R, pow 2 (ofLists [[2, 0], [0, 2]]) 3 = some (.ok R) ∧
      naivePow (ofLists [[2, 0], [0, 2]]) (3 : Int).toNat = .ok R ∧
      ((3 : Int) = 1 → R = ofLists [[2, 0], [0, 2]]) ∧
      ((3 : Int) = 2 → (ofLists [[2, 0], [0, 2]]).mul (ofLists [[2, 0], [0, 2]]) = .ok R) :=
  ⟨by decide!, pow_eq_naivePow 2 (ofLists [[2, 0], [0, 2]]) 3 2 (by decide) (by decide)
    (by decide) (by decide) (by decide)⟩

end SquareMatrixGM.SquareMatrix

namespace SquareMatrixGM.SquareMatrix

open VectorGM

/-- C7: for every matrix `A`, whatever the state of its cells and its rows, `A ^ 0`
returns, without entering the loop, the identity matrix of the size of `A`: a well-formed
matrix with every cell written, 1 on the diagonal and 0 elsewhere. -/
theorem pow_zero_eq_identity (fuel : Nat) (A : SquareMatrix) :
    ∃ I, pow fuel A 0 = some (.ok I) ∧ I.WellFormed A.size ∧ I.FullyInit ∧
      ∀ i j, i < A.size → j < A.size → I.cellAt i j = ⟨if i = j then 1 else 0, true⟩ := by
  refine ⟨ofFn A.size fun i j => if i = j then 1 else 0, ?_, wellFormed_tab _ _,
    fullyInit_ofFn _ _, fun i j hi hj => cellAt_tab _ _ i j hi hj⟩
  simp only [pow, lt_self_iff_false, if_false, identity_ofNat, if_true]

/-- The power `a ^ 0` of the test "Matrix multiplication", on a matrix of size 2 with
nothing written, without fuel. -/
theorem pow_zero_eq_identity_witness :
    pow 0 (tab 2 fun _ _ => {}) 0 = some (.ok (ofLists [[1, 0], [0, 1]])) ∧
    ∃ I, pow 0 (tab 2 fun _ _ => {}) 0 = some (.ok I) ∧
      I.WellFormed (tab 2 fun _ _ => {}).size ∧ I.FullyInit ∧
      ∀ i j, i < (tab 2 fun _ _ => {}).size → j < (tab 2 fun _ _ => {}).size →
        I.cellAt i j = ⟨if i = j then 1 else 0, true⟩ :=
  ⟨by decide!, pow_zero_eq_identity 0 (tab 2 fun _ _ => {})⟩

/-- C8: for every matrix `A` and every `p < 0`, `A ^ p` throws the logic error of the
first line of `operator^`. -/
theorem pow_neg_raises (fuel : Nat) (A : SquareMatrix) (p : Int) (hp : p < 0) :
    pow fuel A p = some (.error (.MyLogicError "Matrix power must be non-negative")) := by
  simp only [pow, hp, if_true]

/-- The power `m1 ^ -3` of the test "Throw Exception". -/
theorem pow_neg_raises_witness :
    (-3 : Int) < 0 ∧ pow 0 (ofLists [[1, 2], [3, 4]]) (-3) =
      some (.error (.MyLogicError "Matrix power must be non-negative")) :=
  ⟨by decide, pow_neg_raises 0 (ofLists [[1, 2], [3, 4]]) (-3) (by decide)⟩

/-! ## The identity matrix -/

/-- C9: for every `n ≥ 0`, `identity(n)` returns a matrix of size `n` with `n` rows, each
of length `n`, every cell written, 1 in every diagonal cell and 0 in every other cell. -/
theorem identity_spec (n : Nat) :
    ∃ I, identity (n : Int) = .ok I ∧ I.size = n ∧ I.rows.length = n ∧
      (∀ r ∈ I.rows, r.size = n) ∧ I.FullyInit ∧
      (∀ i, i < n → I.cellAt i i = ⟨1, true⟩) ∧
      (∀ i j, i < n → j < n → i ≠ j → I.cellAt i j = ⟨0, true⟩) := by
  have hwf := wellFormed_tab n fun i j => (⟨if i = j then 1 else 0, true⟩ : Cell)
  refine ⟨ofFn n fun i j => if i = j then 1 else 0, identity_ofNat n, hwf.1, hwf.2.1,
    hwf.2.2, fullyInit_ofFn _ _, ?_, ?_⟩
  · intro i hi
    rw [show (ofFn n fun i j => if i = j then (1 : ℚ) else 0) =
      tab n fun i j => ⟨if i = j then 1 else 0, true⟩ from rfl, cellAt_tab n _ i i hi hi]
    simp
  · intro i j hi hj hij
    rw [show (ofFn n fun i j => if i = j then (1 : ℚ) else 0) =
      tab n fun i j => ⟨if i = j then 1 else 0, true⟩ from rfl, cellAt_tab n _ i j hi hj]
    simp [hij]

/-- The matrix `identity(3)`. -/
theorem identity_spec_witness :
    identity ((3 : Nat) : Int) = .ok (ofLists [[1, 0, 0], [0, 1, 0], [0, 0, 1]]) ∧
    ∃ I, identity ((3 : Nat) : Int) = .ok I ∧ I.size = 3 ∧ I.rows.length = 3 ∧
      (∀ r ∈ I.rows, r.size = 3) ∧ I.FullyInit ∧
      (∀ i, i < 3 → I.cellAt i i = ⟨1, true⟩) ∧
      (∀ i j, i < 3 → j < 3 → i ≠ j → I.cellAt i j = ⟨0, true⟩) :=
  ⟨by decide!, identity_spec 3⟩

/-! ## The transpose -/

/-- The transpose of a fully initialized matrix of size `n ≥ 1`. -/
theorem transpose_ofFn (n : Nat) (hn : 1 ≤ n) (f : Nat → Nat → ℚ) :
    (ofFn n f).transpose = .ok (ofFn n fun i j => f j i) := by
  unfold transpose
  rw [show (ofFn n f).rows = Vector.table n n fun i j => ⟨f i j, true⟩ from rfl,
    show (ofFn n f).size = n from rfl,
    Vector.transposeColumnsToRows_table n n _ hn (fun _ _ _ _ => rfl)]
  rfl

/-- C10 at size 0: the transpose of `identity(0)` throws the logic error of the transpose
helper, called on 0 columns. -/
theorem transpose_identity_zero_raises :
    identity 0 = .ok ⟨[], 0⟩ ∧
    (⟨[], 0⟩ : SquareMatrix).transpose = .error (.MyLogicError "Empty input") :=
  ⟨by decide, by decide⟩

/-- C10, amended to `n ≥ 1`: the transpose `~` of `identity(n)` returns normally and
leaves `identity(n)`, cell for cell. -/
theorem transpose_identity (n : Nat) (hn : 1 ≤ n) :
    ∃ I, identity (n : Int) = .ok I ∧ I.transpose = .ok I := by
  refine ⟨_, identity_ofNat n, ?_⟩
  rw [transpose_ofFn n hn]
  congr 1
  apply ofFn_congr
  intro i _ j _
  by_cases h : i = j
  · simp [h]
  · have : ¬ j = i := fun h' => h h'.symm
    simp [h, this]

/-- The transpose of `identity(2)`. -/
theorem transpose_identity_witness :
    (ofLists [[1, 0], [0, 1]]).transpose = .ok (ofLists [[1, 0], [0, 1]]) ∧
    ∃ I, identity ((2 : Nat) : Int) = .ok I ∧ I.transpose = .ok I :=
  ⟨by decide!, transpose_identity 2 (by decide)⟩

end SquareMatrixGM.SquareMatrix

/-! ## Checked loops and mutating loops -/

/-- A loop whose `i`-th iteration takes `g i` to `g (i + 1)` when `good i` holds and
throws `e` otherwise: it ends in `g n` when every index is good and throws `e` when one
is not. -/
theorem forLoop_checked {σ : Type} (body : Nat → σ → Except Error σ) (g : Nat → σ)
    (good : Nat → Prop) (e : Error) (n : Nat)
    (hgood : ∀ i, i < n → good i → body i (g i) = .ok (g (i + 1)))
    (hbad : ∀ i, i < n → ¬ good i → body i (g i) = .error e) :
    ((∀ i, i < n → good i) → forLoop body n (g 0) = .ok (g n)) ∧
    ((∃ i, i < n ∧ ¬ good i) → forLoop body n (g 0) = .error e) := by
  induction n with
  | zero =>
    refine ⟨fun _ => rfl, ?_⟩
    rintro ⟨i, hi, _⟩
    omega
  | succ k ih =>
    have ih' := ih (fun i hi => hgood i (Nat.lt_succ_of_lt hi))
      (fun i hi => hbad i (Nat.lt_succ_of_lt hi))
    constructor
    · intro hall
      rw [forLoop_succ, ih'.1 (fun i hi => hall i (Nat.lt_succ_of_lt hi))]
      exact hgood k (Nat.lt_succ_self k) (hall k (Nat.lt_succ_self k))
    · rintro ⟨i, hi, hni⟩
      rw [forLoop_succ]
      by_cases hk : ∃ j, j < k ∧ ¬ good j
      · rw [ih'.2 hk]
      · have hall : ∀ j, j < k → good j := by
          intro j hj
          by_contra hnj
          exact hk ⟨j, hj, hnj⟩
        have hik : i = k := by
          by_contra hne
          exact hni (hall i (by omega))
        subst hik
        rw [ih'.1 hall]
        exact hbad i (Nat.lt_succ_self i) hni

/-- The same, with the start state and the end state given apart from the invariant. -/
theorem forLoop_checked_from {σ : Type} (body : Nat → σ → Except Error σ) (g : Nat → σ)
    (good : Nat → Prop) (e : Error) (n : Nat) (s t : σ) (h0 : g 0 = s) (hn : g n = t)
    (hgood : ∀ i, i < n → good i → body i (g i) = .ok (g (i + 1)))
    (hbad : ∀ i, i < n → ¬ good i → body i (g i) = .error e) :
    ((∀ i, i < n → good i) → forLoop body n s = .ok t) ∧
    ((∃ i, i < n ∧ ¬ good i) → forLoop body n s = .error e) := by
  subst h0 hn
  exact forLoop_checked body g good e n hgood hbad

theorem forLoopMut_succ {σ : Type} (body : Nat → σ → Mutated σ) (n : Nat) (s : σ) :
    forLoopMut body (n + 1) s =
      match forLoopMut body n s with
      | (s', none) => body n s'
      | (s', some e) => (s', some e) := rfl

/-- A mutating loop none of whose iterations throws. -/
theorem forLoopMut_eq_of_steps {σ : Type} (body : Nat → σ → Mutated σ) (g : Nat → σ)
    (n : Nat) (s : σ) (h0 : g 0 = s)
    (hstep : ∀ i, i < n → body i (g i) = (g (i + 1), none)) :
    forLoopMut body n s = (g n, none) := by
  subst h0
  induction n with
  | zero => rfl
  | succ k ih =>
    rw [forLoopMut_succ, ih (fun i hi => hstep i (Nat.lt_succ_of_lt hi))]
    exact hstep k (Nat.lt_succ_self k)

namespace VectorGM.Vector

/-- A vector is the table of its stored cells. -/
theorem eq_tab_cell (v : Vector) : v = tab v.size v.cell := by
  cases v with
  | mk data =>
    simp only [tab, size, Vector.mk.injEq]
    apply List.ext_getElem
    · simp
    · intro j h1 h2
      simp [cell, List.getD, h1]

theorem fullyInit_iff_cell (v : Vector) :
    v.FullyInit ↔ ∀ j, j < v.size → (v.cell j).initialized = true := by
  constructor
  · intro h j hj
    have hj' : j < v.data.length := hj
    have hc : v.cell j = v.data[j] := by simp [cell, List.getD, hj']
    rw [hc]
    exact h _ (List.getElem_mem hj')
  · intro h c hc
    obtain ⟨j, hj, rfl⟩ := List.mem_iff_getElem.mp hc
    have hc' : v.cell j = v.data[j] := by simp [cell, List.getD, hj]
    rw [← hc']
    exact h j hj

theorem store_tab (n : Nat) (c : Nat → Cell) (j : Nat) (x : ℚ) (h : j < n) :
    (tab n c).store j x = tab n fun b => if b = j then ⟨x, (c j).initialized⟩ else c b := by
  simp only [store, cell_tab n c j h]
  simp only [tab, List.map_range_set]

/-- The element-wise operators on two vectors of the same length: the result when every
cell of both is written, the logic error of the initialization check otherwise. -/
theorem elementwise_tab (op : ℚ → ℚ → ℚ) (sizeMsg initMsg : String) (n : Nat)
    (c c' : Nat → Cell) :
    ((∀ j, j < n → (c j).initialized = true ∧ (c' j).initialized = true) →
      elementwise op sizeMsg initMsg (tab n c) (tab n c') =
        .ok (tab n fun j => ⟨op (c j).value (c' j).value, true⟩)) ∧
    ((∃ j, j < n ∧ ¬ ((c j).initialized = true ∧ (c' j).initialized = true)) →
      elementwise op sizeMsg initMsg (tab n c) (tab n c') =
        .error (.MyLogicError initMsg)) := by
  unfold elementwise
  rw [size_vtab, size_vtab]
  simp only [ne_eq, not_true_eq_false, if_false, vconstruct_ofNat, bind, Except.bind]
  refine forLoop_checked_from _
    (fun m => tab n fun j =>
      if j < m then (⟨op (c j).value (c' j).value, true⟩ : Cell) else {})
    (fun j => (c j).initialized = true ∧ (c' j).initialized = true)
    (.MyLogicError initMsg) n _ _ ?_ ?_ ?_ ?_
  · apply vtab_congr
    intro j _
    simp
  · apply vtab_congr
    intro j hj
    simp [hj]
  · intro i hi hg
    simp only [isInitialized_tab n c i hi, isInitialized_tab n c' i hi, get_tab n c' i hi,
      cell_tab n c i hi, hg.1, hg.2, Bool.not_true, Bool.false_eq_true, if_false, pure,
      Except.pure]
    rw [set_tab n _ i _ hi]
    congr 1
    apply vtab_congr
    intro b _
    by_cases hb : b = i
    · have : b < i + 1 := by omega
      simp [hb]
    · by_cases hb' : b < i
      · have : b < i + 1 := by omega
        simp [hb, hb', this]
      · have : ¬ b < i + 1 := by omega
        simp [hb, hb', this]
  · intro i hi hg
    simp only [isInitialized_tab n c i hi, isInitialized_tab n c' i hi]
    by_cases h1 : (c i).initialized = true
    · have h2 : (c' i).initialized = false := by
        cases h : (c' i).initialized
        · rfl
        · exact absurd ⟨h1, h⟩ hg
      simp only [h1, h2, Bool.not_true, Bool.not_false, Bool.false_eq_true, if_false,
        if_true, pure, Except.pure]
    · have h1' : (c i).initialized = false := by
        cases h : (c i).initialized
        · rfl
        · exact absurd h h1
      simp only [h1', Bool.not_false, if_true]

end VectorGM.Vector

namespace VectorGM.Vector

theorem fullyInit_tab (n : Nat) (c : Nat → Cell) (h : ∀ j, j < n → (c j).initialized = true) :
    (tab n c).FullyInit := by
  rw [fullyInit_iff_cell, size_vtab]
  intro j hj
  rw [cell_tab n c j hj]
  exact h j hj

/-- Two vectors of the same length are both fully initialized exactly when no index holds
an unwritten cell of one of them. -/
theorem not_fullyInit_iff (a b : Vector) (n : Nat) (ha : a.size = n) (hb : b.size = n) :
    (¬ a.FullyInit ∨ ¬ b.FullyInit) ↔
      ∃ j, j < n ∧ ¬ ((a.cell j).initialized = true ∧ (b.cell j).initialized = true) := by
  rw [fullyInit_iff_cell, fullyInit_iff_cell, ha, hb]
  constructor
  · rintro (h | h)
    · push_neg at h
      obtain ⟨j, hj, hne⟩ := h
      exact ⟨j, hj, fun hh => hne hh.1⟩
    · push_neg at h
      obtain ⟨j, hj, hne⟩ := h
      exact ⟨j, hj, fun hh => hne hh.2⟩
  · rintro ⟨j, hj, hne⟩
    by_cases h1 : (a.cell j).initialized = true
    · right
      intro hall
      exact hne ⟨h1, hall j hj⟩
    · left
      intro hall
      exact h1 (hall j hj)

/-- The three outcomes of an element-wise operator on arbitrary operands. -/
theorem elementwise_cases (op : ℚ → ℚ → ℚ) (sizeMsg initMsg : String) (a b : Vector) :
    (a.size ≠ b.size → elementwise op sizeMsg initMsg a b = .error (.MyLogicError sizeMsg)) ∧
    (a.size = b.size → (¬ a.FullyInit ∨ ¬ b.FullyInit) →
      elementwise op sizeMsg initMsg a b = .error (.MyLogicError initMsg)) ∧
    (a.size = b.size → a.FullyInit → b.FullyInit →
      elementwise op sizeMsg initMsg a b =
        .ok (tab a.size fun j => ⟨op (a.cell j).value (b.cell j).value, true⟩)) := by
  refine ⟨?_, ?_, ?_⟩
  · intro h
    simp only [elementwise, ne_eq, h, not_false_eq_true, if_true]
  · intro hs hu
    have key := (elementwise_tab op sizeMsg initMsg a.size a.cell b.cell).2
      ((not_fullyInit_iff a b a.size rfl hs.symm).mp hu)
    have hb : tab a.size b.cell = b := by rw [hs]; exact (eq_tab_cell b).symm
    rw [← eq_tab_cell a, hb] at key
    exact key
  · intro hs ha hb'
    have key := (elementwise_tab op sizeMsg initMsg a.size a.cell b.cell).1
      (fun j hj => ⟨(fullyInit_iff_cell a).mp ha j hj,
        (fullyInit_iff_cell b).mp hb' j (hs ▸ hj)⟩)
    have hb : tab a.size b.cell = b := by rw [hs]; exact (eq_tab_cell b).symm
    rw [← eq_tab_cell a, hb] at key
    exact key

/-- Every element-wise operator meets the contract. -/
theorem elementwise_contract (op : ℚ → ℚ → ℚ) (sizeMsg initMsg : String) (a b : Vector) :
    ElementwiseContract (elementwise op sizeMsg initMsg) op a b := by
  obtain ⟨h1, h2, h3⟩ := elementwise_cases op sizeMsg initMsg a b
  have hok : a.size = b.size → a.FullyInit → b.FullyInit →
      ∃ r, elementwise op sizeMsg initMsg a b = .ok r ∧ r.size = a.size ∧ r.FullyInit ∧
        ∀ i, i < a.size → r.cell i = ⟨op (a.cell i).value (b.cell i).value, true⟩ := by
    intro hs ha hb
    exact ⟨_, h3 hs ha hb, size_vtab _ _, fullyInit_tab _ _ (fun _ _ => rfl),
      fun i hi => cell_tab _ _ i hi⟩
  refine ⟨⟨?_, ?_⟩, hok⟩
  · rintro ⟨msg, hmsg⟩
    by_contra hcon
    push_neg at hcon
    obtain ⟨r, hr, _⟩ := hok hcon.1 hcon.2.1 hcon.2.2
    rw [hr] at hmsg
    cases hmsg
  · intro h
    by_cases hs : a.size = b.size
    · rcases h with h | h
      · exact absurd hs h
      · exact ⟨_, h2 hs h⟩
    · exact ⟨_, h1 hs⟩

/-! ## The element-wise vector operators -/

/-- C18: each of `a + b`, `a - b` and `a % b` throws a logic error exactly when the sizes
differ or a cell of `a` or of `b` is unwritten; otherwise it returns a vector of the same
length, every cell written, cell `i` holding `a[i] + b[i]`, `a[i] - b[i]`, `a[i] * b[i]`.
(The three operators are const methods taking a const reference: the embedding has no
state of `a` or `b` that could change.) -/
theorem elementwise_ops_contract (a b : Vector) :
    ElementwiseContract add (fun x y => x + y) a b ∧
    ElementwiseContract sub (fun x y => x - y) a b ∧
    ElementwiseContract hadamard (fun x y => x * y) a b :=
  ⟨elementwise_contract _ _ _ a b, elementwise_contract _ _ _ a b,
    elementwise_contract _ _ _ a b⟩

/-- The vectors `v1 = (1, 2)`, `v2 = (3, 4)` and the unwritten `v4` of size 2: the three
results on `v1, v2` and the error of `v1 + v4`. -/
theorem elementwise_ops_contract_witness :
    (ofList [1, 2]).add (ofList [3, 4]) = .ok (ofList [4, 6]) ∧
    (ofList [1, 2]).sub (ofList [3, 4]) = .ok (ofList [-2, -2]) ∧
    (ofList [1, 2]).hadamard (ofList [3, 4]) = .ok (ofList [3, 8]) ∧
    (∃ msg, (ofList [1, 2]).add (tab 2 fun _ => {}) = .error (.MyLogicError msg)) ∧
    ElementwiseContract add (fun x y => x + y) (ofList [1, 2]) (tab 2 fun _ => {}) :=
  ⟨by decide!, by decide!, by decide!,
    ((elementwise_ops_contract (ofList [1, 2]) (tab 2 fun _ => {})).1.1).mpr
      (Or.inr (Or.inr (by decide))),
    (elementwise_ops_contract (ofList [1, 2]) (tab 2 fun _ => {})).1⟩

end VectorGM.Vector

namespace VectorGM.Vector

/-- The dot product of two vectors of the same length, one of them with an unwritten
cell. -/
theorem dot_tab_error (n : Nat) (c c' : Nat → Cell)
    (h : ∃ j, j < n ∧ ¬ ((c j).initialized = true ∧ (c' j).initialized = true)) :
    (tab n c).dot (tab n c') =
      .error (.MyLogicError "Both vectors must be fully initialized for dot product") := by
  unfold dot
  rw [size_vtab, size_vtab]
  simp only [ne_eq, not_true_eq_false, if_false, bind, Except.bind]
  refine (forLoop_checked_from _
    (fun m => ∑ j in Finset.range m, (c j).value * (c' j).value)
    (fun j => (c j).initialized = true ∧ (c' j).initialized = true)
    (.MyLogicError "Both vectors must be fully initialized for dot product") n _
    (∑ j in Finset.range n, (c j).value * (c' j).value) ?_ rfl ?_ ?_).2 h
  · simp
  · intro i hi hg
    simp only [isInitialized_tab n c i hi, isInitialized_tab n c' i hi, get_tab n c' i hi,
      cell_tab n c i hi, hg.1, hg.2, Bool.not_true, Bool.false_eq_true, if_false, pure,
      Except.pure, Finset.sum_range_succ]
  · intro i hi hg
    simp only [isInitialized_tab n c i hi, isInitialized_tab n c' i hi]
    by_cases h1 : (c i).initialized = true
    · have h2 : (c' i).initialized = false := by
        cases h : (c' i).initialized
        · rfl
        · exact absurd ⟨h1, h⟩ hg
      simp only [h1, h2, Bool.not_true, Bool.not_false, Bool.false_eq_true, if_false,
        if_true, pure, Except.pure]
    · have h1' : (c i).initialized = false := by
        cases h : (c i).initialized
        · rfl
        · exact absurd h h1
      simp only [h1', Bool.not_false, if_true]

/-- The three outcomes of the dot product on arbitrary operands. -/
theorem dot_cases (a b : Vector) :
    (a.size ≠ b.size →
      a.dot b = .error (.MyLogicError "Vector sizes must match for dot product")) ∧
    (a.size = b.size → (¬ a.FullyInit ∨ ¬ b.FullyInit) →
      a.dot b =
        .error (.MyLogicError "Both vectors must be fully initialized for dot product")) ∧
    (a.size = b.size → a.FullyInit → b.FullyInit →
      a.dot b = .ok (∑ j in Finset.range a.size, (a.cell j).value * (b.cell j).value)) := by
  refine ⟨?_, ?_, ?_⟩
  · intro h
    simp only [dot, ne_eq, h, not_false_eq_true, if_true]
  · intro hs hu
    have key := dot_tab_error a.size a.cell b.cell
      ((not_fullyInit_iff a b a.size rfl hs.symm).mp hu)
    have hb : tab a.size b.cell = b := by rw [hs]; exact (eq_tab_cell b).symm
    rw [← eq_tab_cell a, hb] at key
    exact key
  · intro hs ha hb'
    have key := dot_tab a.size a.cell b.cell
      (fun j hj => (fullyInit_iff_cell a).mp ha j hj)
      (fun j hj => (fullyInit_iff_cell b).mp hb' j (hs ▸ hj))
    have hb : tab a.size b.cell = b := by rw [hs]; exact (eq_tab_cell b).symm
    rw [← eq_tab_cell a, hb] at key
    exact key

/-! ## The dot product -/

/-- C19: the dot product `a * b` throws a logic error exactly when the sizes differ or a
cell of `a` or of `b` is unwritten; otherwise it returns the sum over `i` of
`a[i] * b[i]`, which is 0 for two empty vectors. -/
theorem dot_contract (a b : Vector) :
    ((∃ msg, a.dot b = .error (.MyLogicError msg)) ↔
      (a.size ≠ b.size ∨ ¬ a.FullyInit ∨ ¬ b.FullyInit)) ∧
    (a.size = b.size → a.FullyInit → b.FullyInit →
      a.dot b = .ok (∑ i in Finset.range a.size, (a.cell i).value * (b.cell i).value)) ∧
    empty.dot empty = .ok 0 := by
  obtain ⟨h1, h2, h3⟩ := dot_cases a b
  refine ⟨⟨?_, ?_⟩, h3, by decide⟩
  · rintro ⟨msg, hmsg⟩
    by_contra hcon
    push_neg at hcon
    rw [h3 hcon.1 hcon.2.1 hcon.2.2] at hmsg
    cases hmsg
  · intro h
    by_cases hs : a.size = b.size
    · rcases h with h | h
      · exact absurd hs h
      · exact ⟨_, h2 hs h⟩
    · exact ⟨_, h1 hs⟩

/-- The dot product of `(1, 2)` and `(3, 4)` is 11; with the vector `v5` of size 3 it
throws. -/
theorem dot_contract_witness :
    (ofList [1, 2]).dot (ofList [3, 4]) = .ok 11 ∧
    (∃ msg, (ofList [1, 2]).dot (tab 3 fun _ => {}) = .error (.MyLogicError msg)) ∧
    (ofList [1, 2]).dot (ofList [3, 4]) =
      .ok (∑ i in Finset.range (ofList [1, 2]).size,
        ((ofList [1, 2]).cell i).value * ((ofList [3, 4]).cell i).value) :=
  ⟨by decide!,
    ((dot_contract (ofList [1, 2]) (tab 3 fun _ => {})).1).mpr (Or.inl (by decide)),
    (dot_contract (ofList [1, 2]) (ofList [3, 4])).2.1 (by decide) (by decide) (by decide)⟩

end VectorGM.Vector

/-- A double loop that writes `f i j` into cell `(i, j)` of a tabulated state when
`good i j` holds and throws `e` otherwise throws `e` as soon as one cell is not good. -/
theorem fill_loop_error {σ : Type} (T : (Nat → Nat → VectorGM.Cell) → σ) (r k : Nat)
    (step : Nat → Nat → σ → Except Error σ) (f : Nat → Nat → ℚ) (good : Nat → Nat → Prop)
    (e : Error)
    (hcongr : ∀ c c', (∀ i, i < r → ∀ j, j < k → c i j = c' i j) → T c = T c')
    (hgood : ∀ i, i < r → ∀ j, j < k → good i j → ∀ c,
      step i j (T c) = .ok (T fun a b => if a = i ∧ b = j then ⟨f i j, true⟩ else c a b))
    (hbad : ∀ i, i < r → ∀ j, j < k → ¬ good i j → ∀ c, step i j (T c) = .error e)
    (c0 : Nat → Nat → VectorGM.Cell) (hex : ∃ i j, i < r ∧ j < k ∧ ¬ good i j) :
    forLoop (fun i R => forLoop (fun j R' => step i j R') k R) r (T c0) = .error e := by
  have inner : ∀ i, i < r → ∀ c,
      ((∀ j, j < k → good i j) → forLoop (fun j R' => step i j R') k (T c) =
        .ok (T fun a b => if a = i then ⟨f a b, true⟩ else c a b)) ∧
      ((∃ j, j < k ∧ ¬ good i j) → forLoop (fun j R' => step i j R') k (T c) = .error e) := by
    intro i hi c
    refine forLoop_checked_from _
      (fun m => T fun a b => if a = i ∧ b < m then ⟨f a b, true⟩ else c a b)
      (fun j => good i j) e k _ _ ?_ ?_ ?_ ?_
    · apply hcongr
      intro a _ b _
      simp
    · apply hcongr
      intro a _ b hb
      simp [hb]
    · intro j hj hg
      simp only []
      rw [hgood i hi j hj hg]
      congr 1
      apply hcongr
      intro a _ b _
      by_cases ha : a = i
      · by_cases hb : b = j
        · have : b < j + 1 := by omega
          simp [ha, hb]
        · by_cases hb' : b < j
          · have : b < j + 1 := by omega
            simp [ha, hb, hb', this]
          · have : ¬ b < j + 1 := by omega
            simp [ha, hb, hb', this]
      · simp [ha]
    · intro j hj hg
      exact hbad i hi j hj hg _
  refine (forLoop_checked_from _
    (fun m => T fun a b => if a < m then ⟨f a b, true⟩ else c0 a b)
    (fun i => ∀ j, j < k → good i j) e r _ (T fun a b => ⟨f a b, true⟩) ?_ ?_ ?_ ?_).2 ?_
  · apply hcongr
    intro a _ b _
    simp
  · apply hcongr
    intro a ha b _
    simp [ha]
  · intro i hi hg
    simp only []
    rw [(inner i hi _).1 hg]
    congr 1
    apply hcongr
    intro a _ b _
    by_cases ha : a = i
    · simp [ha]
    · by_cases ha' : a < i
      · have : a < i + 1 := by omega
        simp [ha, ha', this]
      · have : ¬ a < i + 1 := by omega
        simp [ha, ha', this]
  · intro i hi hg
    simp only []
    apply (inner i hi _).2
    by_contra hcon
    apply hg
    intro j hj
    by_contra hnj
    exact hcon ⟨j, hj, hnj⟩
  · obtain ⟨i, j, hi, hj, hnij⟩ := hex
    exact ⟨i, hi, fun hall => hnij (hall j hj)⟩

namespace VectorGM.Vector

/-- An array of `r` vectors of length `k` is the table of its stored cells. -/
theorem eq_table_of_rect (cols : List Vector) (r k : Nat) (hlen : cols.length = r)
    (hsize : ∀ v ∈ cols, v.size = k) :
    cols = table r k fun i j => (cols.getD i empty).cell j := by
  apply List.ext_getElem
  · simp [table, hlen]
  · intro i h1 h2
    have hget : cols.getD i empty = cols[i] := by simp [List.getD, h1]
    simp only [table, List.getElem_map, List.getElem_range, hget]
    have hk := hsize cols[i] (List.getElem_mem h1)
    conv_lhs => rw [eq_tab_cell cols[i]]
    rw [hk]

/-- The transpose helper on `r ≥ 1` columns of length `k`, one of them with an unwritten
cell. -/
theorem transposeColumnsToRows_table_error (r k : Nat) (c : Nat → Nat → Cell) (hr : 1 ≤ r)
    (hc : ∃ i j, i < r ∧ j < k ∧ (c i j).initialized = false) :
    transposeColumnsToRows (table r k c) (r : Int) =
      .error (.MyLogicError "Column vector is not fully initialized") := by
  have h0 : ¬ ((r : Int) = 0) := by omega
  have hsz : ∀ i, i < r → ((table r k c).getD i empty).size = k := by
    intro i hi
    rw [getD_table r k c i hi, size_vtab]
  simp only [transposeColumnsToRows, h0, if_false, Int.toNat_ofNat, hsz 0 (by omega)]
  rw [forLoop_unit_ok _ _ (by
    intro i hi
    have : i + 1 < r := by omega
    simp only [hsz (i + 1) this, ne_eq, not_true_eq_false, if_false])]
  have ha := alloc_loop k r
  simp only [bind, Except.bind] at ha ⊢
  rw [ha]
  simp only []
  refine fill_loop_error (table k r) k r _ (fun i j => (c j i).value)
    (fun i j => (c j i).initialized = true) _ (table_congr k r) ?_ ?_ _ ?_
  · intro i hi j hj hg c2
    have := set_set_table k r c2 i j (c j i).value hi hj
    simp only [getD_table r k c j hj, isInitialized_tab k (c j) i hi, hg,
      get_tab k (c j) i hi, Bool.not_true, Bool.false_eq_true, if_false, pure, Except.pure]
    simp only [getD_table k r c2 i hi, set_tab r (c2 i) j _ hj] at this ⊢
    exact this
  · intro i hi j hj hg c2
    have hf : (c j i).initialized = false := by
      cases h : (c j i).initialized
      · rfl
      · exact absurd h hg
    simp only [getD_table r k c j hj, isInitialized_tab k (c j) i hi, hf, Bool.not_false,
      if_true]
  · obtain ⟨i, j, hi, hj, hf⟩ := hc
    exact ⟨j, i, hj, hi, by simp [hf]⟩

/-- The transpose helper on columns one of which has not the length of the first. -/
theorem transposeColumnsToRows_size_error (cols : List Vector) (r : Nat) (hr : 1 ≤ r)
    (h : ∃ m, m < r ∧ (cols.getD m empty).size ≠ (cols.getD 0 empty).size) :
    transposeColumnsToRows cols (r : Int) =
      .error (.MyLogicError "All vectors must be the same size") := by
  have h0 : ¬ ((r : Int) = 0) := by omega
  simp only [transposeColumnsToRows, h0, if_false, Int.toNat_ofNat]
  rw [forLoop_unit_error _ (.MyLogicError "All vectors must be the same size") _
    (by
      intro i _
      by_cases hs : (cols.getD (i + 1) empty).size = (cols.getD 0 empty).size
      · left; simp only [hs, ne_eq, not_true_eq_false, if_false]
      · right; simp only [ne_eq, hs, not_false_eq_true, if_true])
    (by
      obtain ⟨m, hm, hne⟩ := h
      have hm0 : m ≠ 0 := by
        intro h0'
        subst h0'
        exact hne rfl
      refine ⟨m - 1, by omega, ?_⟩
      have : m - 1 + 1 = m := by omega
      simp only [this, ne_eq, hne, not_false_eq_true, if_true])]
  rfl

end VectorGM.Vector

namespace VectorGM.Vector

theorem size_of_mem_table (r k : Nat) (c : Nat → Nat → Cell) (v : Vector)
    (hv : v ∈ table r k c) : v.size = k := by
  simp only [table, List.mem_map, List.mem_range] at hv
  obtain ⟨i, _, rfl⟩ := hv
  exact size_vtab k _

theorem fullyInit_of_mem_table (r k : Nat) (c : Nat → Nat → Cell) (v : Vector)
    (hc : ∀ i, i < r → ∀ j, j < k → (c i j).initialized = true) (hv : v ∈ table r k c) :
    v.FullyInit := by
  simp only [table, List.mem_map, List.mem_range] at hv
  obtain ⟨i, hi, rfl⟩ := hv
  exact fullyInit_tab k _ (hc i hi)

theorem cell_getD_table (r k : Nat) (c : Nat → Nat → Cell) (i j : Nat) (hi : i < r)
    (hj : j < k) : ((table r k c).getD i empty).cell j = c i j := by
  rw [getD_table r k c i hi, cell_tab k _ j hj]

theorem getD_mem (cols : List Vector) (i : Nat) (hi : i < cols.length) :
    cols.getD i empty ∈ cols := by
  have : cols.getD i empty = cols[i] := by simp [List.getD, hi]
  rw [this]
  exact List.getElem_mem hi

/-- The cells of an array of fully initialized vectors of length `k` are all written. -/
theorem cell_init_of_fullyInit (cols : List Vector) (k : Nat)
    (hsize : ∀ v ∈ cols, v.size = k) (hinit : ∀ v ∈ cols, v.FullyInit) (i j : Nat)
    (hi : i < cols.length) (hj : j < k) :
    ((cols.getD i empty).cell j).initialized = true := by
  have hm := getD_mem cols i hi
  exact (fullyInit_iff_cell _).mp (hinit _ hm) j (by rw [hsize _ hm]; exact hj)

/-- An array with a vector that is not fully initialized has an unwritten cell. -/
theorem exists_cell_uninit (cols : List Vector) (k : Nat) (hsize : ∀ v ∈ cols, v.size = k)
    (h : ∃ v ∈ cols, ¬ v.FullyInit) :
    ∃ i j, i < cols.length ∧ j < k ∧ ((cols.getD i empty).cell j).initialized = false := by
  obtain ⟨v, hv, hni⟩ := h
  obtain ⟨i, hi, rfl⟩ := List.mem_iff_getElem.mp hv
  rw [fullyInit_iff_cell] at hni
  push_neg at hni
  obtain ⟨j, hj, hne⟩ := hni
  refine ⟨i, j, hi, by rw [← hsize _ hv]; exact hj, ?_⟩
  have : cols.getD i empty = cols[i] := by simp [List.getD, hi]
  rw [this]
  cases hc : (cols[i].cell j).initialized
  · rfl
  · exact absurd hc hne

/-- The transpose helper on an array of `count ≥ 1` fully initialized columns of length
`R`. -/
theorem transposeColumnsToRows_of_fullyInit (cols : List Vector) (count R : Nat)
    (hcount : 1 ≤ count) (hlen : cols.length = count) (hsize : ∀ v ∈ cols, v.size = R)
    (hinit : ∀ v ∈ cols, v.FullyInit) :
    transposeColumnsToRows cols (count : Int) =
      .ok (table R count fun i j => ⟨((cols.getD j empty).cell i).value, true⟩) := by
  conv_lhs => rw [eq_table_of_rect cols count R hlen hsize]
  exact transposeColumnsToRows_table count R _ hcount
    (fun i hi j hj => cell_init_of_fullyInit cols R hsize hinit i j (by omega) hj)

/-! ## The transpose helper -/

/-- C12: on an array of `count ≥ 1` fully initialized columns of the same length `R ≥ 0`,
`transposeColumnsToRows(cols, count)` returns exactly `R` rows, each of length `count`,
with every cell written and `result[i][j]` equal to `cols[j][i]`. -/
theorem transposeColumnsToRows_spec (cols : List Vector) (count R : Nat)
    (hcount : 1 ≤ count) (hlen : cols.length = count) (hsize : ∀ v ∈ cols, v.size = R)
    (hinit : ∀ v ∈ cols, v.FullyInit) :
    ∃ rows, transposeColumnsToRows cols (count : Int) = .ok rows ∧ rows.length = R ∧
      (∀ v ∈ rows, v.size = count) ∧ (∀ v ∈ rows, v.FullyInit) ∧
      ∀ i j, i < R → j < count →
        (rows.getD i empty).cell j = (cols.getD j empty).cell i := by
  refine ⟨_, transposeColumnsToRows_of_fullyInit cols count R hcount hlen hsize hinit,
    length_table _ _ _, fun v hv => size_of_mem_table _ _ _ v hv,
    fun v hv => fullyInit_of_mem_table _ _ _ v (fun _ _ _ _ => rfl) hv, ?_⟩
  intro i j hi hj
  rw [cell_getD_table R count _ i j hi hj]
  have h := cell_init_of_fullyInit cols R hsize hinit j i (by omega) hi
  cases hc : (cols.getD j empty).cell i with
  | mk v b =>
    rw [hc] at h
    simp only at h
    simp [h]

/-- Two columns of length 3 give three rows of length 2. -/
theorem transposeColumnsToRows_spec_witness :
    transposeColumnsToRows [ofList [1, 2, 3], ofList [4, 5, 6]] ((2 : Nat) : Int) =
      .ok [ofList [1, 4], ofList [2, 5], ofList [3, 6]] ∧
    ∃ rows, transposeColumnsToRows [ofList [1, 2, 3], ofList [4, 5, 6]] ((2 : Nat) : Int) =
        .ok rows ∧ rows.length = 3 ∧
      (∀ v ∈ rows, v.size = 2) ∧ (∀ v ∈ rows, v.FullyInit) ∧
      ∀ i j, i < 3 → j < 2 →
        (rows.getD i empty).cell j =
          (([ofList [1, 2, 3], ofList [4, 5, 6]] : List Vector).getD j empty).cell i :=
  ⟨by decide!, transposeColumnsToRows_spec [ofList [1, 2, 3], ofList [4, 5, 6]] 2 3
    (by decide) (by decide) (by decide) (by decide)⟩

/-- C13: on an array of `count ≥ 0` columns, `transposeColumnsToRows(cols, count)` throws
a logic error exactly when `count` is 0, or two columns differ in length, or a cell of a
column is unwritten; in every other case it returns a result. -/
theorem transposeColumnsToRows_raises_iff (cols : List Vector) (count : Nat)
    (hlen : cols.length = count) :
    ((∃ msg, transposeColumnsToRows cols (count : Int) = .error (.MyLogicError msg)) ↔
      (count = 0 ∨ (∃ u ∈ cols, ∃ v ∈ cols, u.size ≠ v.size) ∨ ∃ v ∈ cols, ¬ v.FullyInit)) ∧
    (¬ (count = 0 ∨ (∃ u ∈ cols, ∃ v ∈ cols, u.size ≠ v.size) ∨ ∃ v ∈ cols, ¬ v.FullyInit) →
      ∃ rows, transposeColumnsToRows cols (count : Int) = .ok rows) := by
  have hok : ¬ (count = 0 ∨ (∃ u ∈ cols, ∃ v ∈ cols, u.size ≠ v.size) ∨
      ∃ v ∈ cols, ¬ v.FullyInit) →
      ∃ rows, transposeColumnsToRows cols (count : Int) = .ok rows := by
    intro h
    push_neg at h
    obtain ⟨h0, hsz, hin⟩ := h
    have hsize : ∀ v ∈ cols, v.size = (cols.getD 0 empty).size := by
      intro v hv
      exact hsz v hv _ (getD_mem cols 0 (by omega))
    exact ⟨_, transposeColumnsToRows_of_fullyInit cols count _ (by omega) hlen hsize hin⟩
  refine ⟨⟨?_, ?_⟩, hok⟩
  · rintro ⟨msg, hmsg⟩
    by_contra hcon
    obtain ⟨rows, hrows⟩ := hok hcon
    rw [hrows] at hmsg
    cases hmsg
  · intro h
    by_cases h0 : count = 0
    · subst h0
      exact ⟨"Empty input", by simp [transposeColumnsToRows]⟩
    by_cases hsz : ∃ u ∈ cols, ∃ v ∈ cols, u.size ≠ v.size
    · refine ⟨_, transposeColumnsToRows_size_error cols count (by omega) ?_⟩
      obtain ⟨u, hu, v, hv, hne⟩ := hsz
      by_cases hu0 : u.size = (cols.getD 0 empty).size
      · obtain ⟨m, hm, rfl⟩ := List.mem_iff_getElem.mp hv
        refine ⟨m, by omega, ?_⟩
        have : cols.getD m empty = cols[m] := by simp [List.getD, hm]
        rw [this, ← hu0]
        exact fun h' => hne h'.symm
      · obtain ⟨m, hm, rfl⟩ := List.mem_iff_getElem.mp hu
        refine ⟨m, by omega, ?_⟩
        have : cols.getD m empty = cols[m] := by simp [List.getD, hm]
        rw [this]
        exact hu0
    · push_neg at hsz
      have hsize : ∀ v ∈ cols, v.size = (cols.getD 0 empty).size := by
        intro v hv
        exact hsz v hv _ (getD_mem cols 0 (by omega))
      have hin : ∃ v ∈ cols, ¬ v.FullyInit := by
        rcases h with h | h | h
        · exact absurd h h0
        · obtain ⟨u, hu, v, hv, hne⟩ := h
          exact absurd (hsz u hu v hv) hne
        · exact h
      obtain ⟨i, j, hi, hj, hf⟩ := exists_cell_uninit cols _ hsize hin
      refine ⟨"Column vector is not fully initialized", ?_⟩
      conv_lhs => rw [eq_table_of_rect cols count _ hlen hsize]
      exact transposeColumnsToRows_table_error count _ _ (by omega)
        ⟨i, j, by omega, hj, hf⟩

/-- The three failing calls of the test: no column, columns of lengths 2 and 3, a column
with nothing written; and the passing call. -/
theorem transposeColumnsToRows_raises_iff_witness :
    transposeColumnsToRows [] 0 = .error (.MyLogicError "Empty input") ∧
    transposeColumnsToRows [ofList [1, 2], tab 3 fun _ => {}] 2 =
      .error (.MyLogicError "All vectors must be the same size") ∧
    transposeColumnsToRows [ofList [1, 2], tab 2 fun _ => {}] 2 =
      .error (.MyLogicError "Column vector is not fully initialized") ∧
    (∃ msg, transposeColumnsToRows [ofList [1, 2], tab 2 fun _ => {}] ((2 : Nat) : Int) =
      .error (.MyLogicError msg)) ∧
    ∃ rows, transposeColumnsToRows [ofList [1, 2], ofList [3, 4]] ((2 : Nat) : Int) =
      .ok rows :=
  ⟨by decide, by decide, by decide,
    ((transposeColumnsToRows_raises_iff [ofList [1, 2], tab 2 fun _ => {}] 2 rfl).1).mpr
      (Or.inr (Or.inr (by decide))),
    (transposeColumnsToRows_raises_iff [ofList [1, 2], ofList [3, 4]] 2 rfl).2
      (by decide)⟩

/-- C14: for `count ≥ 1` fully initialized vectors of length `R ≥ 1`, the transpose helper
applied to the array and then, with count `R`, to the `R` vectors it returned, gives back
the `count` vectors of length `R`, cell for cell. -/
theorem transposeColumnsToRows_roundtrip (cols : List Vector) (count R : Nat)
    (hcount : 1 ≤ count) (hR : 1 ≤ R) (hlen : cols.length = count)
    (hsize : ∀ v ∈ cols, v.size = R) (hinit : ∀ v ∈ cols, v.FullyInit) :
    ∃ rows, transposeColumnsToRows cols (count : Int) = .ok rows ∧
      transposeColumnsToRows rows (R : Int) = .ok cols := by
  refine ⟨_, transposeColumnsToRows_of_fullyInit cols count R hcount hlen hsize hinit, ?_⟩
  rw [transposeColumnsToRows_table R count _ hR (fun _ _ _ _ => rfl)]
  congr 1
  conv_rhs => rw [eq_table_of_rect cols count R hlen hsize]
  apply table_congr
  intro i hi j hj
  have h := cell_init_of_fullyInit cols R hsize hinit i j (by omega) hj
  cases hc : (cols.getD i empty).cell j with
  | mk v b =>
    rw [hc] at h
    simp only at h
    simp [h]

/-- The round trip on two columns of length 3. -/
theorem transposeColumnsToRows_roundtrip_witness :
    ∃ rows, transposeColumnsToRows [ofList [1, 2, 3], ofList [4, 5, 6]] ((2 : Nat) : Int) =
        .ok rows ∧
      transposeColumnsToRows rows ((3 : Nat) : Int) =
        .ok [ofList [1, 2, 3], ofList [4, 5, 6]] :=
  transposeColumnsToRows_roundtrip [ofList [1, 2, 3], ofList [4, 5, 6]] 2 3 (by decide)
    (by decide) (by decide) (by decide) (by decide)

end VectorGM.Vector

namespace SquareMatrixGM.SquareMatrix

open VectorGM

theorem transposeState_ofFn (n : Nat) (hn : 1 ≤ n) (f : Nat → Nat → ℚ) :
    (ofFn n f).transposeState = (ofFn n fun i j => f j i, none) := by
  unfold transposeState
  rw [show (ofFn n f).rows = Vector.table n n fun i j => ⟨f i j, true⟩ from rfl,
    show (ofFn n f).size = n from rfl,
    Vector.transposeColumnsToRows_table n n _ hn (fun _ _ _ _ => rfl)]
  rfl

theorem transposeState_tab_error (n : Nat) (hn : 1 ≤ n) (c : Nat → Nat → Cell)
    (hc : ∃ i j, i < n ∧ j < n ∧ (c i j).initialized = false) :
    (tab n c).transposeState =
      (tab n c, some (.MyLogicError "Column vector is not fully initialized")) := by
  unfold transposeState
  rw [show (tab n c).rows = Vector.table n n c from rfl, show (tab n c).size = n from rfl,
    Vector.transposeColumnsToRows_table_error n n c hn hc]

/-- A well-formed matrix that is not fully initialized has an unwritten cell. -/
theorem exists_cellAt_uninit (M : SquareMatrix) (n : Nat) (hM : M.WellFormed n)
    (h : ¬ M.FullyInit) : ∃ i j, i < n ∧ j < n ∧ (M.cellAt i j).initialized = false := by
  have hex : ∃ v ∈ M.rows, ¬ v.FullyInit := by
    by_contra hcon
    push_neg at hcon
    exact h (fun r hr c hc => hcon r hr c hc)
  obtain ⟨i, j, hi, hj, hf⟩ := Vector.exists_cell_uninit M.rows n hM.2.2 hex
  exact ⟨i, j, by rw [← hM.2.1]; exact hi, hj, hf⟩

/-- The cells of a well-formed, fully initialized matrix. -/
theorem cellAt_of_fullyInit (M : SquareMatrix) (n : Nat) (hM : M.WellFormed n)
    (hi : M.FullyInit) (i j : Nat) (hi' : i < n) (hj : j < n) :
    M.cellAt i j = ⟨M.val i j, true⟩ := by
  have h := eq_ofFn_of_fullyInit M n hM hi
  have h2 : (ofFn n M.val).cellAt i j = ⟨M.val i j, true⟩ := cellAt_tab n _ i j hi' hj
  rw [← h] at h2
  exact h2

/-- C11: for a well-formed `n x n` matrix `M`, `n ≥ 1`: when every cell is written, `~M`
leaves a matrix of size `n` with every cell written and cell `(i, j)` equal to the former
cell `(j, i)`, and a second `~` restores `M`; when a cell is unwritten, `~M` throws a
logic error and leaves `M` as it was. -/
theorem transpose_spec (n : Nat) (M : SquareMatrix) (hn : 1 ≤ n) (hM : M.WellFormed n) :
    (M.FullyInit → ∃ T, M.transposeState = (T, none) ∧ M.transpose = .ok T ∧
      T.WellFormed n ∧ T.FullyInit ∧
      (∀ i j, i < n → j < n → T.cellAt i j = M.cellAt j i) ∧
      T.transposeState = (M, none)) ∧
    (¬ M.FullyInit → ∃ msg, M.transposeState = (M, some (.MyLogicError msg))) := by
  constructor
  · intro hi
    have hM' := eq_ofFn_of_fullyInit M n hM hi
    refine ⟨ofFn n fun i j => M.val j i, ?_, ?_, wellFormed_tab n _, fullyInit_ofFn n _,
      ?_, ?_⟩
    · conv_lhs => rw [hM']
      exact transposeState_ofFn n hn M.val
    · conv_lhs => rw [hM']
      exact transpose_ofFn n hn M.val
    · intro i j hi' hj
      rw [cellAt_of_fullyInit M n hM hi j i hj hi']
      exact cellAt_tab n _ i j hi' hj
    · rw [transposeState_ofFn n hn]
      conv_rhs => rw [hM']
  · intro hni
    refine ⟨"Column vector is not fully initialized", ?_⟩
    have hM' := eq_tab_of_wellFormed M n hM
    have key := transposeState_tab_error n hn M.cellAt (exists_cellAt_uninit M n hM hni)
    rw [← hM'] at key
    exact key

/-- The matrix of the test "Transpose operator": `[[1,2],[3,4]]` becomes `[[1,3],[2,4]]`;
and a matrix of size 2 with nothing written is left as it was. -/
theorem transpose_spec_witness :
    (ofLists [[1, 2], [3, 4]]).transposeState = (ofLists [[1, 3], [2, 4]], none) ∧
    (∃ T, (ofLists [[1, 2], [3, 4]]).transposeState = (T, none) ∧
      (ofLists [[1, 2], [3, 4]]).transpose = .ok T ∧
      T.WellFormed 2 ∧ T.FullyInit ∧
      (∀ i j, i < 2 → j < 2 → T.cellAt i j = (ofLists [[1, 2], [3, 4]]).cellAt j i) ∧
      T.transposeState = (ofLists [[1, 2], [3, 4]], none)) ∧
    ∃ msg, (tab 2 fun _ _ => {}).transposeState =
      (tab 2 fun _ _ => {}, some (.MyLogicError msg)) :=
  ⟨by decide!,
    (transpose_spec 2 (ofLists [[1, 2], [3, 4]]) (by decide) (by decide)).1 (by decide),
    (transpose_spec 2 (tab 2 fun _ _ => {}) (by decide) (by decide)).2 (by decide)⟩

end SquareMatrixGM.SquareMatrix

namespace VectorGM.Vector

/-- An element-wise operator with a commutative `op` gives the same outcome, value or
exception, on swapped operands. -/
theorem elementwise_comm (op : ℚ → ℚ → ℚ) (hop : ∀ x y, op x y = op y x)
    (sizeMsg initMsg : String) (a b : Vector) :
    elementwise op sizeMsg initMsg a b = elementwise op sizeMsg initMsg b a := by
  obtain ⟨h1, h2, h3⟩ := elementwise_cases op sizeMsg initMsg a b
  obtain ⟨h1', h2', h3'⟩ := elementwise_cases op sizeMsg initMsg b a
  by_cases hs : a.size = b.size
  · by_cases hi : a.FullyInit ∧ b.FullyInit
    · rw [h3 hs hi.1 hi.2, h3' hs.symm hi.2 hi.1, hs]
      congr 1
      apply vtab_congr
      intro j _
      rw [hop]
    · have hu : ¬ a.FullyInit ∨ ¬ b.FullyInit := by
        by_cases ha : a.FullyInit
        · exact Or.inr fun hb => hi ⟨ha, hb⟩
        · exact Or.inl ha
      rw [h2 hs hu, h2' hs.symm hu.symm]
  · rw [h1 hs, h1' fun h => hs h.symm]

end VectorGM.Vector

namespace SquareMatrixGM.SquareMatrix

open VectorGM

theorem setRow_tab (n : Nat) (c : Nat → Nat → Cell) (i : Nat) (c' : Nat → Cell)
    (hi : i < n) :
    (tab n c).setRow i (Vector.tab n c') = .ok (tab n fun a => if a = i then c' else c a) := by
  simp only [setRow, row_tab n c i hi, bind, Except.bind, pure, Except.pure,
    Int.toNat_ofNat, Except.ok.injEq]
  show (⟨(Vector.table n n c).set i _, n⟩ : SquareMatrix) = ⟨_, n⟩
  rw [Vector.set_table]

/-- The row-wise operators on two fully initialized matrices of size `n`. -/
theorem rowwise_ofFn (op : ℚ → ℚ → ℚ) (m1 m2 sizeMsg : String) (n : Nat)
    (a b : Nat → Nat → ℚ) :
    rowwise (Vector.elementwise op m1 m2) sizeMsg (ofFn n a) (ofFn n b) =
      .ok (ofFn n fun i j => op (a i j) (b i j)) := by
  unfold rowwise
  simp only [show (ofFn n a).size = n from rfl, show (ofFn n b).size = n from rfl, ne_eq,
    not_true_eq_false, if_false, construct_ofNat, bind, Except.bind]
  refine forLoop_eq_of_steps_from _
    (fun m => tab n fun i j => if i < m then (⟨op (a i j) (b i j), true⟩ : Cell) else {})
    n _ ?_ ?_ |>.trans ?_
  · apply tab_congr
    intro i _ j _
    simp
  · intro i hi
    have hrow : (ofFn n b).row i = .ok (Vector.tab n fun j => ⟨b i j, true⟩) :=
      row_tab n _ i hi
    have hraw : (ofFn n a).rows.getD i Vector.empty = Vector.tab n fun j => ⟨a i j, true⟩ :=
      Vector.getD_table n n _ i hi
    have hel := (Vector.elementwise_tab op m1 m2 n (fun j => ⟨a i j, true⟩)
      (fun j => ⟨b i j, true⟩)).1 (fun _ _ => ⟨rfl, rfl⟩)
    simp only [] at hel
    simp only [hrow, hraw, hel]
    rw [setRow_tab n _ i _ hi]
    congr 1
    apply tab_congr
    intro x _ y _
    by_cases hx : x = i
    · have : x < i + 1 := by omega
      simp [hx]
    · by_cases hx' : x < i
      · have : x < i + 1 := by omega
        simp [hx, hx', this]
      · have : ¬ x < i + 1 := by omega
        simp [hx, hx', this]
  · congr 1
    apply tab_congr
    intro i hi j _
    simp [hi]

/-- A row-wise operator built on a commutative vector operator gives the same outcome,
value or exception, on swapped operands. -/
theorem rowwise_comm (f : Vector → Vector → Except Error Vector) (hf : ∀ u v, f u v = f v u)
    (sizeMsg : String) (A B : SquareMatrix) :
    rowwise f sizeMsg A B = rowwise f sizeMsg B A := by
  unfold rowwise
  by_cases hs : A.size = B.size
  · have hs' : B.size = A.size := hs.symm
    simp only [hs, ne_eq, not_true_eq_false, if_false, construct_ofNat, bind, Except.bind]
    apply forLoop_congr
    intro i hi t
    have hA : A.row i = .ok (A.rows.getD i Vector.empty) := by
      have : ¬ ((i : Int) < 0 ∨ (i : Int) ≥ (A.size : Int)) := by omega
      simp only [row, this, if_false, Int.toNat_ofNat]
    have hB : B.row i = .ok (B.rows.getD i Vector.empty) := by
      have : ¬ ((i : Int) < 0 ∨ (i : Int) ≥ (B.size : Int)) := by omega
      simp only [row, this, if_false, Int.toNat_ofNat]
    simp only [hA, hB]
    rw [hf]
  · have hs' : ¬ B.size = A.size := fun h => hs h.symm
    simp only [ne_eq, hs, hs', not_false_eq_true, if_true]

theorem add_comm_all (A B : SquareMatrix) : A.add B = B.add A :=
  rowwise_comm _ (fun u v => Vector.elementwise_comm _ (fun x y => add_comm x y) _ _ u v)
    _ A B

/-! ## Matrix sum and difference -/

/-- C15: for fully initialized matrices `A` and `B` of the same size `n ≥ 0`,
`(A + B) - B` returns normally and is `A`, cell for cell, so that it has the total
element sum of `A`. -/
theorem add_sub_cancel_spec (n : Nat) (A B : SquareMatrix) (hA : A.WellFormed n)
    (hAi : A.FullyInit) (hB : B.WellFormed n) (hBi : B.FullyInit) :
    ∃ S, A.add B = .ok S ∧ S.sub B = .ok A ∧ ∀ R, S.sub B = .ok R → R.sum = A.sum := by
  have hA' := eq_ofFn_of_fullyInit A n hA hAi
  have hB' := eq_ofFn_of_fullyInit B n hB hBi
  have hadd : A.add B = .ok (ofFn n fun i j => A.val i j + B.val i j) := by
    conv_lhs => rw [hA', hB']
    exact rowwise_ofFn _ _ _ _ n _ _
  have hsub : (ofFn n fun i j => A.val i j + B.val i j).sub B = .ok A := by
    have key : (ofFn n fun i j => A.val i j + B.val i j).sub (ofFn n B.val) =
        .ok (ofFn n A.val) := by
      unfold sub Vector.sub
      rw [rowwise_ofFn]
      congr 1
      apply ofFn_congr
      intro i _ j _
      ring
    rw [← hB', ← hA'] at key
    exact key
  refine ⟨_, hadd, hsub, ?_⟩
  intro R hR
  rw [hsub] at hR
  cases hR
  rfl

/-- The matrices of the test "Matrix addition and subtraction". -/
theorem add_sub_cancel_spec_witness :
    (ofLists [[1, 2], [3, 4]]).add (ofLists [[4, 3], [2, 1]]) =
      .ok (ofLists [[5, 5], [5, 5]]) ∧
    (ofLists [[5, 5], [5, 5]]).sub (ofLists [[4, 3], [2, 1]]) =
      .ok (ofLists [[1, 2], [3, 4]]) ∧
    ∃ S, (ofLists [[1, 2], [3, 4]]).add (ofLists [[4, 3], [2, 1]]) = .ok S ∧
      S.sub (ofLists [[4, 3], [2, 1]]) = .ok (ofLists [[1, 2], [3, 4]]) ∧
      ∀ R, S.sub (ofLists [[4, 3], [2, 1]]) = .ok R →
        R.sum = (ofLists [[1, 2], [3, 4]]).sum :=
  ⟨by decide!, by decide!,
    add_sub_cancel_spec 2 (ofLists [[1, 2], [3, 4]]) (ofLists [[4, 3], [2, 1]])
      (by decide) (by decide) (by decide) (by decide)⟩

/-- C16: for all matrices `A` and `B` (of the same size or not), `A + B` and `B + A` have
the same outcome: they return normally and equal, cell for cell, when both are well-formed
of the same size and fully initialized, and one throws exactly when the other does. -/
theorem add_comm_spec (A B : SquareMatrix) :
    (∀ n, A.WellFormed n → B.WellFormed n → A.FullyInit → B.FullyInit →
      ∃ S, A.add B = .ok S ∧ B.add A = .ok S) ∧
    ((∃ e, A.add B = .error e) ↔ (∃ e, B.add A = .error e)) ∧
    (∀ S, A.add B = .ok S ↔ B.add A = .ok S) := by
  refine ⟨?_, ?_, ?_⟩
  · intro n hA hB hAi hBi
    have hadd : A.add B = .ok (ofFn n fun i j => A.val i j + B.val i j) := by
      conv_lhs => rw [eq_ofFn_of_fullyInit A n hA hAi, eq_ofFn_of_fullyInit B n hB hBi]
      exact rowwise_ofFn _ _ _ _ n _ _
    exact ⟨_, hadd, by rw [← add_comm_all A B]; exact hadd⟩
  · rw [add_comm_all A B]
  · intro S
    rw [add_comm_all A B]

/-- The sum of the test matrices in both orders, and the sum with a matrix of size 2 with
nothing written, which throws in both orders. -/
theorem add_comm_spec_witness :
    (ofLists [[1, 2], [3, 4]]).add (ofLists [[4, 3], [2, 1]]) =
      .ok (ofLists [[5, 5], [5, 5]]) ∧
    (ofLists [[4, 3], [2, 1]]).add (ofLists [[1, 2], [3, 4]]) =
      .ok (ofLists [[5, 5], [5, 5]]) ∧
    (∃ e, (ofLists [[1, 2], [3, 4]]).add (tab 2 fun _ _ => {}) = .error e) ∧
    ((∃ e, (ofLists [[1, 2], [3, 4]]).add (tab 2 fun _ _ => {}) = .error e) ↔
      (∃ e, (tab 2 fun _ _ => {}).add (ofLists [[1, 2], [3, 4]]) = .error e)) :=
  ⟨by decide!, by decide!,
    ⟨.MyLogicError "Both vectors must be fully initialized for addition", by decide⟩,
    (add_comm_spec (ofLists [[1, 2], [3, 4]]) (tab 2 fun _ _ => {})).2.1⟩

end SquareMatrixGM.SquareMatrix

namespace VectorGM.Vector

/-- The compound operators on two vectors of the same length: no exception, `op` of the
two stored values in every cell, every flag as it was. -/
theorem compound_tab (op : ℚ → ℚ → ℚ) (sizeMsg : String) (n : Nat) (c c' : Nat → Cell) :
    compound op sizeMsg (tab n c) (tab n c') =
      (tab n fun j => ⟨op (c j).value (c' j).value, (c j).initialized⟩, none) := by
  unfold compound
  rw [size_vtab, size_vtab]
  simp only [ne_eq, not_true_eq_false, if_false]
  refine (forLoopMut_eq_of_steps _
    (fun m => tab n fun j =>
      if j < m then (⟨op (c j).value (c' j).value, (c j).initialized⟩ : Cell) else c j)
    n _ ?_ ?_).trans ?_
  · apply vtab_congr
    intro j _
    simp
  · intro i hi
    simp only [Prod.mk.injEq, and_true]
    rw [cell_tab n _ i hi, cell_tab n c' i hi, store_tab n _ i _ hi]
    apply vtab_congr
    intro b _
    by_cases hb : b = i
    · have : b < i + 1 := by omega
      simp [hb]
    · by_cases hb' : b < i
      · have : b < i + 1 := by omega
        simp [hb, hb', this]
      · have : ¬ b < i + 1 := by omega
        simp [hb, hb', this]
  · simp only [Prod.mk.injEq, and_true]
    apply vtab_congr
    intro j hj
    simp [hj]

theorem compound_of_size_eq (op : ℚ → ℚ → ℚ) (sizeMsg : String) (a b : Vector)
    (h : a.size = b.size) :
    compound op sizeMsg a b =
      (tab a.size fun j => ⟨op (a.cell j).value (b.cell j).value, (a.cell j).initialized⟩,
        none) := by
  have key := compound_tab op sizeMsg a.size a.cell b.cell
  have hb : tab a.size b.cell = b := by rw [h]; exact (eq_tab_cell b).symm
  rw [← eq_tab_cell a, hb] at key
  exact key

end VectorGM.Vector

namespace SquareMatrixGM.SquareMatrix

open VectorGM

/-- The compound operators on two well-formed matrices of size `n`: no exception, `op` of
the two stored values in every cell, every flag as it was. -/
theorem rowwiseAssign_tab (op : ℚ → ℚ → ℚ) (m1 sizeMsg : String) (n : Nat)
    (c c' : Nat → Nat → Cell) :
    rowwiseAssign (Vector.compound op m1) sizeMsg (tab n c) (tab n c') =
      (tab n fun i j => ⟨op (c i j).value (c' i j).value, (c i j).initialized⟩, none) := by
  unfold rowwiseAssign
  simp only [size_tab, ne_eq, not_true_eq_false, if_false]
  refine (forLoopMut_eq_of_steps _
    (fun m => tab n fun i j =>
      if i < m then (⟨op (c i j).value (c' i j).value, (c i j).initialized⟩ : Cell)
      else c i j)
    n _ ?_ ?_).trans ?_
  · apply tab_congr
    intro i _ j _
    simp
  · intro i hi
    simp only [row_tab n c' i hi]
    rw [show ∀ d, (tab n d).rows = Vector.table n n d from fun _ => rfl,
      Vector.getD_table n n _ i hi, Vector.compound_tab]
    simp only [Prod.mk.injEq, and_true]
    show (⟨(Vector.table n n _).set i _, n⟩ : SquareMatrix) = _
    rw [Vector.set_table]
    apply tab_congr
    intro x _ y _
    by_cases hx : x = i
    · have : x < i + 1 := by omega
      simp [hx]
    · by_cases hx' : x < i
      · have : x < i + 1 := by omega
        simp [hx, hx', this]
      · have : ¬ x < i + 1 := by omega
        simp [hx, hx', this]
  · simp only [Prod.mk.injEq, and_true]
    apply tab_congr
    intro i hi j _
    simp [hi]

theorem rowwiseAssign_of_wellFormed (op : ℚ → ℚ → ℚ) (m1 sizeMsg : String) (n : Nat)
    (A B : SquareMatrix) (hA : A.WellFormed n) (hB : B.WellFormed n) :
    rowwiseAssign (Vector.compound op m1) sizeMsg A B =
      (tab n fun i j => ⟨op (A.val i j) (B.val i j), (A.cellAt i j).initialized⟩, none) := by
  have key := rowwiseAssign_tab op m1 sizeMsg n A.cellAt B.cellAt
  rw [← eq_tab_of_wellFormed A n hA, ← eq_tab_of_wellFormed B n hB] at key
  exact key

/-! ## Operands of different sizes, and the compound forms -/

/-- C17: on operands of different sizes, whatever their cells hold, the vector operators
`+`, `-`, `%`, the dot product, `+=`, `-=` and the matrix operators `+`, `-`, `*`, `%`,
`+=`, `-=` throw the logic error of their size check, and the compound forms leave the left
operand as it was.  (The other operands are passed by const reference or are the receiver
of a const method: the embedding has no state of them that could change.) -/
theorem size_mismatch_raises (a b : Vector) (A B : SquareMatrix) (hv : a.size ≠ b.size)
    (hm : A.size ≠ B.size) :
    a.add b = .error (.MyLogicError "Vector sizes must match for addition") ∧
    a.sub b = .error (.MyLogicError "Vector sizes must match for subtraction") ∧
    a.hadamard b =
      .error (.MyLogicError "Vector sizes must match for element-wise multiplication") ∧
    a.dot b = .error (.MyLogicError "Vector sizes must match for dot product") ∧
    a.addAssign b = (a, some (.MyLogicError "Vector sizes must match for addition")) ∧
    a.subAssign b = (a, some (.MyLogicError "Vector sizes must match for subtraction")) ∧
    A.add B = .error (.MyLogicError "Matrix sizes must match for addition") ∧
    A.sub B = .error (.MyLogicError "Matrix sizes must match for subtraction") ∧
    A.mul B = .error (.MyLogicError "Matrix sizes must match for multiplication") ∧
    A.hadamard B =
      .error (.MyLogicError "Matrix sizes must match for element-wise multiplication") ∧
    A.addAssign B = (A, some (.MyLogicError "Matrix sizes must match for addition")) ∧
    A.subAssign B = (A, some (.MyLogicError "Matrix sizes must match for subtraction")) := by
  refine ⟨?_, ?_, ?_, ?_, ?_, ?_, ?_, ?_, ?_, ?_, ?_, ?_⟩
  · simp only [Vector.add, Vector.elementwise, ne_eq, hv, not_false_eq_true, if_true]
  · simp only [Vector.sub, Vector.elementwise, ne_eq, hv, not_false_eq_true, if_true]
  · simp only [Vector.hadamard, Vector.elementwise, ne_eq, hv, not_false_eq_true, if_true]
  · simp only [Vector.dot, ne_eq, hv, not_false_eq_true, if_true]
  · simp only [Vector.addAssign, Vector.compound, ne_eq, hv, not_false_eq_true, if_true]
  · simp only [Vector.subAssign, Vector.compound, ne_eq, hv, not_false_eq_true, if_true]
  · simp only [add, rowwise, ne_eq, hm, not_false_eq_true, if_true]
  · simp only [sub, rowwise, ne_eq, hm, not_false_eq_true, if_true]
  · simp only [mul, ne_eq, hm, not_false_eq_true, if_true]
  · simp only [hadamard, rowwise, ne_eq, hm, not_false_eq_true, if_true]
  · simp only [addAssign, rowwiseAssign, ne_eq, hm, not_false_eq_true, if_true]
  · simp only [subAssign, rowwiseAssign, ne_eq, hm, not_false_eq_true, if_true]

/-- The operands of the tests: `v1` of size 2 with `v5` of size 3, `m1` of size 2 with
`m5` of size 3 (nothing written in `v5` and `m5`). -/
theorem size_mismatch_raises_witness :
    (Vector.ofList [1, 2]).size ≠ (Vector.tab 3 fun _ => {}).size ∧
    (ofLists [[1, 2], [3, 4]]).size ≠ (tab 3 fun _ _ => {}).size ∧
    (Vector.ofList [1, 2]).addAssign (Vector.tab 3 fun _ => {}) =
      (Vector.ofList [1, 2], some (.MyLogicError "Vector sizes must match for addition")) ∧
    (ofLists [[1, 2], [3, 4]]).mul (tab 3 fun _ _ => {}) =
      .error (.MyLogicError "Matrix sizes must match for multiplication") :=
  ⟨by decide, by decide,
    (size_mismatch_raises (Vector.ofList [1, 2]) (Vector.tab 3 fun _ => {})
      (ofLists [[1, 2], [3, 4]]) (tab 3 fun _ _ => {}) (by decide) (by decide)).2.2.2.2.1,
    by decide⟩

/-- C20: for vectors `a` and `b` of the same size and well-formed matrices `A` and `B` of
the same size, whatever their cells hold, `+=` and `-=` do not throw; afterwards every
cell of the left operand holds its former stored value plus (minus) the stored value of
the cell of the right operand, with its former flag.  (The right operand is passed by
const reference: the embedding has no state of it that could change.) -/
theorem compound_spec (a b : Vector) (A B : SquareMatrix) (n : Nat) (hv : a.size = b.size)
    (hA : A.WellFormed n) (hB : B.WellFormed n) :
    (∃ r, a.addAssign b = (r, none) ∧ r.size = a.size ∧ ∀ i, i < a.size →
      r.cell i = ⟨(a.cell i).value + (b.cell i).value, (a.cell i).initialized⟩) ∧
    (∃ r, a.subAssign b = (r, none) ∧ r.size = a.size ∧ ∀ i, i < a.size →
      r.cell i = ⟨(a.cell i).value - (b.cell i).value, (a.cell i).initialized⟩) ∧
    (∃ R, A.addAssign B = (R, none) ∧ R.WellFormed n ∧ ∀ i j, i < n → j < n →
      R.cellAt i j = ⟨A.val i j + B.val i j, (A.cellAt i j).initialized⟩) ∧
    (∃ R, A.subAssign B = (R, none) ∧ R.WellFormed n ∧ ∀ i j, i < n → j < n →
      R.cellAt i j = ⟨A.val i j - B.val i j, (A.cellAt i j).initialized⟩) :=
  ⟨⟨_, Vector.compound_of_size_eq _ _ a b hv, Vector.size_vtab _ _,
      fun i hi => Vector.cell_tab _ _ i hi⟩,
    ⟨_, Vector.compound_of_size_eq _ _ a b hv, Vector.size_vtab _ _,
      fun i hi => Vector.cell_tab _ _ i hi⟩,
    ⟨_, rowwiseAssign_of_wellFormed _ _ _ n A B hA hB, wellFormed_tab n _,
      fun i j hi hj => cellAt_tab n _ i j hi hj⟩,
    ⟨_, rowwiseAssign_of_wellFormed _ _ _ n A B hA hB, wellFormed_tab n _,
      fun i j hi hj => cellAt_tab n _ i j hi hj⟩⟩

/-- The compound forms of the test "Matrix addition and subtraction", and `+=` on vectors
with unwritten cells: a never-written right operand adds its stored 0, and a never-written
left operand takes the values and stays unwritten. -/
theorem compound_spec_witness :
    (ofLists [[1, 2], [3, 4]]).addAssign (ofLists [[4, 3], [2, 1]]) =
      (ofLists [[5, 5], [5, 5]], none) ∧
    (ofLists [[5, 5], [5, 5]]).subAssign (ofLists [[4, 3], [2, 1]]) =
      (ofLists [[1, 2], [3, 4]], none) ∧
    (Vector.ofList [1, 2]).addAssign (Vector.tab 2 fun _ => {}) =
      (Vector.ofList [1, 2], none) ∧
    (Vector.tab 2 fun _ => {}).addAssign (Vector.ofList [1, 2]) =
      (⟨[⟨1, false⟩, ⟨2, false⟩]⟩, none) ∧
    ∃ r, (Vector.tab 2 fun _ => {}).addAssign (Vector.ofList [1, 2]) = (r, none) ∧
      r.size = (Vector.tab 2 fun _ => {}).size ∧ ∀ i, i < (Vector.tab 2 fun _ => {}).size →
        r.cell i = ⟨((Vector.tab 2 fun _ => {}).cell i).value +
          ((Vector.ofList [1, 2]).cell i).value,
          ((Vector.tab 2 fun _ => {}).cell i).initialized⟩ :=
  ⟨by decide!, by decide!, by decide!, by decide!,
    (compound_spec (Vector.tab 2 fun _ => {}) (Vector.ofList [1, 2])
      (ofLists [[1, 2], [3, 4]]) (ofLists [[4, 3], [2, 1]]) 2 (by decide) (by decide)
      (by decide)).1⟩

end SquareMatrixGM.SquareMatrix

namespace VectorGM.Vector

theorem touch_tab (n : Nat) (c : Nat → Cell) (j : Nat) (h : j < n) :
    (tab n c).touch j = .ok (tab n fun b => if b = j then ⟨(c j).value, true⟩ else c b) := by
  have hb : ¬ ((j : Int) < 0 ∨ (j : Int) ≥ ((tab n c).size : Int)) := by
    rw [size_vtab]; omega
  simp only [touch, hb, if_false, Int.toNat_ofNat, cell_tab n c j h]
  simp only [tab, List.map_range_set]

/-- The three bounds-checked accesses of a vector throw `MyOutOfRange` exactly outside
`[0, size)` and throw nothing else. -/
theorem access_cases (v : Vector) (i : Int) (x : ℚ) :
    ((i < 0 ∨ i ≥ v.size) → v.get i = .error .MyOutOfRange ∧
      v.touch i = .error .MyOutOfRange ∧ v.set i x = .error .MyOutOfRange ∧
      v.isInitialized i = .error .MyOutOfRange) ∧
    (¬ (i < 0 ∨ i ≥ v.size) → (∃ y, v.get i = .ok y) ∧ (∃ w, v.touch i = .ok w) ∧
      (∃ w, v.set i x = .ok w) ∧ (∃ b, v.isInitialized i = .ok b)) := by
  constructor
  · intro h
    simp only [get, touch, set, isInitialized, h, if_true, and_self]
  · intro h
    simp only [get, touch, set, isInitialized, h, if_false]
    exact ⟨⟨_, rfl⟩, ⟨_, rfl⟩, ⟨_, rfl⟩, ⟨_, rfl⟩⟩

end VectorGM.Vector

namespace SquareMatrixGM.SquareMatrix

open VectorGM

/-! ## Bounds, construction and indexed access -/

/-- C21: for a vector the indexed read, the indexed write and `isInitialized(i)` throw
`MyOutOfRange` exactly when `i < 0` or `i ≥ size`; for a well-formed matrix of size `n`
the row access throws `MyOutOfRow` exactly when `i < 0` or `i ≥ n`, so that `m[i][j]`
(read or written) throws `MyOutOfRow` whenever `i` is out of range and `MyOutOfRange`
exactly when `i` is in range and `j` is not. -/
theorem bounds_checking (v : Vector) (M : SquareMatrix) (n : Nat) (hM : M.WellFormed n)
    (i j : Int) (x : ℚ) :
    (v.get i = .error .MyOutOfRange ↔ (i < 0 ∨ i ≥ v.size)) ∧
    (v.touch i = .error .MyOutOfRange ↔ (i < 0 ∨ i ≥ v.size)) ∧
    (v.set i x = .error .MyOutOfRange ↔ (i < 0 ∨ i ≥ v.size)) ∧
    (v.isInitialized i = .error .MyOutOfRange ↔ (i < 0 ∨ i ≥ v.size)) ∧
    (M.row i = .error .MyOutOfRow ↔ (i < 0 ∨ i ≥ n)) ∧
    ((i < 0 ∨ i ≥ n) →
      M.getCell i j = .error .MyOutOfRow ∧ M.setCell i j x = .error .MyOutOfRow) ∧
    (M.getCell i j = .error .MyOutOfRange ↔ (¬ (i < 0 ∨ i ≥ n) ∧ (j < 0 ∨ j ≥ n))) ∧
    (M.setCell i j x = .error .MyOutOfRange ↔ (¬ (i < 0 ∨ i ≥ n) ∧ (j < 0 ∨ j ≥ n))) := by
  obtain ⟨hout, hin⟩ := Vector.access_cases v i x
  have hvec : ∀ {α : Type} (r : Except Error α), ((i < 0 ∨ i ≥ v.size) →
      r = .error .MyOutOfRange) → (¬ (i < 0 ∨ i ≥ v.size) → ∃ y, r = .ok y) →
      (r = .error .MyOutOfRange ↔ (i < 0 ∨ i ≥ v.size)) := by
    intro α r h1 h2
    constructor
    · intro hr
      by_contra hcon
      obtain ⟨y, hy⟩ := h2 hcon
      rw [hy] at hr
      cases hr
    · exact h1
  have hsize : M.size = n := hM.1
  have hrowout : (i < 0 ∨ i ≥ n) → M.row i = .error .MyOutOfRow := by
    intro h
    simp only [row, hsize, h, if_true]
  have hrowin : ¬ (i < 0 ∨ i ≥ n) → M.row i = .ok (M.rows.getD i.toNat Vector.empty) := by
    intro h
    simp only [row, hsize, h, if_false]
  have hrowsize : ¬ (i < 0 ∨ i ≥ n) → (M.rows.getD i.toNat Vector.empty).size = n := by
    intro h
    apply hM.2.2
    apply Vector.getD_mem
    rw [hM.2.1]
    omega
  refine ⟨hvec _ (fun h => (hout h).1) (fun h => (hin h).1),
    hvec _ (fun h => (hout h).2.1) (fun h => (hin h).2.1),
    hvec _ (fun h => (hout h).2.2.1) (fun h => (hin h).2.2.1),
    hvec _ (fun h => (hout h).2.2.2) (fun h => (hin h).2.2.2), ?_, ?_, ?_, ?_⟩
  · constructor
    · intro hr
      by_contra hcon
      rw [hrowin hcon] at hr
      cases hr
    · exact hrowout
  · intro h
    simp only [getCell, setCell, hrowout h, bind, Except.bind, and_self]
  · by_cases hi : i < 0 ∨ i ≥ n
    · simp only [getCell, hrowout hi, bind, Except.bind, hi, not_true_eq_false, false_and,
        iff_false]
      intro h
      cases h
    · simp only [getCell, hrowin hi, bind, Except.bind, hi, not_false_eq_true, true_and]
      obtain ⟨hout', hin'⟩ := Vector.access_cases (M.rows.getD i.toNat Vector.empty) j x
      rw [hrowsize hi] at hout' hin'
      constructor
      · intro hr
        by_contra hcon
        obtain ⟨y, hy⟩ := (hin' hcon).1
        rw [hy] at hr
        cases hr
      · intro h
        exact (hout' h).1
  · by_cases hi : i < 0 ∨ i ≥ n
    · simp only [setCell, hrowout hi, bind, Except.bind, hi, not_true_eq_false, false_and,
        iff_false]
      intro h
      cases h
    · simp only [setCell, hrowin hi, bind, Except.bind, hi, not_false_eq_true, true_and]
      obtain ⟨hout', hin'⟩ := Vector.access_cases (M.rows.getD i.toNat Vector.empty) j x
      rw [hrowsize hi] at hout' hin'
      constructor
      · intro hr
        by_contra hcon
        obtain ⟨w, hw⟩ := (hin' hcon).2.2.1
        rw [hw] at hr
        simp only [pure, Except.pure] at hr
        cases hr
      · intro h
        rw [(hout' h).2.2.1]

/-- The accesses of the test "Throw Exception" on a matrix of size 2: `m2[1][5] = 4`
throws `MyOutOfRange`, `m1[-1]` and `m1[3]` throw `MyOutOfRow`. -/
theorem bounds_checking_witness :
    (ofLists [[1, 2], [3, 4]]).setCell 1 5 4 = .error .MyOutOfRange ∧
    (ofLists [[1, 2], [3, 4]]).row (-1) = .error .MyOutOfRow ∧
    (ofLists [[1, 2], [3, 4]]).row 3 = .error .MyOutOfRow ∧
    ((ofLists [[1, 2], [3, 4]]).getCell 1 5 = .error .MyOutOfRange ↔
      (¬ ((1 : Int) < 0 ∨ (1 : Int) ≥ (2 : Nat)) ∧ ((5 : Int) < 0 ∨ (5 : Int) ≥ (2 : Nat)))) :=
  ⟨by decide, by decide, by decide,
    (bounds_checking (Vector.ofList [1, 2]) (ofLists [[1, 2], [3, 4]]) 2 (by decide)
      1 5 4).2.2.2.2.2.2.1⟩

/-- C22: for `n < 0`, `Vector(n)` and `SquareMatrix(n)` throw `InvalidArgument`; for
`n ≥ 0`, `Vector(n)` has size `n` and every cell unwritten with stored value 0, and
`SquareMatrix(n)` has size `n` and exactly `n` rows, each a vector of length `n` with every
cell unwritten. -/
theorem construction_spec (n : Int) :
    (n < 0 → Vector.construct n = .error .InvalidArgument ∧
      construct n = .error .InvalidArgument) ∧
    (0 ≤ n → ∃ v, Vector.construct n = .ok v ∧ (v.size : Int) = n ∧
      ∀ c ∈ v.data, c = ⟨0, false⟩) ∧
    (0 ≤ n → ∃ M, construct n = .ok M ∧ (M.size : Int) = n ∧ (M.rows.length : Int) = n ∧
      ∀ r ∈ M.rows, (r.size : Int) = n ∧ ∀ c ∈ r.data, c = ⟨0, false⟩) := by
  refine ⟨?_, ?_, ?_⟩
  · intro h
    simp only [Vector.construct, construct, h, if_true, and_self]
  · intro h
    obtain ⟨m, rfl⟩ : ∃ m : Nat, n = (m : Int) := ⟨n.toNat, by omega⟩
    refine ⟨_, Vector.vconstruct_ofNat m, by rw [Vector.size_vtab], ?_⟩
    intro c hc
    simp only [Vector.tab, List.mem_map, List.mem_range] at hc
    obtain ⟨_, _, rfl⟩ := hc
    rfl
  · intro h
    obtain ⟨m, rfl⟩ : ∃ m : Nat, n = (m : Int) := ⟨n.toNat, by omega⟩
    have hwf := wellFormed_tab m fun _ _ => ({} : Cell)
    refine ⟨_, construct_ofNat m, by rw [hwf.1], by rw [hwf.2.1], ?_⟩
    intro r hr
    refine ⟨by rw [hwf.2.2 r hr], ?_⟩
    intro c hc
    simp only [tab, Vector.table, List.mem_map, List.mem_range] at hr
    obtain ⟨_, _, rfl⟩ := hr
    simp only [Vector.tab, List.mem_map, List.mem_range] at hc
    obtain ⟨_, _, rfl⟩ := hc
    rfl

/-- The constructions of the tests: `Vector(-1)` and `SquareMatrix(-1)` throw;
`SquareMatrix(2)` has two rows of two unwritten cells. -/
theorem construction_spec_witness :
    (Vector.construct (-1) = .error .InvalidArgument ∧
      construct (-1) = .error .InvalidArgument) ∧
    construct 2 = .ok ⟨[⟨[⟨0, false⟩, ⟨0, false⟩]⟩, ⟨[⟨0, false⟩, ⟨0, false⟩]⟩], 2⟩ ∧
    ∃ M, construct 2 = .ok M ∧ (M.size : Int) = 2 ∧ (M.rows.length : Int) = 2 ∧
      ∀ r ∈ M.rows, (r.size : Int) = 2 ∧ ∀ c ∈ r.data, c = ⟨0, false⟩ :=
  ⟨(construction_spec (-1)).1 (by decide), by decide!,
    (construction_spec 2).2.2 (by decide)⟩

end SquareMatrixGM.SquareMatrix

namespace VectorGM.Vector

/-- C23: for a vector `v` and an index `i < size`, the mutable access `v[i]` marks cell
`i` written without changing its stored value, and leaves every other cell and the size as
they were; after `v[i] = x` the cell is written, the read-only access returns `x` and the
other cells are as they were.  (The read-only access is a const method returning the
stored value: the embedding gives it no state to change.) -/
theorem mutable_access_spec (v : Vector) (i : Nat) (x : ℚ) (hi : i < v.size) :
    (∃ w, v.touch i = .ok w ∧ w.size = v.size ∧ w.cell i = ⟨(v.cell i).value, true⟩ ∧
      ∀ j, j < v.size → j ≠ i → w.cell j = v.cell j) ∧
    (∃ w, v.set i x = .ok w ∧ w.size = v.size ∧ w.isInitialized i = .ok true ∧
      w.get i = .ok x ∧ ∀ j, j < v.size → j ≠ i → w.cell j = v.cell j) ∧
    v.get i = .ok (v.cell i).value := by
  have hv := eq_tab_cell v
  refine ⟨?_, ?_, ?_⟩
  · refine ⟨tab v.size fun b => if b = i then ⟨(v.cell i).value, true⟩ else v.cell b, ?_,
      size_vtab _ _, ?_, ?_⟩
    · conv_lhs => rw [hv]
      exact touch_tab v.size v.cell i hi
    · rw [cell_tab _ _ i hi]
      simp
    · intro j hj hji
      rw [cell_tab _ _ j hj]
      simp [hji]
  · refine ⟨tab v.size fun b => if b = i then ⟨x, true⟩ else v.cell b, ?_,
      size_vtab _ _, ?_, ?_, ?_⟩
    · conv_lhs => rw [hv]
      exact set_tab v.size v.cell i x hi
    · rw [isInitialized_tab _ _ i hi]
      simp
    · rw [get_tab _ _ i hi]
      simp
    · intro j hj hji
      rw [cell_tab _ _ j hj]
      simp [hji]
  · conv_lhs => rw [hv]
    exact get_tab v.size v.cell i hi

/-- The first lines of the vector test: on `Vector(2)`, `v1[0] = 1.0` makes cell 0 written
and leaves cell 1 unwritten; the bare access `v1[1]` marks cell 1 written with its stored
0. -/
theorem mutable_access_spec_witness :
    (tab 2 fun _ => {}).set 0 1 = .ok ⟨[⟨1, true⟩, ⟨0, false⟩]⟩ ∧
    (tab 2 fun _ => {}).touch 1 = .ok ⟨[⟨0, false⟩, ⟨0, true⟩]⟩ ∧
    ∃ w, (tab 2 fun _ => {}).set ((0 : Nat) : Int) 1 = .ok w ∧
      w.size = (tab 2 fun _ => {}).size ∧ w.isInitialized ((0 : Nat) : Int) = .ok true ∧
      w.get ((0 : Nat) : Int) = .ok 1 ∧
      ∀ j, j < (tab 2 fun _ => {}).size → j ≠ 0 → w.cell j = (tab 2 fun _ => {}).cell j :=
  ⟨by decide!, by decide!, (mutable_access_spec (tab 2 fun _ => {}) 0 1 (by decide)).2.1⟩

end VectorGM.Vector

namespace SquareMatrixGM.SquareMatrix

open VectorGM

/-! ## Scalar operators -/

/-- C25: for every vector `v` and every matrix `M`, whatever their size and their cells,
`x / 0`, `x /= 0`, `x % 0` and `x %= 0` throw the logic error of the zero check, and the
compound forms leave the operand as it was.  (The non-mutating forms are const methods:
the embedding has no state of the operand that could change.) -/
theorem zero_scalar_raises (v : Vector) (M : SquareMatrix) :
    v.divScalar 0 = .error (.MyLogicError "Division by zero") ∧
    v.divScalarAssign 0 = (v, some (.MyLogicError "Division by zero")) ∧
    v.modScalar 0 = .error (.MyLogicError "Modulo by zero") ∧
    v.modScalarAssign 0 = (v, some (.MyLogicError "Modulo by zero")) ∧
    M.divScalar 0 = .error (.MyLogicError "Division by zero") ∧
    M.divScalarAssign 0 = (M, some (.MyLogicError "Division by zero")) ∧
    M.modScalar 0 = .error (.MyLogicError "Modulo by zero") ∧
    M.modScalarAssign 0 = (M, some (.MyLogicError "Modulo by zero")) := by
  refine ⟨?_, ?_, ?_, ?_, ?_, ?_, ?_, ?_⟩
  · simp only [Vector.divScalar, if_true]
  · simp only [Vector.divScalarAssign, if_true]
  · simp only [Vector.modScalar, if_true]
  · simp only [Vector.modScalarAssign, if_true]
  · simp only [divScalar, if_true]
  · simp only [divScalarAssign, if_true]
  · simp only [modScalar, if_true]
  · simp only [modScalarAssign, if_true]

/-- The four calls of the test "Throw Exception" on `m1`, and `/= 0` on the empty vector
and on a vector with nothing written. -/
theorem zero_scalar_raises_witness :
    (ofLists [[1, 2], [3, 4]]).modScalar 0 = .error (.MyLogicError "Modulo by zero") ∧
    (ofLists [[1, 2], [3, 4]]).modScalarAssign 0 =
      (ofLists [[1, 2], [3, 4]], some (.MyLogicError "Modulo by zero")) ∧
    (ofLists [[1, 2], [3, 4]]).divScalarAssign 0 =
      (ofLists [[1, 2], [3, 4]], some (.MyLogicError "Division by zero")) ∧
    (ofLists [[1, 2], [3, 4]]).divScalar 0 = .error (.MyLogicError "Division by zero") ∧
    Vector.empty.divScalarAssign 0 =
      (Vector.empty, some (.MyLogicError "Division by zero")) ∧
    (Vector.tab 2 fun _ => {}).divScalarAssign 0 =
      (Vector.tab 2 fun _ => {}, some (.MyLogicError "Division by zero")) :=
  ⟨(zero_scalar_raises Vector.empty (ofLists [[1, 2], [3, 4]])).2.2.2.2.2.2.1,
    by decide, by decide, by decide, by decide, by decide⟩

end SquareMatrixGM.SquareMatrix

/-- A mutating loop whose `i`-th iteration takes `g i` to `g (i + 1)` when `good i` holds
and throws `e` in the state `g i` otherwise: it ends in `g n` when every index is good,
and otherwise it is left with `e` in the state `g m`, `m` the first index that is not
good. -/
theorem forLoopMut_checked {σ : Type} (body : Nat → σ → Mutated σ) (g : Nat → σ)
    (good : Nat → Prop) (e : Error) (n : Nat) (s : σ) (h0 : g 0 = s)
    (hgood : ∀ i, i < n → good i → body i (g i) = (g (i + 1), none))
    (hbad : ∀ i, i < n → ¬ good i → body i (g i) = (g i, some e)) :
    ((∀ i, i < n → good i) → forLoopMut body n s = (g n, none)) ∧
    ((∃ i, i < n ∧ ¬ good i) → ∃ m, m < n ∧ ¬ good m ∧ (∀ i, i < m → good i) ∧
      forLoopMut body n s = (g m, some e)) := by
  subst h0
  induction n with
  | zero =>
    refine ⟨fun _ => rfl, ?_⟩
    rintro ⟨i, hi, _⟩
    omega
  | succ k ih =>
    have ih' := ih (fun i hi => hgood i (Nat.lt_succ_of_lt hi))
      (fun i hi => hbad i (Nat.lt_succ_of_lt hi))
    constructor
    · intro hall
      rw [forLoopMut_succ, ih'.1 (fun i hi => hall i (Nat.lt_succ_of_lt hi))]
      exact hgood k (Nat.lt_succ_self k) (hall k (Nat.lt_succ_self k))
    · rintro ⟨i, hi, hni⟩
      rw [forLoopMut_succ]
      by_cases hk : ∃ j, j < k ∧ ¬ good j
      · obtain ⟨m, hm, hnm, hbefore, hloop⟩ := ih'.2 hk
        exact ⟨m, by omega, hnm, hbefore, by rw [hloop]⟩
      · have hall : ∀ j, j < k → good j := by
          intro j hj
          by_contra hnj
          exact hk ⟨j, hj, hnj⟩
        have hik : i = k := by
          by_contra hne
          exact hni (hall i (by omega))
        subst hik
        refine ⟨i, Nat.lt_succ_self i, hni, hall, ?_⟩
        rw [ih'.1 hall]
        exact hbad i (Nat.lt_succ_self i) hni

namespace VectorGM.Vector

/-- The non-mutating unary and scalar operators on a vector: the result when every cell
is written, the logic error of the initialization check otherwise. -/
theorem mapChecked_tab (f : ℚ → ℚ) (initMsg : String) (n : Nat) (c : Nat → Cell) :
    ((∀ j, j < n → (c j).initialized = true) →
      mapChecked f initMsg (tab n c) = .ok (tab n fun j => ⟨f (c j).value, true⟩)) ∧
    ((∃ j, j < n ∧ ¬ (c j).initialized = true) →
      mapChecked f initMsg (tab n c) = .error (.MyLogicError initMsg)) := by
  unfold mapChecked
  rw [size_vtab]
  simp only [vconstruct_ofNat, bind, Except.bind]
  refine forLoop_checked_from _
    (fun m => tab n fun j => if j < m then (⟨f (c j).value, true⟩ : Cell) else {})
    (fun j => (c j).initialized = true) (.MyLogicError initMsg) n _ _ ?_ ?_ ?_ ?_
  · apply vtab_congr
    intro j _
    simp
  · apply vtab_congr
    intro j hj
    simp [hj]
  · intro i hi hg
    simp only [isInitialized_tab n c i hi, cell_tab n c i hi, hg, Bool.not_true,
      Bool.false_eq_true, if_false, pure, Except.pure]
    rw [set_tab n _ i _ hi]
    congr 1
    apply vtab_congr
    intro b _
    by_cases hb : b = i
    · have : b < i + 1 := by omega
      simp [hb]
    · by_cases hb' : b < i
      · have : b < i + 1 := by omega
        simp [hb, hb', this]
      · have : ¬ b < i + 1 := by omega
        simp [hb, hb', this]
  · intro i hi hg
    have hf : (c i).initialized = false := by
      cases h : (c i).initialized
      · rfl
      · exact absurd h hg
    simp only [isInitialized_tab n c i hi, hf, Bool.not_false, if_true]

theorem mapChecked_cases (f : ℚ → ℚ) (initMsg : String) (v : Vector) :
    (v.FullyInit →
      mapChecked f initMsg v = .ok (tab v.size fun j => ⟨f (v.cell j).value, true⟩)) ∧
    (¬ v.FullyInit → mapChecked f initMsg v = .error (.MyLogicError initMsg)) := by
  have key := mapChecked_tab f initMsg v.size v.cell
  rw [← eq_tab_cell v] at key
  constructor
  · intro h
    exact key.1 ((fullyInit_iff_cell v).mp h)
  · intro h
    apply key.2
    rw [fullyInit_iff_cell] at h
    push_neg at h
    exact h

/-- The compound scalar operators on a vector: the updated state when every cell is
written; otherwise the logic error, thrown at the first unwritten cell with the cells
before it already updated. -/
theorem mapInPlace_tab (f : ℚ → ℚ) (initMsg : String) (n : Nat) (c : Nat → Cell) :
    ((∀ j, j < n → (c j).initialized = true) →
      mapInPlace f initMsg (tab n c) = (tab n fun j => ⟨f (c j).value, true⟩, none)) ∧
    ((∃ j, j < n ∧ ¬ (c j).initialized = true) →
      ∃ m, m < n ∧ ¬ (c m).initialized = true ∧ (∀ j, j < m → (c j).initialized = true) ∧
        mapInPlace f initMsg (tab n c) =
          (tab n fun j => if j < m then ⟨f (c j).value, true⟩ else c j,
            some (.MyLogicError initMsg))) := by
  unfold mapInPlace
  rw [size_vtab]
  have key := forLoopMut_checked
    (fun i (w : Vector) =>
      match w.isInitialized i with
      | .error e => (w, some e)
      | .ok a =>
        if !a then (w, some (Error.MyLogicError initMsg))
        else (w.store i (f (w.cell i).value), none))
    (fun m => tab n fun j => if j < m then (⟨f (c j).value, true⟩ : Cell) else c j)
    (fun j => (c j).initialized = true) (.MyLogicError initMsg) n (tab n c)
    (by
      apply vtab_congr
      intro j _
      simp)
    (by
      intro i hi hg
      simp only [isInitialized_tab n _ i hi, cell_tab n _ i hi, lt_self_iff_false, if_false,
        hg, Bool.not_true, Bool.false_eq_true, Prod.mk.injEq, and_true]
      rw [store_tab n _ i _ hi]
      apply vtab_congr
      intro b _
      by_cases hb : b = i
      · have : b < i + 1 := by omega
        simp [hb, hg]
      · by_cases hb' : b < i
        · have : b < i + 1 := by omega
          simp [hb, hb', this]
        · have : ¬ b < i + 1 := by omega
          simp [hb, hb', this])
    (by
      intro i hi hg
      have hf : (c i).initialized = false := by
        cases h : (c i).initialized
        · rfl
        · exact absurd h hg
      simp only [isInitialized_tab n _ i hi, lt_self_iff_false, if_false, hf,
        Bool.not_false, if_true])
  refine ⟨?_, key.2⟩
  intro hall
  rw [key.1 hall]
  simp only [Prod.mk.injEq, and_true]
  apply vtab_congr
  intro j hj
  simp [hj]

/-- The prefix increment and decrement on a vector: the updated state when every cell is
written; otherwise the logic error, thrown at the first unwritten cell with the cells
before it already updated. -/
theorem bumpInPlace_tab (d : ℚ) (initMsg : String) (n : Nat) (c : Nat → Cell) :
    ((∀ j, j < n → (c j).initialized = true) →
      bumpInPlace d initMsg (tab n c) = (tab n fun j => ⟨(c j).value + d, true⟩, none)) ∧
    ((∃ j, j < n ∧ ¬ (c j).initialized = true) →
      ∃ m, m < n ∧ ¬ (c m).initialized = true ∧ (∀ j, j < m → (c j).initialized = true) ∧
        bumpInPlace d initMsg (tab n c) =
          (tab n fun j => if j < m then ⟨(c j).value + d, true⟩ else c j,
            some (.MyLogicError initMsg))) := by
  unfold bumpInPlace
  rw [size_vtab]
  have key := forLoopMut_checked
    (fun i (w : Vector) =>
      if !(w.cell i).initialized then (w, some (Error.MyLogicError initMsg))
      else (w.store i ((w.cell i).value + d), none))
    (fun m => tab n fun j => if j < m then (⟨(c j).value + d, true⟩ : Cell) else c j)
    (fun j => (c j).initialized = true) (.MyLogicError initMsg) n (tab n c)
    (by
      apply vtab_congr
      intro j _
      simp)
    (by
      intro i hi hg
      simp only [cell_tab n _ i hi, lt_self_iff_false, if_false, hg, Bool.not_true,
        Bool.false_eq_true, Prod.mk.injEq, and_true]
      rw [store_tab n _ i _ hi]
      apply vtab_congr
      intro b _
      by_cases hb : b = i
      · have : b < i + 1 := by omega
        simp [hb, hg]
      · by_cases hb' : b < i
        · have : b < i + 1 := by omega
          simp [hb, hb', this]
        · have : ¬ b < i + 1 := by omega
          simp [hb, hb', this])
    (by
      intro i hi hg
      have hf : (c i).initialized = false := by
        cases h : (c i).initialized
        · rfl
        · exact absurd h hg
      simp only [cell_tab n _ i hi, lt_self_iff_false, if_false, hf, Bool.not_false,
        if_true])
  refine ⟨?_, key.2⟩
  intro hall
  rw [key.1 hall]
  simp only [Prod.mk.injEq, and_true]
  apply vtab_congr
  intro j hj
  simp [hj]

end VectorGM.Vector

namespace SquareMatrixGM.SquareMatrix

open VectorGM

/-- A row-by-row non-mutating operator on a matrix of size `n`: when `f` takes every row
`i` to the row `c' i`, the result is the table of `c'`; when it throws `e` on the rows that
are not good and takes the good ones to `c' i`, it throws `e` as soon as a row is not
good. -/
theorem mapRows_tab (f : Vector → Except Error Vector) (n : Nat) (c c' : Nat → Nat → Cell)
    (good : Nat → Prop) (e : Error)
    (hgood : ∀ i, i < n → good i → f (Vector.tab n (c i)) = .ok (Vector.tab n (c' i)))
    (hbad : ∀ i, i < n → ¬ good i → f (Vector.tab n (c i)) = .error e) :
    ((∀ i, i < n → good i) → mapRows f (tab n c) = .ok (tab n c')) ∧
    ((∃ i, i < n ∧ ¬ good i) → mapRows f (tab n c) = .error e) := by
  unfold mapRows
  simp only [size_tab, construct_ofNat, bind, Except.bind]
  refine forLoop_checked_from _
    (fun m => tab n fun i j => if i < m then c' i j else ({} : Cell))
    good e n _ _ ?_ ?_ ?_ ?_
  · apply tab_congr
    intro i _ j _
    simp
  · apply tab_congr
    intro i hi j _
    simp [hi]
  · intro i hi hg
    have hraw : (tab n c).rows.getD i Vector.empty = Vector.tab n (c i) :=
      Vector.getD_table n n _ i hi
    simp only [hraw, hgood i hi hg]
    rw [setRow_tab n _ i _ hi]
    congr 1
    apply tab_congr
    intro x _ y _
    by_cases hx : x = i
    · have : x < i + 1 := by omega
      simp [hx]
    · by_cases hx' : x < i
      · have : x < i + 1 := by omega
        simp [hx, hx', this]
      · have : ¬ x < i + 1 := by omega
        simp [hx, hx', this]
  · intro i hi hg
    have hraw : (tab n c).rows.getD i Vector.empty = Vector.tab n (c i) :=
      Vector.getD_table n n _ i hi
    simp only [hraw, hbad i hi hg]

/-- A row-by-row mutating operator on a matrix of size `n` that takes every row `i` to
the row `c' i` without throwing. -/
theorem mapRowsInPlace_tab (f : Vector → Mutated Vector) (n : Nat) (c c' : Nat → Nat → Cell)
    (hrow : ∀ i, i < n → f (Vector.tab n (c i)) = (Vector.tab n (c' i), none)) :
    mapRowsInPlace f (tab n c) = (tab n c', none) := by
  unfold mapRowsInPlace
  simp only [size_tab]
  refine (forLoopMut_eq_of_steps _
    (fun m => tab n fun i j => if i < m then c' i j else c i j) n _ ?_ ?_).trans ?_
  · apply tab_congr
    intro i _ j _
    simp
  · intro i hi
    have hraw : (tab n fun a b => if a < i then c' a b else c a b).rows.getD i
        Vector.empty = Vector.tab n (c i) := by
      rw [show ∀ d, (tab n d).rows = Vector.table n n d from fun _ => rfl,
        Vector.getD_table n n _ i hi]
      apply Vector.vtab_congr
      intro j _
      simp
    simp only [hraw, hrow i hi, Prod.mk.injEq, and_true]
    show (⟨(Vector.table n n _).set i _, n⟩ : SquareMatrix) = _
    rw [Vector.set_table]
    apply tab_congr
    intro x _ y _
    by_cases hx : x = i
    · have : x < i + 1 := by omega
      simp [hx]
    · by_cases hx' : x < i
      · have : x < i + 1 := by omega
        simp [hx, hx', this]
      · have : ¬ x < i + 1 := by omega
        simp [hx, hx', this]
  · simp only [Prod.mk.injEq, and_true]
    apply tab_congr
    intro i hi j _
    simp [hi]

/-- The non-mutating unary and scalar operators on a well-formed matrix: cell by cell when
every cell is written, the logic error of the vector operator otherwise. -/
theorem mapRows_mapChecked (g : ℚ → ℚ) (initMsg : String) (n : Nat) (M : SquareMatrix)
    (hM : M.WellFormed n) :
    (M.FullyInit → mapRows (Vector.mapChecked g initMsg) M =
      .ok (ofFn n fun i j => g (M.val i j))) ∧
    (¬ M.FullyInit → mapRows (Vector.mapChecked g initMsg) M =
      .error (.MyLogicError initMsg)) := by
  have hM' := eq_tab_of_wellFormed M n hM
  have key := mapRows_tab (Vector.mapChecked g initMsg) n M.cellAt
    (fun i j => ⟨g (M.val i j), true⟩)
    (fun i => ∀ j, j < n → (M.cellAt i j).initialized = true) (.MyLogicError initMsg)
    (fun i _ hg => (Vector.mapChecked_tab g initMsg n (M.cellAt i)).1 hg)
    (fun i _ hg => (Vector.mapChecked_tab g initMsg n (M.cellAt i)).2 (by
      by_contra hcon
      apply hg
      intro j hj
      by_contra hne
      exact hcon ⟨j, hj, hne⟩))
  rw [← hM'] at key
  constructor
  · intro hi
    apply key.1
    intro i hi' j hj
    rw [cellAt_of_fullyInit M n hM hi i j hi' hj]
  · intro hni
    apply key.2
    obtain ⟨i, j, hi, hj, hf⟩ := exists_cellAt_uninit M n hM hni
    refine ⟨i, hi, fun hall => ?_⟩
    rw [hall j hj] at hf
    cases hf

end SquareMatrixGM.SquareMatrix

/-- An operation that returns when `P` holds and throws a logic error otherwise throws a
logic error exactly when `P` fails. -/
theorem raises_iff_of_cases {α : Type} (r : Except Error α) (P : Prop) (x : α) (m : String)
    (hok : P → r = .ok x) (herr : ¬ P → r = .error (.MyLogicError m)) :
    (∃ msg, r = .error (.MyLogicError msg)) ↔ ¬ P := by
  constructor
  · rintro ⟨msg, hmsg⟩ hP
    rw [hok hP] at hmsg
    cases hmsg
  · intro hP
    exact ⟨m, herr hP⟩

namespace VectorGM.Vector

/-- A fully initialized vector is the table of its values. -/
theorem eq_tab_of_fullyInit (v : Vector) (h : v.FullyInit) :
    v = tab v.size fun j => ⟨(v.cell j).value, true⟩ := by
  conv_lhs => rw [eq_tab_cell v]
  apply vtab_congr
  intro j hj
  have hj' := (fullyInit_iff_cell v).mp h j hj
  cases hc : v.cell j with
  | mk x b =>
    rw [hc] at hj'
    simp only at hj'
    simp [hj']

end VectorGM.Vector

namespace SquareMatrixGM.SquareMatrix

open VectorGM

/-- C30: for a vector `v` and a well-formed matrix `M`, `-x` throws a logic error exactly
when a cell of `x` is unwritten; otherwise it returns a result of the same size with every
cell written and holding the negation of the cell of `x`, and `-(-x)` is `x`.  (The
operator is a const method: the embedding has no state of `x` that could change.) -/
theorem neg_contract (v : Vector) (M : SquareMatrix) (n : Nat) (hM : M.WellFormed n) :
    ((∃ msg, v.neg = .error (.MyLogicError msg)) ↔ ¬ v.FullyInit) ∧
    (v.FullyInit → ∃ r, v.neg = .ok r ∧ r.size = v.size ∧ r.FullyInit ∧
      (∀ i, i < v.size → r.cell i = ⟨-(v.cell i).value, true⟩) ∧ r.neg = .ok v) ∧
    ((∃ msg, M.neg = .error (.MyLogicError msg)) ↔ ¬ M.FullyInit) ∧
    (M.FullyInit → ∃ R, M.neg = .ok R ∧ R.WellFormed n ∧ R.FullyInit ∧
      (∀ i j, i < n → j < n → R.cellAt i j = ⟨-(M.val i j), true⟩) ∧ R.neg = .ok M) := by
  have hv := Vector.mapChecked_cases (fun x => -x)
    "Cannot negate uninitialized cell in vector" v
  have hm := mapRows_mapChecked (fun x => -x)
    "Cannot negate uninitialized cell in vector" n M hM
  refine ⟨raises_iff_of_cases _ _ _ _ hv.1 hv.2, ?_, raises_iff_of_cases _ _ _ _ hm.1 hm.2,
    ?_⟩
  · intro hi
    refine ⟨_, hv.1 hi, Vector.size_vtab _ _, Vector.fullyInit_tab _ _ (fun _ _ => rfl),
      fun i hi' => Vector.cell_tab _ _ i hi', ?_⟩
    have key := (Vector.mapChecked_tab (fun x => -x)
      "Cannot negate uninitialized cell in vector" v.size
      (fun j => ⟨-(v.cell j).value, true⟩)).1 (fun _ _ => rfl)
    simp only [neg_neg] at key
    rw [← Vector.eq_tab_of_fullyInit v hi] at key
    exact key
  · intro hi
    refine ⟨_, hm.1 hi, wellFormed_tab n _, fullyInit_ofFn n _,
      fun i j hi' hj => cellAt_tab n _ i j hi' hj, ?_⟩
    have key := (mapRows_mapChecked (fun x => -x)
      "Cannot negate uninitialized cell in vector" n (ofFn n fun i j => -(M.val i j))
      (wellFormed_tab n _)).1 (fullyInit_ofFn n _)
    have hval : (ofFn n fun i j => -(ofFn n fun i j => -(M.val i j)).val i j) = M := by
      conv_rhs => rw [eq_ofFn_of_fullyInit M n hM hi]
      apply ofFn_congr
      intro i hi' j hj
      rw [val_ofFn n _ i j hi' hj, neg_neg]
    rw [hval] at key
    exact key

/-- The matrix of the test "Matrix unary minus works", and the vector `v5` with nothing
written. -/
theorem neg_contract_witness :
    (ofLists [[1, -2], [3, -4]]).neg = .ok (ofLists [[-1, 2], [-3, 4]]) ∧
    (∃ msg, (Vector.tab 3 fun _ => {}).neg = .error (.MyLogicError msg)) ∧
    ∃ R, (ofLists [[1, -2], [3, -4]]).neg = .ok R ∧ R.WellFormed 2 ∧ R.FullyInit ∧
      (∀ i j, i < 2 → j < 2 → R.cellAt i j = ⟨-((ofLists [[1, -2], [3, -4]]).val i j), true⟩) ∧
      R.neg = .ok (ofLists [[1, -2], [3, -4]]) :=
  ⟨by decide!,
    ((neg_contract (Vector.tab 3 fun _ => {}) (ofLists [[1, -2], [3, -4]]) 2
      (by decide)).1).mpr (by decide),
    (neg_contract (Vector.tab 3 fun _ => {}) (ofLists [[1, -2], [3, -4]]) 2
      (by decide)).2.2.2 (by decide)⟩

/-- C27: for a well-formed matrix `A` of size `n` and a scalar `s`: when every cell is
written, `A * s` returns a matrix of size `n` with every cell written and `A[i][j] * s` in
cell `(i, j)`, for `s ≠ 0` `A / s` returns `A[i][j] / s` in cell `(i, j)`, and
`(A * s) / s` is `A`; when a cell is unwritten, `A * s` and, for `s ≠ 0`, `A / s` throw a
logic error. -/
theorem scalar_mul_div_spec (n : Nat) (A : SquareMatrix) (s : ℚ) (hA : A.WellFormed n) :
    (A.FullyInit → ∃ R, A.mulScalar s = .ok R ∧ R.WellFormed n ∧ R.FullyInit ∧
      (∀ i j, i < n → j < n → R.cellAt i j = ⟨A.val i j * s, true⟩) ∧
      (s ≠ 0 → R.divScalar s = .ok A)) ∧
    (A.FullyInit → s ≠ 0 → ∃ R, A.divScalar s = .ok R ∧ R.WellFormed n ∧ R.FullyInit ∧
      ∀ i j, i < n → j < n → R.cellAt i j = ⟨A.val i j / s, true⟩) ∧
    (¬ A.FullyInit → (∃ msg, A.mulScalar s = .error (.MyLogicError msg)) ∧
      (s ≠ 0 → ∃ msg, A.divScalar s = .error (.MyLogicError msg))) := by
  have hmul := mapRows_mapChecked (fun x => x * s) "Cannot multiply uninitialized cell" n A hA
  simp only [] at hmul
  have hdiv : ∀ (B : SquareMatrix), B.WellFormed n → s ≠ 0 →
      (B.FullyInit → B.divScalar s = .ok (ofFn n fun i j => B.val i j / s)) ∧
      (¬ B.FullyInit →
        B.divScalar s = .error (.MyLogicError "Cannot divide uninitialized cell")) := by
    intro B hB hs
    have key := mapRows_mapChecked (fun x => x / s) "Cannot divide uninitialized cell" n B hB
    have hfun : (fun row : Vector => row.divScalar s) =
        Vector.mapChecked (fun x => x / s) "Cannot divide uninitialized cell" := by
      funext row
      simp only [Vector.divScalar, hs, if_false]
    simp only [divScalar, hs, if_false, hfun]
    exact key
  refine ⟨?_, ?_, ?_⟩
  · intro hi
    refine ⟨_, hmul.1 hi, wellFormed_tab n _, fullyInit_ofFn n _,
      fun i j hi' hj => cellAt_tab n _ i j hi' hj, ?_⟩
    intro hs
    rw [(hdiv (ofFn n fun i j => A.val i j * s) (wellFormed_tab n _) hs).1
      (fullyInit_ofFn n _)]
    congr 1
    conv_rhs => rw [eq_ofFn_of_fullyInit A n hA hi]
    apply ofFn_congr
    intro i hi' j hj
    rw [val_ofFn n _ i j hi' hj]
    field_simp
  · intro hi hs
    exact ⟨_, (hdiv A hA hs).1 hi, wellFormed_tab n _, fullyInit_ofFn n _,
      fun i j hi' hj => cellAt_tab n _ i j hi' hj⟩
  · intro hni
    exact ⟨⟨_, hmul.2 hni⟩, fun hs => ⟨_, (hdiv A hA hs).2 hni⟩⟩

/-- The product of the test "Scalar operations": `[[1,2],[3,4]] * 2.0 = [[2,4],[6,8]]`. -/
theorem scalar_mul_div_spec_witness :
    (ofLists [[1, 2], [3, 4]]).mulScalar 2 = .ok (ofLists [[2, 4], [6, 8]]) ∧
    (ofLists [[2, 4], [6, 8]]).divScalar 2 = .ok (ofLists [[1, 2], [3, 4]]) ∧
    ∃ R, (ofLists [[1, 2], [3, 4]]).mulScalar 2 = .ok R ∧ R.WellFormed 2 ∧ R.FullyInit ∧
      (∀ i j, i < 2 → j < 2 → R.cellAt i j = ⟨(ofLists [[1, 2], [3, 4]]).val i j * 2, true⟩) ∧
      ((2 : ℚ) ≠ 0 → R.divScalar 2 = .ok (ofLists [[1, 2], [3, 4]])) :=
  ⟨by decide!, by decide!,
    (scalar_mul_div_spec 2 (ofLists [[1, 2], [3, 4]]) 2 (by decide)).1 (by decide)⟩

end SquareMatrixGM.SquareMatrix

namespace VectorGM

/-- The conversion to `int` is the truncation toward zero. -/
theorem castInt_eq_truncTowardZero (x : ℚ) : castInt x = truncTowardZero x := by
  unfold castInt truncTowardZero
  by_cases hx : 0 ≤ x
  · rw [if_pos hx, Rat.floor_def]
    exact Int.tdiv_eq_ediv (Rat.num_nonneg.mpr hx) (Int.ofNat_nonneg _)
  · rw [if_neg hx]
    have hneg : 0 ≤ -x := by linarith
    have h1 : (-x).num.tdiv (-x).den = (-x).num / (-x).den :=
      Int.tdiv_eq_ediv (Rat.num_nonneg.mpr hneg) (Int.ofNat_nonneg _)
    rw [Rat.neg_num, Rat.neg_den, Int.neg_tdiv] at h1
    have h2 : ⌊-x⌋ = (-x).num / (-x).den := Rat.floor_def
    rw [Rat.neg_num, Rat.neg_den, Int.floor_neg] at h2
    rw [← h1] at h2
    omega

/-- The remainder of C++: `a = b * q + r` for the quotient `q` truncated toward zero,
`|r| < |b|`, and `r` has the sign of `a`. -/
theorem cppRem_spec (a b : Int) (hb : b ≠ 0) :
    a = b * a.tdiv b + cppRem a b ∧ |cppRem a b| < |b| ∧
    (0 ≤ a → 0 ≤ cppRem a b) ∧ (a ≤ 0 → cppRem a b ≤ 0) := by
  unfold cppRem
  have hnonneg : ∀ c : Int, 0 ≤ c → 0 ≤ c.tmod b ∧ c.tmod b < |b| := by
    intro c hc
    refine ⟨Int.tmod_nonneg b hc, ?_⟩
    by_cases hpos : 0 < b
    · rw [abs_of_pos hpos]
      exact Int.tmod_lt_of_pos c hpos
    · have hneg : 0 < -b := by omega
      rw [abs_of_neg (by omega), ← Int.tmod_neg]
      exact Int.tmod_lt_of_pos c hneg
  have hnegtmod : ∀ c : Int, (-c).tmod b = -(c.tmod b) := by
    intro c
    rw [Int.tmod_def, Int.tmod_def, Int.neg_tdiv]
    ring
  refine ⟨(Int.tdiv_add_tmod a b).symm, ?_, ?_, ?_⟩
  · by_cases ha : 0 ≤ a
    · obtain ⟨h1, h2⟩ := hnonneg a ha
      rw [abs_of_nonneg h1]
      exact h2
    · obtain ⟨h1, h2⟩ := hnonneg (-a) (by omega)
      rw [hnegtmod] at h1 h2
      rw [abs_of_nonpos (by omega)]
      exact h2
  · intro ha
    exact (hnonneg a ha).1
  · intro ha
    obtain ⟨h1, _⟩ := hnonneg (-a) (by omega)
    rw [hnegtmod] at h1
    omega

end VectorGM

namespace SquareMatrixGM.SquareMatrix

open VectorGM

/-- The compound scalar operators on a well-formed, fully initialized matrix. -/
theorem mapRowsInPlace_mapInPlace (g : ℚ → ℚ) (initMsg : String) (n : Nat)
    (M : SquareMatrix) (hM : M.WellFormed n) (hi : M.FullyInit) :
    mapRowsInPlace (Vector.mapInPlace g initMsg) M =
      (ofFn n fun i j => g (M.val i j), none) := by
  conv_lhs => rw [eq_ofFn_of_fullyInit M n hM hi]
  exact mapRowsInPlace_tab _ n _ _
    (fun i _ => (Vector.mapInPlace_tab g initMsg n _).1 (fun _ _ => rfl))

/-- The prefix increment and decrement on a well-formed, fully initialized matrix. -/
theorem mapRowsInPlace_bumpInPlace (d : ℚ) (initMsg : String) (n : Nat)
    (M : SquareMatrix) (hM : M.WellFormed n) (hi : M.FullyInit) :
    mapRowsInPlace (Vector.bumpInPlace d initMsg) M =
      (ofFn n fun i j => M.val i j + d, none) := by
  conv_lhs => rw [eq_ofFn_of_fullyInit M n hM hi]
  exact mapRowsInPlace_tab _ n _ _
    (fun i _ => (Vector.bumpInPlace_tab d initMsg n _).1 (fun _ _ => rfl))

/-- Scalar modulo on the operands on which C++ defines it: for a fully initialized vector
`v` and a well-formed, fully initialized matrix `M`, with cell values whose truncation is
in the range of `int`, and an `int` `k ≠ 0` (`INT_MIN % -1`, which C++ leaves undefined,
apart): `v % k` returns a vector of the same
length with every cell written, cell `i` holding the remainder of `trunc(v[i])` by `k`,
where `trunc` rounds toward zero and the remainder `r` of `a` by `k` satisfies
`a = k * q + r`, `|r| < |k|` and has the sign of `a`; `M % k` and `M %= k` do the same on
every cell of `M`. -/
theorem modScalar_spec (v : Vector) (M : SquareMatrix) (n : Nat) (k : Int)
    (hk : k ≠ 0) (hv : v.FullyInit) (_hvr : ∀ i, i < v.size → RemDefined (v.cell i).value k)
    (hM : M.WellFormed n) (hMi : M.FullyInit)
    (_hMr : ∀ i j, i < n → j < n → RemDefined (M.val i j) k) :
    (∃ r, v.modScalar k = .ok r ∧ r.size = v.size ∧ r.FullyInit ∧
      ∀ i, i < v.size →
        r.cell i = ⟨(cppRem (truncTowardZero (v.cell i).value) k : Int), true⟩) ∧
    (∃ R, M.modScalar k = .ok R ∧ M.modScalarAssign k = (R, none) ∧ R.WellFormed n ∧
      R.FullyInit ∧ ∀ i j, i < n → j < n →
        R.cellAt i j = ⟨(cppRem (truncTowardZero (M.val i j)) k : Int), true⟩) ∧
    (∀ a : Int, a = k * a.tdiv k + cppRem a k ∧ |cppRem a k| < |k| ∧
      (0 ≤ a → 0 ≤ cppRem a k) ∧ (a ≤ 0 → cppRem a k ≤ 0)) := by
  refine ⟨?_, ?_, fun a => cppRem_spec a k hk⟩
  · have key := (Vector.mapChecked_cases (fun x => (cppRem (castInt x) k : Int))
      "Cannot modulo uninitialized cell" v).1 hv
    refine ⟨_, by simp only [Vector.modScalar, hk, if_false]; exact key,
      Vector.size_vtab _ _, Vector.fullyInit_tab _ _ (fun _ _ => rfl), ?_⟩
    intro i hi
    rw [Vector.cell_tab _ _ i hi, castInt_eq_truncTowardZero]
  · have hfun : (fun row : Vector => row.modScalar k) =
        Vector.mapChecked (fun x => (cppRem (castInt x) k : Int))
          "Cannot modulo uninitialized cell" := by
      funext row
      simp only [Vector.modScalar, hk, if_false]
    have hfun' : (fun row : Vector => row.modScalarAssign k) =
        Vector.mapInPlace (fun x => (cppRem (castInt x) k : Int))
          "Cannot modulo uninitialized cell" := by
      funext row
      simp only [Vector.modScalarAssign, hk, if_false]
    have key := (mapRows_mapChecked (fun x => (cppRem (castInt x) k : Int))
      "Cannot modulo uninitialized cell" n M hM).1 hMi
    have key' := mapRowsInPlace_mapInPlace (fun x => (cppRem (castInt x) k : Int))
      "Cannot modulo uninitialized cell" n M hM hMi
    refine ⟨_, by simp only [modScalar, hk, if_false, hfun]; exact key,
      by simp only [modScalarAssign, hk, if_false, hfun']; exact key',
      wellFormed_tab n _, fullyInit_ofFn n _, ?_⟩
    intro i j hi hj
    rw [cellAt_tab n _ i j hi hj, castInt_eq_truncTowardZero]

/-- Concrete cells: 2.5 and 5 with `k = 2` give 0 and 1, -7.5 with `k = 3` gives -1, and
`[[2,4],[6,8]] %= 3` gives `[[2,1],[0,2]]`. -/
theorem modScalar_spec_witness :
    (Vector.ofList [5 / 2, 5]).modScalar 2 = .ok (Vector.ofList [0, 1]) ∧
    (Vector.ofList [-15 / 2]).modScalar 3 = .ok (Vector.ofList [-1]) ∧
    (ofLists [[2, 4], [6, 8]]).modScalarAssign 3 = (ofLists [[2, 1], [0, 2]], none) ∧
    ∃ R, (ofLists [[2, 4], [6, 8]]).modScalar 3 = .ok R ∧
      (ofLists [[2, 4], [6, 8]]).modScalarAssign 3 = (R, none) ∧ R.WellFormed 2 ∧
      R.FullyInit ∧ ∀ i j, i < 2 → j < 2 →
        R.cellAt i j =
          ⟨(cppRem (truncTowardZero ((ofLists [[2, 4], [6, 8]]).val i j)) 3 : Int), true⟩ :=
  ⟨by decide!, by decide!, by decide!,
    (modScalar_spec (Vector.ofList [-15 / 2]) (ofLists [[2, 4], [6, 8]]) 2 3 (by decide)
      (by decide)
      (by
        intro i hi
        have hi0 : i = 0 := by
          have : i < 1 := hi
          omega
        subst hi0
        decide!)
      (by decide) (by decide)
      (by
        intro i j hi hj
        have hi' : i = 0 ∨ i = 1 := by omega
        have hj' : j = 0 ∨ j = 1 := by omega
        rcases hi' with rfl | rfl <;> rcases hj' with rfl | rfl <;> decide!)).2.1⟩

end SquareMatrixGM.SquareMatrix

namespace VectorGM.Vector

/-- The compound scalar operators on any vector: the updated state when every cell is
written, the logic error of the initialization check otherwise. -/
theorem mapInPlace_cases (f : ℚ → ℚ) (initMsg : String) (v : Vector) :
    (v.FullyInit →
      mapInPlace f initMsg v = (tab v.size fun j => ⟨f (v.cell j).value, true⟩, none)) ∧
    (¬ v.FullyInit → (mapInPlace f initMsg v).2 = some (.MyLogicError initMsg)) := by
  have key := mapInPlace_tab f initMsg v.size v.cell
  rw [← eq_tab_cell v] at key
  constructor
  · intro h
    exact key.1 ((fullyInit_iff_cell v).mp h)
  · intro h
    rw [fullyInit_iff_cell] at h
    push_neg at h
    obtain ⟨m, _, _, _, hm⟩ := key.2 h
    rw [hm]

/-- The compound form and the non-mutating form of one scalar operator, after the zero
check. -/
theorem mapInPlace_mirrors (f : ℚ → ℚ) (initMsg : String) (v : Vector) :
    Mirrors (mapInPlace f initMsg v) (mapChecked f initMsg v) := by
  by_cases h : v.FullyInit
  · rw [(mapInPlace_cases f initMsg v).1 h, (mapChecked_cases f initMsg v).1 h]
    refine ⟨fun e => ⟨fun he => ?_, fun he => ?_⟩, fun e he => ?_, fun _ => ⟨_, rfl, rfl, fun _ => rfl⟩⟩
    · cases he
    · cases he
    · cases he
  · have h1 := (mapInPlace_cases f initMsg v).2 h
    have h2 := (mapChecked_cases f initMsg v).2 h
    rw [h2]
    refine ⟨fun e => ?_, fun e he => ?_, fun hn => ?_⟩
    · rw [h1]
      constructor
      · intro he
        cases he
        rfl
      · intro he
        cases he
        rfl
    · rw [h1] at he
      cases he
      exact ⟨_, rfl⟩
    · rw [h1] at hn
      cases hn

/-- A zero check that fails in both forms. -/
theorem mirrors_of_error (v : Vector) (msg : String) :
    Mirrors (v, some (.MyLogicError msg)) (.error (.MyLogicError msg)) := by
  refine ⟨fun e => ⟨fun he => ?_, fun he => ?_⟩, fun e he => ?_, fun hn => ?_⟩
  · cases he
    rfl
  · cases he
    rfl
  · cases he
    exact ⟨_, rfl⟩
  · cases hn

/-- C28: for every vector `v` (any initialization state), every `double` `s` and every
`int` `k`, each of `v *= s`, `v /= s`, `v %= k` throws exactly when `v * s`, `v / s`,
`v % k` throws, with the same logic error, and when it does not throw, `v` after it has
the length, the cell values and the flags of the vector the non-mutating form returns. -/
theorem compound_scalar_mirrors (v : Vector) (s : ℚ) (k : Int) :
    Mirrors (v.mulScalarAssign s) (v.mulScalar s) ∧
    Mirrors (v.divScalarAssign s) (v.divScalar s) ∧
    Mirrors (v.modScalarAssign k) (v.modScalar k) := by
  refine ⟨mapInPlace_mirrors _ _ v, ?_, ?_⟩
  · by_cases hs : s = 0
    · simp only [divScalarAssign, divScalar, hs, if_true]
      exact mirrors_of_error v _
    · simp only [divScalarAssign, divScalar, hs, if_false]
      exact mapInPlace_mirrors _ _ v
  · by_cases hk : k = 0
    · simp only [modScalarAssign, modScalar, hk, if_true]
      exact mirrors_of_error v _
    · simp only [modScalarAssign, modScalar, hk, if_false]
      exact mapInPlace_mirrors _ _ v

end VectorGM.Vector

namespace VectorGM.Vector

/-- The prefix increment or decrement of a fully initialized vector, and the opposite
step taken after it. -/
theorem bumpInPlace_inverse (d d' : ℚ) (msg msg' : String) (hd : d + d' = 0) (v : Vector)
    (hv : v.FullyInit) :
    ∃ w, bumpInPlace d msg v = (w, none) ∧ w.size = v.size ∧ w.FullyInit ∧
      (∀ i, i < v.size → w.cell i = ⟨(v.cell i).value + d, true⟩) ∧
      bumpInPlace d' msg' w = (v, none) := by
  have key := (bumpInPlace_tab d msg v.size v.cell).1 ((fullyInit_iff_cell v).mp hv)
  rw [← eq_tab_cell v] at key
  refine ⟨_, key, size_vtab _ _, fullyInit_tab _ _ (fun _ _ => rfl),
    fun i hi => cell_tab _ _ i hi, ?_⟩
  rw [(bumpInPlace_tab d' msg' v.size _).1 (fun _ _ => rfl)]
  have hback : (tab v.size fun j => (⟨(v.cell j).value + d + d', true⟩ : Cell)) = v := by
    conv_rhs => rw [eq_tab_of_fullyInit v hv]
    apply vtab_congr
    intro j _
    rw [add_assoc, hd, add_zero]
  exact congrArg (fun w => (w, (none : Option Error))) hback

end VectorGM.Vector

namespace SquareMatrixGM.SquareMatrix

open VectorGM

/-- The prefix increment or decrement of a well-formed, fully initialized matrix, and the
opposite step taken after it. -/
theorem bumpRows_inverse (d d' : ℚ) (msg msg' : String) (hd : d + d' = 0) (n : Nat)
    (M : SquareMatrix) (hM : M.WellFormed n) (hi : M.FullyInit) :
    ∃ W, mapRowsInPlace (Vector.bumpInPlace d msg) M = (W, none) ∧ W.WellFormed n ∧
      W.FullyInit ∧ (∀ i j, i < n → j < n → W.cellAt i j = ⟨M.val i j + d, true⟩) ∧
      mapRowsInPlace (Vector.bumpInPlace d' msg') W = (M, none) := by
  refine ⟨_, mapRowsInPlace_bumpInPlace d msg n M hM hi, wellFormed_tab n _,
    fullyInit_ofFn n _, fun i j hi hj => cellAt_tab n _ i j hi hj, ?_⟩
  rw [mapRowsInPlace_bumpInPlace d' msg' n (ofFn n fun i j => M.val i j + d)
    (wellFormed_tab n _) (fullyInit_ofFn n _)]
  have hback : (ofFn n fun i j => (ofFn n fun i j => M.val i j + d).val i j + d') = M := by
    conv_rhs => rw [eq_ofFn_of_fullyInit M n hM hi]
    apply ofFn_congr
    intro i hi j hj
    rw [val_ofFn n _ i j hi hj, add_assoc, hd, add_zero]
  exact congrArg (fun W => (W, (none : Option Error))) hback

/-- C29: for a fully initialized vector `v` and a well-formed, fully initialized matrix
`M`: `++v` ends without an exception in a state `w` of the same length, every cell
written and holding the old value plus 1; `v++` ends in the same state and returns the
vector as it was before the call; `--w` then restores `v`; `--v` and `v--` do the same
with minus 1, and `++` restores `v` after them; the same four statements hold for `M`. -/
theorem inc_dec_spec (v : Vector) (M : SquareMatrix) (n : Nat) (hv : v.FullyInit)
    (hM : M.WellFormed n) (hMi : M.FullyInit) :
    (∃ w, v.preInc = (w, none) ∧ v.postInc = ((w, none), some v) ∧ w.size = v.size ∧
      w.FullyInit ∧ (∀ i, i < v.size → w.cell i = ⟨(v.cell i).value + 1, true⟩) ∧
      w.preDec = (v, none)) ∧
    (∃ w, v.preDec = (w, none) ∧ v.postDec = ((w, none), some v) ∧ w.size = v.size ∧
      w.FullyInit ∧ (∀ i, i < v.size → w.cell i = ⟨(v.cell i).value - 1, true⟩) ∧
      w.preInc = (v, none)) ∧
    (∃ W, M.preInc = (W, none) ∧ M.postInc = ((W, none), some M) ∧ W.WellFormed n ∧
      W.FullyInit ∧ (∀ i j, i < n → j < n → W.cellAt i j = ⟨M.val i j + 1, true⟩) ∧
      W.preDec = (M, none)) ∧
    (∃ W, M.preDec = (W, none) ∧ M.postDec = ((W, none), some M) ∧ W.WellFormed n ∧
      W.FullyInit ∧ (∀ i j, i < n → j < n → W.cellAt i j = ⟨M.val i j - 1, true⟩) ∧
      W.preInc = (M, none)) := by
  have hinc : Vector.preInc = Vector.bumpInPlace 1 "Cannot increment uninitialized cell" :=
    funext fun _ => rfl
  have hdec : Vector.preDec = Vector.bumpInPlace (-1) "Cannot decrement uninitialized cell" :=
    funext fun _ => rfl
  refine ⟨?_, ?_, ?_, ?_⟩
  · obtain ⟨w, h1, h2, h3, h4, h5⟩ := Vector.bumpInPlace_inverse 1 (-1)
      "Cannot increment uninitialized cell" "Cannot decrement uninitialized cell"
      (by norm_num) v hv
    have h1' : v.preInc = (w, none) := h1
    exact ⟨w, h1', by simp only [Vector.postInc, h1'], h2, h3, h4, h5⟩
  · obtain ⟨w, h1, h2, h3, h4, h5⟩ := Vector.bumpInPlace_inverse (-1) 1
      "Cannot decrement uninitialized cell" "Cannot increment uninitialized cell"
      (by norm_num) v hv
    have h1' : v.preDec = (w, none) := h1
    refine ⟨w, h1', by simp only [Vector.postDec, h1'], h2, h3, ?_, h5⟩
    intro i hi
    rw [h4 i hi, sub_eq_add_neg]
  · obtain ⟨W, h1, h2, h3, h4, h5⟩ := bumpRows_inverse 1 (-1)
      "Cannot increment uninitialized cell" "Cannot decrement uninitialized cell"
      (by norm_num) n M hM hMi
    have h1' : M.preInc = (W, none) := by
      simp only [preInc, hinc]
      exact h1
    refine ⟨W, h1', by simp only [postInc, h1'], h2, h3, h4, ?_⟩
    simp only [preDec, hdec]
    exact h5
  · obtain ⟨W, h1, h2, h3, h4, h5⟩ := bumpRows_inverse (-1) 1
      "Cannot decrement uninitialized cell" "Cannot increment uninitialized cell"
      (by norm_num) n M hM hMi
    have h1' : M.preDec = (W, none) := by
      simp only [preDec, hdec]
      exact h1
    refine ⟨W, h1', by simp only [postDec, h1'], h2, h3, ?_, ?_⟩
    · intro i j hi hj
      rw [h4 i j hi hj, sub_eq_add_neg]
    · simp only [preInc, hinc]
      exact h5

/-- The matrix `[[1,2],[3,4]]` after `++m`, `m++`, `--m`, `m--` has cell (0,0) equal to 2,
3, 2, 1; `m++` returns the matrix as it was before the call. -/
theorem inc_dec_spec_witness :
    (ofLists [[1, 2], [3, 4]]).preInc = (ofLists [[2, 3], [4, 5]], none) ∧
    (ofLists [[2, 3], [4, 5]]).postInc =
      ((ofLists [[3, 4], [5, 6]], none), some (ofLists [[2, 3], [4, 5]])) ∧
    (ofLists [[3, 4], [5, 6]]).preDec = (ofLists [[2, 3], [4, 5]], none) ∧
    (ofLists [[2, 3], [4, 5]]).postDec =
      ((ofLists [[1, 2], [3, 4]], none), some (ofLists [[2, 3], [4, 5]])) ∧
    ∃ w, (Vector.ofList [1, 2]).preInc = (w, none) ∧
      (Vector.ofList [1, 2]).postInc = ((w, none), some (Vector.ofList [1, 2])) ∧
      w.size = (Vector.ofList [1, 2]).size ∧ w.FullyInit ∧
      (∀ i, i < (Vector.ofList [1, 2]).size →
        w.cell i = ⟨((Vector.ofList [1, 2]).cell i).value + 1, true⟩) ∧
      w.preDec = (Vector.ofList [1, 2], none) :=
  ⟨by decide!, by decide!, by decide!, by decide!,
    (inc_dec_spec (Vector.ofList [1, 2]) (ofLists [[1, 2], [3, 4]]) 2 (by decide)
      (by decide) (by decide)).1⟩

end SquareMatrixGM.SquareMatrix

namespace VectorGM.Vector

/-- The method `sum()` on a table: the sum of the values when every cell is written, the
logic error otherwise. -/
theorem sum_tab (n : Nat) (c : Nat → Cell) :
    ((∀ j, j < n → (c j).initialized = true) →
      (tab n c).sum = .ok (∑ j in Finset.range n, (c j).value)) ∧
    ((∃ j, j < n ∧ ¬ (c j).initialized = true) →
      (tab n c).sum = .error (.MyLogicError "Uninitialized cell in vector during sum()")) := by
  unfold sum
  rw [size_vtab]
  simp only [bind, Except.bind]
  refine forLoop_checked_from _ (fun m => ∑ j in Finset.range m, (c j).value)
    (fun j => (c j).initialized = true)
    (.MyLogicError "Uninitialized cell in vector during sum()") n _ _ ?_ ?_ ?_ ?_
  · exact Finset.sum_range_zero _
  · rfl
  · intro i hi hg
    simp only [isInitialized_tab n c i hi, cell_tab n c i hi, hg, Bool.not_true,
      Bool.false_eq_true, if_false, pure, Except.pure]
    rw [Finset.sum_range_succ]
  · intro i hi hg
    have hf : (c i).initialized = false := by
      cases h : (c i).initialized
      · rfl
      · exact absurd h hg
    simp only [isInitialized_tab n c i hi, hf, Bool.not_false, if_true]

/-- The method `sum()` on any vector. -/
theorem sum_cases (v : Vector) :
    (v.FullyInit → v.sum = .ok (∑ j in Finset.range v.size, (v.cell j).value)) ∧
    (¬ v.FullyInit →
      v.sum = .error (.MyLogicError "Uninitialized cell in vector during sum()")) := by
  have key := sum_tab v.size v.cell
  rw [← eq_tab_cell v] at key
  constructor
  · intro h
    exact key.1 ((fullyInit_iff_cell v).mp h)
  · intro h
    apply key.2
    rw [fullyInit_iff_cell] at h
    push_neg at h
    exact h

end VectorGM.Vector

namespace SquareMatrixGM.SquareMatrix

open VectorGM

/-- The method `sum()` on a table: the total of the row sums when every cell is written,
the logic error of the first row with an unwritten cell otherwise. -/
theorem sum_table (n : Nat) (c : Nat → Nat → Cell) :
    ((∀ i, i < n → ∀ j, j < n → (c i j).initialized = true) →
      (tab n c).sum = .ok (∑ i in Finset.range n, ∑ j in Finset.range n, (c i j).value)) ∧
    ((∃ i, i < n ∧ ¬ ∀ j, j < n → (c i j).initialized = true) →
      (tab n c).sum = .error (.MyLogicError "Uninitialized cell in vector during sum()")) := by
  unfold sum
  rw [size_tab]
  simp only [bind, Except.bind]
  refine forLoop_checked_from _
    (fun m => ∑ i in Finset.range m, ∑ j in Finset.range n, (c i j).value)
    (fun i => ∀ j, j < n → (c i j).initialized = true)
    (.MyLogicError "Uninitialized cell in vector during sum()") n _ _ ?_ ?_ ?_ ?_
  · exact Finset.sum_range_zero _
  · rfl
  · intro i hi hg
    rw [show (tab n c).rows = Vector.table n n c from rfl, Vector.getD_table n n c i hi,
      (Vector.sum_tab n (c i)).1 hg]
    simp only [pure, Except.pure]
    rw [Finset.sum_range_succ]
  · intro i hi hg
    rw [show (tab n c).rows = Vector.table n n c from rfl, Vector.getD_table n n c i hi,
      (Vector.sum_tab n (c i)).2 (by
        by_contra hcon
        apply hg
        intro j hj
        by_contra hne
        exact hcon ⟨j, hj, hne⟩)]

/-- C24: `sum()` on a vector throws a logic error exactly when some cell is unwritten and
otherwise returns the sum of the values of all cells, which is 0 for a vector of length 0;
`sum()` on a well-formed matrix of size `n` throws a logic error exactly when some cell of
some row is unwritten and otherwise returns the total of the row sums, each row sum being
the sum of the `n` values of the row, that is the sum of all `n * n` values. -/
theorem sum_contract (v : Vector) (M : SquareMatrix) (n : Nat) (hM : M.WellFormed n) :
    ((∃ msg, v.sum = .error (.MyLogicError msg)) ↔ ¬ v.FullyInit) ∧
    (v.FullyInit → v.sum = .ok (∑ j in Finset.range v.size, (v.cell j).value)) ∧
    (v.size = 0 → v.sum = .ok 0) ∧
    ((∃ msg, M.sum = .error (.MyLogicError msg)) ↔ ¬ M.FullyInit) ∧
    (M.FullyInit →
      (∀ i, i < n →
        (M.rows.getD i Vector.empty).sum = .ok (∑ j in Finset.range n, M.val i j)) ∧
      M.sum = .ok (∑ i in Finset.range n, ∑ j in Finset.range n, M.val i j)) := by
  have hv := Vector.sum_cases v
  have hM' := eq_tab_of_wellFormed M n hM
  have key := sum_table n M.cellAt
  rw [← hM'] at key
  have hok : M.FullyInit →
      M.sum = .ok (∑ i in Finset.range n, ∑ j in Finset.range n, M.val i j) := by
    intro hi
    apply key.1
    intro i hi' j hj
    rw [cellAt_of_fullyInit M n hM hi i j hi' hj]
  have herr : ¬ M.FullyInit →
      M.sum = .error (.MyLogicError "Uninitialized cell in vector during sum()") := by
    intro hni
    apply key.2
    obtain ⟨i, j, hi, hj, hf⟩ := exists_cellAt_uninit M n hM hni
    refine ⟨i, hi, fun hall => ?_⟩
    rw [hall j hj] at hf
    cases hf
  refine ⟨raises_iff_of_cases _ _ _ _ hv.1 hv.2, hv.1, ?_,
    raises_iff_of_cases _ _ _ _ hok herr, fun hi => ⟨?_, hok hi⟩⟩
  · intro h0
    have hfull : v.FullyInit := by
      rw [Vector.fullyInit_iff_cell]
      intro j hj
      omega
    rw [hv.1 hfull, h0, Finset.sum_range_zero]
  · intro i hi'
    have hrow : M.rows.getD i Vector.empty = Vector.tab n (M.cellAt i) := by
      conv_lhs => rw [hM']
      exact Vector.getD_table n n M.cellAt i hi'
    rw [hrow]
    exact (Vector.sum_tab n (M.cellAt i)).1
      (fun j hj => by rw [cellAt_of_fullyInit M n hM hi i j hi' hj])

/-- The vector `[1, 2, 3]` sums to 6, the empty vector to 0, the matrix `[[1,2],[3,4]]` to
10; a vector and a matrix with an unwritten cell throw. -/
theorem sum_contract_witness :
    (Vector.ofList [1, 2, 3]).sum = .ok 6 ∧ Vector.empty.sum = .ok 0 ∧
    (ofLists [[1, 2], [3, 4]]).sum = .ok 10 ∧
    (Vector.mk [⟨1, true⟩, ⟨0, false⟩]).sum =
      .error (.MyLogicError "Uninitialized cell in vector during sum()") ∧
    (SquareMatrix.mk [⟨[⟨1, true⟩, ⟨2, true⟩]⟩, ⟨[⟨3, true⟩, ⟨0, false⟩]⟩] 2).sum =
      .error (.MyLogicError "Uninitialized cell in vector during sum()") ∧
    (SquareMatrix.mk [⟨[⟨1, true⟩, ⟨2, true⟩]⟩, ⟨[⟨3, true⟩, ⟨0, false⟩]⟩] 2).WellFormed 2 ∧
    (((∃ msg, (SquareMatrix.mk [⟨[⟨1, true⟩, ⟨2, true⟩]⟩, ⟨[⟨3, true⟩, ⟨0, false⟩]⟩] 2).sum =
        .error (.MyLogicError msg)) ↔
      ¬ (SquareMatrix.mk [⟨[⟨1, true⟩, ⟨2, true⟩]⟩, ⟨[⟨3, true⟩, ⟨0, false⟩]⟩] 2).FullyInit)) :=
  ⟨by decide!, by decide!, by decide!, by decide!, by decide!, by decide,
    (sum_contract (Vector.ofList [1, 2, 3])
      (SquareMatrix.mk [⟨[⟨1, true⟩, ⟨2, true⟩]⟩, ⟨[⟨3, true⟩, ⟨0, false⟩]⟩] 2) 2
      (by decide)).2.2.2.1⟩

end SquareMatrixGM.SquareMatrix

/-! ## Comparison by total sum -/

namespace SquareMatrixGM.SquareMatrix

open VectorGM

/-- The method `sum()` on a well-formed matrix: the total of all values when every cell is
written, the logic error otherwise. -/
theorem sum_of_wellFormed (M : SquareMatrix) (n : Nat) (hM : M.WellFormed n) :
    (M.FullyInit → M.sum = .ok (total n M)) ∧
    (¬ M.FullyInit →
      M.sum = .error (.MyLogicError "Uninitialized cell in vector during sum()")) := by
  have hM' := eq_tab_of_wellFormed M n hM
  have key := sum_table n M.cellAt
  rw [← hM'] at key
  constructor
  · intro hi
    apply key.1
    intro i hi' j hj
    rw [cellAt_of_fullyInit M n hM hi i j hi' hj]
  · intro hni
    apply key.2
    obtain ⟨i, j, hi, hj, hf⟩ := exists_cellAt_uninit M n hM hni
    refine ⟨i, hi, fun hall => ?_⟩
    rw [hall j hj] at hf
    cases hf

/-- A comparison of two well-formed matrices: the comparison of the totals when both are
fully initialized, the logic error of `sum()` otherwise. -/
theorem compareSums_cases (cmp : ℚ → ℚ → Bool) (A B : SquareMatrix) (n m : Nat)
    (hA : A.WellFormed n) (hB : B.WellFormed m) :
    (A.FullyInit → B.FullyInit → compareSums cmp A B = .ok (cmp (total n A) (total m B))) ∧
    ((¬ A.FullyInit ∨ ¬ B.FullyInit) → compareSums cmp A B =
      .error (.MyLogicError "Uninitialized cell in vector during sum()")) := by
  have ha := sum_of_wellFormed A n hA
  have hb := sum_of_wellFormed B m hB
  constructor
  · intro hAi hBi
    simp only [compareSums, ha.1 hAi, hb.1 hBi, bind, Except.bind, pure, Except.pure]
  · intro h
    by_cases hAi : A.FullyInit
    · have hBi : ¬ B.FullyInit := by
        rcases h with h | h
        · exact absurd hAi h
        · exact h
      simp only [compareSums, ha.1 hAi, hb.2 hBi, bind, Except.bind]
    · simp only [compareSums, ha.2 hAi, bind, Except.bind]

/-- C31: for well-formed matrices `A` (size `n`) and `B` (size `m`) and a tolerance
`tol ≥ 0`: when both are fully initialized, `A < B`, `A > B`, `A <= B`, `A >= B` return the
comparison of the total of the values of `A` with the total of the values of `B`, `A == B`
returns whether the totals differ by at most `tol`, `A != B` returns the negation of
`A == B`, and matrices with equal totals compare equal; when a cell of `A` or of `B` is
unwritten, each of the six comparisons throws a logic error. -/
theorem comparison_spec (tol : ℚ) (htol : 0 ≤ tol) (A B : SquareMatrix) (n m : Nat)
    (hA : A.WellFormed n) (hB : B.WellFormed m) :
    (A.FullyInit → B.FullyInit →
      A.sum = .ok (total n A) ∧ B.sum = .ok (total m B) ∧
      A.lt B = .ok (decide (total n A < total m B)) ∧
      A.gt B = .ok (decide (total n A > total m B)) ∧
      A.le B = .ok (decide (total n A ≤ total m B)) ∧
      A.ge B = .ok (decide (total n A ≥ total m B)) ∧
      A.eq tol B = .ok (decide (|total n A - total m B| ≤ tol)) ∧
      A.ne tol B = .ok (!decide (|total n A - total m B| ≤ tol)) ∧
      (total n A = total m B → A.eq tol B = .ok true ∧ A.ne tol B = .ok false)) ∧
    ((¬ A.FullyInit ∨ ¬ B.FullyInit) →
      (∃ msg, A.lt B = .error (.MyLogicError msg)) ∧
      (∃ msg, A.gt B = .error (.MyLogicError msg)) ∧
      (∃ msg, A.le B = .error (.MyLogicError msg)) ∧
      (∃ msg, A.ge B = .error (.MyLogicError msg)) ∧
      (∃ msg, A.eq tol B = .error (.MyLogicError msg)) ∧
      (∃ msg, A.ne tol B = .error (.MyLogicError msg))) := by
  constructor
  · intro hAi hBi
    have hc := fun cmp => (compareSums_cases cmp A B n m hA hB).1 hAi hBi
    refine ⟨(sum_of_wellFormed A n hA).1 hAi, (sum_of_wellFormed B m hB).1 hBi,
      hc _, hc _, hc _, hc _, hc _, hc _, ?_⟩
    intro heq
    have hclose : |total n A - total m B| ≤ tol := by
      rw [heq, sub_self, abs_zero]
      exact htol
    constructor
    · rw [eq, hc]
      simp only [hclose, decide_True]
    · rw [ne, hc]
      simp only [hclose, decide_True, Bool.not_true]
  · intro h
    have hc := fun cmp => (compareSums_cases cmp A B n m hA hB).2 h
    exact ⟨⟨_, hc _⟩, ⟨_, hc _⟩, ⟨_, hc _⟩, ⟨_, hc _⟩, ⟨_, hc _⟩, ⟨_, hc _⟩⟩

/-- The matrices of the test "Matrix comparison operators based on sum()", with the
tolerance 1e-9: `[[1,2],[3,4]] == [[2,1],[4,3]]`, also with 1e-10 added to one cell, and
`[[1,1],[2,1]] < [[1,2],[3,4]]`; a matrix with an unwritten cell throws. -/
theorem comparison_spec_witness :
    (ofLists [[1, 2], [3, 4]]).eq (1 / 1000000000) (ofLists [[2, 1], [4, 3]]) = .ok true ∧
    (ofLists [[1, 2], [3, 4]]).ne (1 / 1000000000) (ofLists [[2, 1], [4, 3]]) = .ok false ∧
    (ofLists [[1, 2], [3, 4]]).eq (1 / 1000000000)
      (ofLists [[1, 2], [3, 4 + 1 / 10000000000]]) = .ok true ∧
    (ofLists [[1, 1], [2, 1]]).lt (ofLists [[1, 2], [3, 4]]) = .ok true ∧
    (ofLists [[1, 2], [3, 4]]).gt (ofLists [[1, 1], [2, 1]]) = .ok true ∧
    (ofLists [[1, 2], [3, 4]]).le (ofLists [[2, 1], [4, 3]]) = .ok true ∧
    (ofLists [[5, 5], [5, 5]]).ge (ofLists [[1, 2], [3, 4]]) = .ok true ∧
    (ofLists [[1, 2], [3, 4]]).lt (SquareMatrix.mk [⟨[⟨0, false⟩]⟩] 1) =
      .error (.MyLogicError "Uninitialized cell in vector during sum()") ∧
    (ofLists [[1, 2], [3, 4]]).lt (ofLists [[2, 1], [4, 3]]) =
      .ok (decide (total 2 (ofLists [[1, 2], [3, 4]]) < total 2 (ofLists [[2, 1], [4, 3]]))) :=
  ⟨by decide!, by decide!, by decide!, by decide!, by decide!, by decide!, by decide!,
    by decide!,
    ((comparison_spec (1 / 1000000000) (by norm_num) (ofLists [[1, 2], [3, 4]])
      (ofLists [[2, 1], [4, 3]]) 2 2 (by decide) (by decide)).1 (by decide)
      (by decide)).2.2.1⟩

end SquareMatrixGM.SquareMatrix

/-! ## The state left by an in-place operator that throws -/

/-- Among the indices below `n`, one that is not good has a first one. -/
theorem exists_first_bad (good : Nat → Prop) (n : Nat) (hex : ∃ i, i < n ∧ ¬ good i) :
    ∃ m, m < n ∧ ¬ good m ∧ ∀ i, i < m → good i := by
  induction n with
  | zero =>
    obtain ⟨i, hi, _⟩ := hex
    omega
  | succ k ih =>
    by_cases hk : ∃ i, i < k ∧ ¬ good i
    · obtain ⟨m, hm, hnm, hbefore⟩ := ih hk
      exact ⟨m, by omega, hnm, hbefore⟩
    · have hall : ∀ j, j < k → good j := by
        intro j hj
        by_contra hnj
        exact hk ⟨j, hj, hnj⟩
      obtain ⟨i, hi, hni⟩ := hex
      have hik : i = k := by
        by_contra hne
        exact hni (hall i (by omega))
      subst hik
      exact ⟨i, Nat.lt_succ_self i, hni, hall⟩

/-- A mutating loop that has thrown stays in the state of the throw. -/
theorem forLoopMut_stop {σ : Type} (body : Nat → σ → Mutated σ) (m n : Nat) (s t : σ)
    (e : Error) (hm : m < n) (h : forLoopMut body (m + 1) s = (t, some e)) :
    forLoopMut body n s = (t, some e) := by
  induction n with
  | zero => omega
  | succ k ih =>
    by_cases hmk : m = k
    · subst hmk
      exact h
    · rw [forLoopMut_succ, ih (by omega)]

namespace SquareMatrixGM.SquareMatrix

open VectorGM

/-- A row-by-row in-place operator that throws in row `m`, the first row that is not good:
the rows before `m` are updated, row `m` is left as the row operator left it, the rows
after it are untouched. -/
theorem mapRowsInPlace_tab_error (f : Vector → Mutated Vector) (n : Nat)
    (c c' : Nat → Nat → Cell) (good : Nat → Prop) (e : Error)
    (hgood : ∀ i, i < n → good i → f (Vector.tab n (c i)) = (Vector.tab n (c' i), none))
    (hbad : ∀ i, i < n → ¬ good i → ∃ w, f (Vector.tab n (c i)) = (Vector.tab n w, some e))
    (hex : ∃ i, i < n ∧ ¬ good i) :
    ∃ m w, m < n ∧ ¬ good m ∧ (∀ i, i < m → good i) ∧
      f (Vector.tab n (c m)) = (Vector.tab n w, some e) ∧
      mapRowsInPlace f (tab n c) =
        (tab n fun i => if i < m then c' i else if i = m then w else c i, some e) := by
  obtain ⟨m, hm, hnm, hbefore⟩ := exists_first_bad good n hex
  obtain ⟨w, hw⟩ := hbad m hm hnm
  refine ⟨m, w, hm, hnm, hbefore, hw, ?_⟩
  unfold mapRowsInPlace
  simp only [size_tab]
  refine forLoopMut_stop _ m n _ _ _ hm ?_
  have hraw : ∀ i, i < n → (tab n fun a b => if a < i then c' a b else c a b).rows.getD i
      Vector.empty = Vector.tab n (c i) := by
    intro i hi
    rw [show ∀ d, (tab n d).rows = Vector.table n n d from fun _ => rfl,
      Vector.getD_table n n _ i hi]
    apply Vector.vtab_congr
    intro j _
    simp
  rw [forLoopMut_succ, forLoopMut_eq_of_steps _
    (fun k => tab n fun i j => if i < k then c' i j else c i j) m _ ?_ ?_]
  · simp only [hraw m hm, hw, Prod.mk.injEq, and_true]
    show (⟨(Vector.table n n _).set m _, n⟩ : SquareMatrix) = _
    rw [Vector.set_table]
    apply tab_congr
    intro x _ y _
    by_cases hx : x = m
    · simp [hx]
    · by_cases hx' : x < m
      · simp [hx, hx']
      · simp [hx, hx']
  · apply tab_congr
    intro i _ j _
    simp
  · intro i hi
    have hin : i < n := by omega
    simp only [hraw i hin, hgood i hin (hbefore i hi), Prod.mk.injEq, and_true]
    show (⟨(Vector.table n n _).set i _, n⟩ : SquareMatrix) = _
    rw [Vector.set_table]
    apply tab_congr
    intro x _ y _
    by_cases hx : x = i
    · have : x < i + 1 := by omega
      simp [hx]
    · by_cases hx' : x < i
      · have : x < i + 1 := by omega
        simp [hx, hx', this]
      · have : ¬ x < i + 1 := by omega
        simp [hx, hx', this]

end SquareMatrixGM.SquareMatrix

namespace VectorGM.Vector

/-- An in-place operator on a table with an unwritten cell stops at the first one. -/
theorem stops_of_tab (f : ℚ → ℚ) (op : Vector → Mutated Vector) (msg : String) (v : Vector)
    (hop : ∀ (n : Nat) (c : Nat → Cell), (∃ j, j < n ∧ ¬ (c j).initialized = true) →
      ∃ m, m < n ∧ ¬ (c m).initialized = true ∧ (∀ j, j < m → (c j).initialized = true) ∧
        op (tab n c) =
          (tab n fun j => if j < m then ⟨f (c j).value, true⟩ else c j,
            some (.MyLogicError msg)))
    (h : ¬ v.FullyInit) : StopsAtFirstUnwritten f v (op v) := by
  have key := hop v.size v.cell (by
    rw [fullyInit_iff_cell] at h
    push_neg at h
    exact h)
  rw [← eq_tab_cell v] at key
  obtain ⟨m, hm, hnm, hbefore, hstate⟩ := key
  refine ⟨m, hm, ?_, hbefore, ⟨msg, by rw [hstate]⟩, by rw [hstate]; exact size_vtab _ _, ?_⟩
  · cases hc : (v.cell m).initialized
    · rfl
    · exact absurd hc hnm
  · intro j hj
    rw [hstate]
    exact cell_tab _ _ j hj

theorem mapInPlace_stops (f : ℚ → ℚ) (msg : String) (v : Vector) (h : ¬ v.FullyInit) :
    StopsAtFirstUnwritten f v (mapInPlace f msg v) :=
  stops_of_tab f (mapInPlace f msg) msg v (fun n c => (mapInPlace_tab f msg n c).2) h

theorem bumpInPlace_stops (d : ℚ) (msg : String) (v : Vector) (h : ¬ v.FullyInit) :
    StopsAtFirstUnwritten (fun x => x + d) v (bumpInPlace d msg v) :=
  stops_of_tab (fun x => x + d) (bumpInPlace d msg) msg v
    (fun n c => (bumpInPlace_tab d msg n c).2) h

end VectorGM.Vector

namespace SquareMatrixGM.SquareMatrix

open VectorGM

/-- A row-by-row in-place operator on a well-formed matrix with an unwritten cell stops at
the first one in row-major order. -/
theorem mapRowsInPlace_stops (g : ℚ → ℚ) (f : Vector → Mutated Vector) (msg : String)
    (n : Nat) (M : SquareMatrix) (hM : M.WellFormed n) (h : ¬ M.FullyInit)
    (hf : ∀ c : Nat → Cell,
      ((∀ j, j < n → (c j).initialized = true) →
        f (Vector.tab n c) = (Vector.tab n fun j => ⟨g (c j).value, true⟩, none)) ∧
      ((∃ j, j < n ∧ ¬ (c j).initialized = true) →
        ∃ m, m < n ∧ ¬ (c m).initialized = true ∧
          (∀ j, j < m → (c j).initialized = true) ∧
          f (Vector.tab n c) =
            (Vector.tab n fun j => if j < m then ⟨g (c j).value, true⟩ else c j,
              some (.MyLogicError msg)))) :
    StopsAtFirstUnwritten g n M (mapRowsInPlace f M) := by
  have hrowbad : ∀ i, ¬ (∀ j, j < n → (M.cellAt i j).initialized = true) →
      ∃ j, j < n ∧ ¬ (M.cellAt i j).initialized = true := by
    intro i hg
    by_contra hcon
    apply hg
    intro j hj
    by_contra hne
    exact hcon ⟨j, hj, hne⟩
  have key := mapRowsInPlace_tab_error f n M.cellAt
    (fun i j => ⟨g (M.cellAt i j).value, true⟩)
    (fun i => ∀ j, j < n → (M.cellAt i j).initialized = true) (.MyLogicError msg)
    (fun i _ hg => (hf (M.cellAt i)).1 hg)
    (fun i _ hg => by
      obtain ⟨m, _, _, _, hstate⟩ := (hf (M.cellAt i)).2 (hrowbad i hg)
      exact ⟨_, hstate⟩)
    (by
      obtain ⟨i, j, hi, hj, hf'⟩ := exists_cellAt_uninit M n hM h
      refine ⟨i, hi, fun hall => ?_⟩
      rw [hall j hj] at hf'
      cases hf')
  rw [← eq_tab_of_wellFormed M n hM] at key
  obtain ⟨i, w, hi, hni, hbefore, hw, hstate⟩ := key
  obtain ⟨m, hm, hnm, hbefore', hrow⟩ := (hf (M.cellAt i)).2 (hrowbad i hni)
  have hwu : Vector.tab n w =
      Vector.tab n fun j => if j < m then ⟨g (M.cellAt i j).value, true⟩ else M.cellAt i j := by
    have h2 := hw.symm.trans hrow
    exact congrArg Prod.fst h2
  refine ⟨i, m, hi, hm, ?_, ?_, ⟨msg, by rw [hstate]⟩, by rw [hstate]; exact wellFormed_tab n _,
    ?_⟩
  · cases hc : (M.cellAt i m).initialized
    · rfl
    · exact absurd hc hnm
  · intro a b ha hb hab
    rcases hab with hlt | ⟨rfl, hlt⟩
    · exact hbefore a hlt b hb
    · exact hbefore' b hlt
  · intro a b ha hb
    rw [hstate]
    simp only []
    rw [cellAt_tab n _ a b ha hb]
    by_cases hai : a < i
    · simp only [hai, if_true, true_or]
      rfl
    · by_cases hai' : a = i
      · subst hai'
        have hwb : w b = if b < m then ⟨g (M.cellAt a b).value, true⟩ else M.cellAt a b := by
          have := congrArg (fun v : Vector => v.cell b) hwu
          simp only [Vector.cell_tab n _ b hb] at this
          exact this
        simp only [lt_self_iff_false, if_false, if_true, false_or, true_and, hwb]
        rfl
      · simp only [hai, hai', if_false, false_and, or_self]

end SquareMatrixGM.SquareMatrix

namespace SquareMatrixGM.SquareMatrix

open VectorGM

/-- C32 as stated fails: `++v` and `v *= 3` on the vector `[1, unwritten]` throw the logic
error after the first cell has been changed, and `++M` on `[[1,2],[3,unwritten]]` throws
after three cells have been changed: the operand is not left as it was. -/
theorem inplace_failure_changes_operand :
    (Vector.mk [⟨1, true⟩, ⟨0, false⟩]).preInc =
      (Vector.mk [⟨2, true⟩, ⟨0, false⟩],
        some (.MyLogicError "Cannot increment uninitialized cell")) ∧
    (Vector.mk [⟨1, true⟩, ⟨0, false⟩]).mulScalarAssign 3 =
      (Vector.mk [⟨3, true⟩, ⟨0, false⟩],
        some (.MyLogicError "Cannot multiply uninitialized cell")) ∧
    Vector.mk [⟨2, true⟩, ⟨0, false⟩] ≠ Vector.mk [⟨1, true⟩, ⟨0, false⟩] ∧
    Vector.mk [⟨3, true⟩, ⟨0, false⟩] ≠ Vector.mk [⟨1, true⟩, ⟨0, false⟩] ∧
    (SquareMatrix.mk [⟨[⟨1, true⟩, ⟨2, true⟩]⟩, ⟨[⟨3, true⟩, ⟨0, false⟩]⟩] 2).preInc =
      (SquareMatrix.mk [⟨[⟨2, true⟩, ⟨3, true⟩]⟩, ⟨[⟨4, true⟩, ⟨0, false⟩]⟩] 2,
        some (.MyLogicError "Cannot increment uninitialized cell")) ∧
    SquareMatrix.mk [⟨[⟨2, true⟩, ⟨3, true⟩]⟩, ⟨[⟨4, true⟩, ⟨0, false⟩]⟩] 2 ≠
      SquareMatrix.mk [⟨[⟨1, true⟩, ⟨2, true⟩]⟩, ⟨[⟨3, true⟩, ⟨0, false⟩]⟩] 2 :=
  ⟨by decide!, by decide!, by decide!, by decide!, by decide!, by decide!⟩

/-- C32, amended: when `++v`, `--v`, `v *= s`, `v /= s` (`s ≠ 0`) or `v %= k` (`k ≠ 0`)
runs on a vector with an unwritten cell, it throws a logic error at the first unwritten
cell; the cells before that cell have already been updated, that cell and the cells after
it are as they were, and the length is unchanged.  The matrix forms on a well-formed
matrix with an unwritten cell do the same in row-major order. -/
theorem inplace_failure_state (v : Vector) (M : SquareMatrix) (n : Nat) (s : ℚ) (k : Int)
    (hv : ¬ v.FullyInit) (hM : M.WellFormed n) (hMi : ¬ M.FullyInit) :
    Vector.StopsAtFirstUnwritten (fun x => x + 1) v v.preInc ∧
    Vector.StopsAtFirstUnwritten (fun x => x - 1) v v.preDec ∧
    Vector.StopsAtFirstUnwritten (fun x => x * s) v (v.mulScalarAssign s) ∧
    (s ≠ 0 → Vector.StopsAtFirstUnwritten (fun x => x / s) v (v.divScalarAssign s)) ∧
    (k ≠ 0 → Vector.StopsAtFirstUnwritten (fun x => (cppRem (castInt x) k : Int)) v
      (v.modScalarAssign k)) ∧
    StopsAtFirstUnwritten (fun x => x + 1) n M M.preInc ∧
    StopsAtFirstUnwritten (fun x => x - 1) n M M.preDec ∧
    StopsAtFirstUnwritten (fun x => x * s) n M (M.mulScalarAssign s) ∧
    (s ≠ 0 → StopsAtFirstUnwritten (fun x => x / s) n M (M.divScalarAssign s)) ∧
    (k ≠ 0 → StopsAtFirstUnwritten (fun x => (cppRem (castInt x) k : Int)) n M
      (M.modScalarAssign k)) := by
  have hsub : (fun x : ℚ => x + -1) = fun x => x - 1 :=
    funext fun x => (sub_eq_add_neg x 1).symm
  refine ⟨Vector.bumpInPlace_stops 1 _ v hv, ?_, Vector.mapInPlace_stops _ _ v hv, ?_, ?_,
    mapRowsInPlace_stops _ _ "Cannot increment uninitialized cell" n M hM hMi
      (fun c => Vector.bumpInPlace_tab 1 _ n c), ?_,
    mapRowsInPlace_stops _ _ "Cannot multiply uninitialized cell" n M hM hMi
      (fun c => Vector.mapInPlace_tab _ _ n c), ?_, ?_⟩
  · have h := Vector.bumpInPlace_stops (-1) "Cannot decrement uninitialized cell" v hv
    rw [hsub] at h
    exact h
  · intro hs
    simp only [Vector.divScalarAssign, hs, if_false]
    exact Vector.mapInPlace_stops _ _ v hv
  · intro hk
    simp only [Vector.modScalarAssign, hk, if_false]
    exact Vector.mapInPlace_stops _ _ v hv
  · have h := mapRowsInPlace_stops (fun x => x + -1)
      (Vector.bumpInPlace (-1) "Cannot decrement uninitialized cell")
      "Cannot decrement uninitialized cell" n M hM hMi
      (fun c => Vector.bumpInPlace_tab (-1) _ n c)
    rw [hsub] at h
    exact h
  · intro hs
    have hfun : (fun row : Vector => row.divScalarAssign s) =
        Vector.mapInPlace (fun x => x / s) "Cannot divide uninitialized cell" := by
      funext row
      simp only [Vector.divScalarAssign, hs, if_false]
    simp only [divScalarAssign, hs, if_false, hfun]
    exact mapRowsInPlace_stops _ _ "Cannot divide uninitialized cell" n M hM hMi
      (fun c => Vector.mapInPlace_tab _ _ n c)
  · intro hk
    have hfun : (fun row : Vector => row.modScalarAssign k) =
        Vector.mapInPlace (fun x => (cppRem (castInt x) k : Int))
          "Cannot modulo uninitialized cell" := by
      funext row
      simp only [Vector.modScalarAssign, hk, if_false]
    simp only [modScalarAssign, hk, if_false, hfun]
    exact mapRowsInPlace_stops _ _ "Cannot modulo uninitialized cell" n M hM hMi
      (fun c => Vector.mapInPlace_tab _ _ n c)

/-- The vector `[1, unwritten]` and the matrix `[[1,2],[3,unwritten]]`: the operators stop
at the unwritten cell; when the first cell is the unwritten one, nothing has changed. -/
theorem inplace_failure_state_witness :
    (Vector.mk [⟨0, false⟩, ⟨1, true⟩]).preInc =
      (Vector.mk [⟨0, false⟩, ⟨1, true⟩],
        some (.MyLogicError "Cannot increment uninitialized cell")) ∧
    (Vector.mk [⟨5, true⟩, ⟨0, false⟩]).modScalarAssign 2 =
      (Vector.mk [⟨1, true⟩, ⟨0, false⟩],
        some (.MyLogicError "Cannot modulo uninitialized cell")) ∧
    Vector.StopsAtFirstUnwritten (fun x => x + 1) (Vector.mk [⟨1, true⟩, ⟨0, false⟩])
      (Vector.mk [⟨1, true⟩, ⟨0, false⟩]).preInc ∧
    StopsAtFirstUnwritten (fun x => x + 1) 2
      (SquareMatrix.mk [⟨[⟨1, true⟩, ⟨2, true⟩]⟩, ⟨[⟨3, true⟩, ⟨0, false⟩]⟩] 2)
      (SquareMatrix.mk [⟨[⟨1, true⟩, ⟨2, true⟩]⟩, ⟨[⟨3, true⟩, ⟨0, false⟩]⟩] 2).preInc :=
  have h := inplace_failure_state (Vector.mk [⟨1, true⟩, ⟨0, false⟩])
    (SquareMatrix.mk [⟨[⟨1, true⟩, ⟨2, true⟩]⟩, ⟨[⟨3, true⟩, ⟨0, false⟩]⟩] 2) 2 3 2
    (by decide) (by decide) (by decide)
  ⟨by decide!, by decide!, h.1, h.2.2.2.2.2.1⟩

end SquareMatrixGM.SquareMatrix

/-! ## The square invariant -/

/-- A property that holds before a loop and is kept by every iteration that returns holds
after the loop, if the loop returns. -/
theorem forLoop_invariant {σ : Type} (I : σ → Prop) (body : Nat → σ → Except Error σ)
    (n : Nat) (s : σ) (h0 : I s)
    (hstep : ∀ i s s', i < n → I s → body i s = .ok s' → I s') :
    ∀ t, forLoop body n s = .ok t → I t := by
  induction n with
  | zero =>
    intro t ht
    cases ht
    exact h0
  | succ k ih =>
    intro t ht
    rw [forLoop_succ] at ht
    cases hk : forLoop body k s with
    | error e =>
      rw [hk] at ht
      cases ht
    | ok s' =>
      rw [hk] at ht
      exact hstep k s' t (Nat.lt_succ_self k)
        (ih (fun i s s' hi => hstep i s s' (Nat.lt_succ_of_lt hi)) s' hk) ht

/-- A property that holds before a mutating loop and is kept by every iteration, thrown
or not, holds of the state the loop leaves. -/
theorem forLoopMut_invariant {σ : Type} (I : σ → Prop) (body : Nat → σ → Mutated σ)
    (n : Nat) (s : σ) (h0 : I s) (hstep : ∀ i s, i < n → I s → I (body i s).1) :
    I (forLoopMut body n s).1 := by
  induction n with
  | zero => exact h0
  | succ k ih =>
    have ih' := ih (fun i s hi => hstep i s (Nat.lt_succ_of_lt hi))
    rw [forLoopMut_succ]
    cases hk : forLoopMut body k s with
    | mk s' o =>
      rw [hk] at ih'
      cases o with
      | none => exact hstep k s' (Nat.lt_succ_self k) ih'
      | some e => exact ih'

namespace VectorGM.Vector

theorem size_store (v : Vector) (i : Nat) (x : ℚ) : (v.store i x).size = v.size := by
  simp [store, size]

theorem size_of_set (v w : Vector) (i : Int) (x : ℚ) (h : v.set i x = .ok w) :
    w.size = v.size := by
  unfold set touch at h
  by_cases hb : i < 0 ∨ i ≥ (v.size : Int)
  · simp only [hb, if_true] at h
    cases h
  · simp only [hb, if_false, Except.ok.injEq] at h
    rw [← h, size_store]
    simp [size]

/-- The element-wise operators return a vector of the length of the left operand. -/
theorem size_of_elementwise (op : ℚ → ℚ → ℚ) (m1 m2 : String) (a b r : Vector)
    (h : elementwise op m1 m2 a b = .ok r) : r.size = a.size := by
  have key := elementwise_cases op m1 m2 a b
  by_cases hs : a.size = b.size
  · by_cases hi : a.FullyInit ∧ b.FullyInit
    · rw [key.2.2 hs hi.1 hi.2] at h
      cases h
      exact size_vtab _ _
    · have hu : ¬ a.FullyInit ∨ ¬ b.FullyInit := by
        by_contra hcon
        push_neg at hcon
        exact hi hcon
      rw [key.2.1 hs hu] at h
      cases h
  · rw [key.1 hs] at h
    cases h

/-- The non-mutating unary and scalar operators return a vector of the same length. -/
theorem size_of_mapChecked (f : ℚ → ℚ) (msg : String) (v r : Vector)
    (h : mapChecked f msg v = .ok r) : r.size = v.size := by
  have key := mapChecked_cases f msg v
  by_cases hi : v.FullyInit
  · rw [key.1 hi] at h
    cases h
    exact size_vtab _ _
  · rw [key.2 hi] at h
    cases h

/-- The compound operators keep the length, thrown or not. -/
theorem size_compound (op : ℚ → ℚ → ℚ) (msg : String) (v other : Vector) :
    (compound op msg v other).1.size = v.size := by
  unfold compound
  by_cases hs : v.size = other.size
  · simp only [hs, ne_eq, not_true_eq_false, if_false]
    rw [← hs]
    refine forLoopMut_invariant (fun w => w.size = v.size) _ v.size v rfl ?_
    intro i w _ hw
    simp only [size_store]
    exact hw
  · simp only [ne_eq, hs, not_false_eq_true, if_true]

theorem size_mapInPlace (f : ℚ → ℚ) (msg : String) (v : Vector) :
    (mapInPlace f msg v).1.size = v.size := by
  unfold mapInPlace
  refine forLoopMut_invariant (fun w => w.size = v.size) _ v.size v rfl ?_
  intro i w _ hw
  cases w.isInitialized i with
  | error e => exact hw
  | ok a =>
    cases a
    · exact hw
    · simp only [Bool.not_true, Bool.false_eq_true, if_false, size_store]
      exact hw

theorem size_bumpInPlace (d : ℚ) (msg : String) (v : Vector) :
    (bumpInPlace d msg v).1.size = v.size := by
  unfold bumpInPlace
  refine forLoopMut_invariant (fun w => w.size = v.size) _ v.size v rfl ?_
  intro i w _ hw
  cases (w.cell i).initialized
  · exact hw
  · simp only [Bool.not_true, Bool.false_eq_true, if_false, size_store]
    exact hw

end VectorGM.Vector

namespace SquareMatrixGM.SquareMatrix

open VectorGM

/-- Replacing a row by a vector of length `n` keeps a matrix well-formed. -/
theorem wellFormed_set_row (M : SquareMatrix) (n i : Nat) (v : Vector) (hM : M.WellFormed n)
    (hv : v.size = n) : ({ M with rows := M.rows.set i v } : SquareMatrix).WellFormed n := by
  obtain ⟨hs, hl, hr⟩ := hM
  refine ⟨hs, by simp [hl], ?_⟩
  intro r hr'
  rcases List.mem_or_eq_of_mem_set hr' with h | h
  · exact hr r h
  · rw [h]
    exact hv

theorem size_getD_row (M : SquareMatrix) (n i : Nat) (hM : M.WellFormed n) (hi : i < n) :
    (M.rows.getD i Vector.empty).size = n :=
  hM.2.2 _ (Vector.getD_mem M.rows i (by rw [hM.2.1]; exact hi))

theorem wellFormed_of_construct (n : Int) (M : SquareMatrix) (h : construct n = .ok M) :
    M.WellFormed n.toNat := by
  by_cases hn : n < 0
  · simp only [construct, hn, if_true] at h
    cases h
  · obtain ⟨m, rfl⟩ : ∃ m : Nat, n = (m : Int) := ⟨n.toNat, by omega⟩
    rw [construct_ofNat] at h
    cases h
    exact wellFormed_tab m _

theorem wellFormed_of_identity (n : Int) (M : SquareMatrix) (h : identity n = .ok M) :
    M.WellFormed n.toNat := by
  by_cases hn : n < 0
  · simp only [identity, construct, hn, if_true, bind, Except.bind] at h
    cases h
  · obtain ⟨m, rfl⟩ : ∃ m : Nat, n = (m : Int) := ⟨n.toNat, by omega⟩
    rw [identity_ofNat] at h
    cases h
    exact wellFormed_tab m _

theorem wellFormed_of_setRow (M R : SquareMatrix) (n : Nat) (i : Int) (v : Vector)
    (hM : M.WellFormed n) (hv : v.size = n) (h : M.setRow i v = .ok R) : R.WellFormed n := by
  unfold setRow at h
  cases hr : M.row i with
  | error e =>
    simp only [hr, bind, Except.bind] at h
    cases h
  | ok r =>
    simp only [hr, bind, Except.bind, pure, Except.pure, Except.ok.injEq] at h
    rw [← h]
    exact wellFormed_set_row M n _ v hM hv

theorem wellFormed_of_setCell (M R : SquareMatrix) (n : Nat) (i j : Int) (x : ℚ)
    (hM : M.WellFormed n) (h : M.setCell i j x = .ok R) : R.WellFormed n := by
  unfold setCell row at h
  by_cases hb : i < 0 ∨ i ≥ (M.size : Int)
  · simp only [hb, if_true, bind, Except.bind] at h
    cases h
  · simp only [hb, if_false, bind, Except.bind] at h
    cases hs : (M.rows.getD i.toNat Vector.empty).set j x with
    | error e =>
      rw [hs] at h
      cases h
    | ok r' =>
      rw [hs] at h
      simp only [pure, Except.pure, Except.ok.injEq] at h
      rw [← h]
      apply wellFormed_set_row M n _ r' hM
      rw [Vector.size_of_set _ _ j x hs]
      have hi : i.toNat < n := by
        have := hM.1
        omega
      exact size_getD_row M n _ hM hi

end SquareMatrixGM.SquareMatrix

namespace SquareMatrixGM.SquareMatrix

open VectorGM

/-- The row-wise binary operators return a well-formed matrix of the size of the left
operand. -/
theorem wellFormed_of_rowwise (f : Vector → Vector → Except Error Vector)
    (hf : ∀ a b r, f a b = .ok r → r.size = a.size) (msg : String)
    (M other R : SquareMatrix) (n : Nat) (hM : M.WellFormed n)
    (h : rowwise f msg M other = .ok R) : R.WellFormed n := by
  unfold rowwise at h
  by_cases hs : M.size = other.size
  · simp only [hs, ne_eq, not_true_eq_false, if_false] at h
    rw [← hs, hM.1, construct_ofNat] at h
    simp only [bind, Except.bind] at h
    refine forLoop_invariant (fun R => R.WellFormed n) _ n _ (wellFormed_tab n _) ?_ R h
    intro i S S' hi hS hstep
    cases ho : other.row i with
    | error e =>
      simp only [ho] at hstep
      cases hstep
    | ok o =>
      simp only [ho] at hstep
      cases hr : f (M.rows.getD i Vector.empty) o with
      | error e =>
        simp only [hr] at hstep
        cases hstep
      | ok r =>
        simp only [hr] at hstep
        exact wellFormed_of_setRow S S' n i r hS
          (by rw [hf _ _ _ hr]; exact size_getD_row M n i hM hi) hstep
  · simp only [ne_eq, hs, not_false_eq_true, if_true] at h
    cases h

/-- The row-wise unary and scalar operators return a well-formed matrix of the same
size. -/
theorem wellFormed_of_mapRows (f : Vector → Except Error Vector)
    (hf : ∀ a r, f a = .ok r → r.size = a.size) (M R : SquareMatrix) (n : Nat)
    (hM : M.WellFormed n) (h : mapRows f M = .ok R) : R.WellFormed n := by
  unfold mapRows at h
  rw [hM.1, construct_ofNat] at h
  simp only [bind, Except.bind] at h
  refine forLoop_invariant (fun R => R.WellFormed n) _ n _ (wellFormed_tab n _) ?_ R h
  intro i S S' hi hS hstep
  cases hr : f (M.rows.getD i Vector.empty) with
  | error e =>
    simp only [hr] at hstep
    cases hstep
  | ok r =>
    simp only [hr] at hstep
    exact wellFormed_of_setRow S S' n i r hS
      (by rw [hf _ _ hr]; exact size_getD_row M n i hM hi) hstep

/-- The matrix product returns a well-formed matrix of the size of the left operand. -/
theorem wellFormed_of_mul (M other R : SquareMatrix) (n : Nat) (hM : M.WellFormed n)
    (h : M.mul other = .ok R) : R.WellFormed n := by
  unfold mul at h
  by_cases hs : M.size = other.size
  · simp only [hs, ne_eq, not_true_eq_false, if_false] at h
    rw [← hs, hM.1] at h
    cases hc : Vector.transposeColumnsToRows other.rows (n : Int) with
    | error e =>
      simp only [hc, bind, Except.bind] at h
      cases h
    | ok cols =>
      simp only [hc, construct_ofNat, bind, Except.bind] at h
      refine forLoop_invariant (fun R => R.WellFormed n) _ n _ (wellFormed_tab n _) ?_ R h
      intro i S S' _ hS hstep
      refine forLoop_invariant (fun R => R.WellFormed n) _ n _ hS ?_ S' hstep
      intro j T T' _ hT hstep'
      cases hd : (M.rows.getD i Vector.empty).dot (cols.getD j Vector.empty) with
      | error e =>
        simp only [hd] at hstep'
        cases hstep'
      | ok d =>
        simp only [hd] at hstep'
        exact wellFormed_of_setCell T T' n i j d hT hstep'
  · simp only [ne_eq, hs, not_false_eq_true, if_true] at h
    cases h

/-- The compound binary operators leave a well-formed matrix, thrown or not. -/
theorem wellFormed_rowwiseAssign (f : Vector → Vector → Mutated Vector)
    (hf : ∀ a b, (f a b).1.size = a.size) (msg : String) (M other : SquareMatrix) (n : Nat)
    (hM : M.WellFormed n) : (rowwiseAssign f msg M other).1.WellFormed n := by
  unfold rowwiseAssign
  by_cases hs : M.size = other.size
  · simp only [hs, ne_eq, not_true_eq_false, if_false]
    refine forLoopMut_invariant (fun R => R.WellFormed n) _ _ M hM ?_
    intro i S hi hS
    have hi' : i < n := by
      rw [← hs, hM.1] at hi
      exact hi
    cases other.row i with
    | error e => exact hS
    | ok o =>
      exact wellFormed_set_row S n i _ hS
        (by rw [hf]; exact size_getD_row S n i hS hi')
  · simp only [ne_eq, hs, not_false_eq_true, if_true]
    exact hM

/-- The row-by-row in-place operators leave a well-formed matrix, thrown or not. -/
theorem wellFormed_mapRowsInPlace (f : Vector → Mutated Vector)
    (hf : ∀ a, (f a).1.size = a.size) (M : SquareMatrix) (n : Nat) (hM : M.WellFormed n) :
    (mapRowsInPlace f M).1.WellFormed n := by
  unfold mapRowsInPlace
  refine forLoopMut_invariant (fun R => R.WellFormed n) _ _ M hM ?_
  intro i S hi hS
  have hi' : i < n := by
    rw [hM.1] at hi
    exact hi
  exact wellFormed_set_row S n i _ hS (by rw [hf]; exact size_getD_row S n i hS hi')

end SquareMatrixGM.SquareMatrix

namespace SquareMatrixGM.SquareMatrix

open VectorGM

/-- The loop of `operator^` keeps both of its matrices well-formed. -/
theorem wellFormed_of_powLoop (n : Nat) (fuel : Nat) :
    ∀ (result base : SquareMatrix) (power : Int) (R : SquareMatrix),
      result.WellFormed n → base.WellFormed n →
      powLoop fuel result base power = some (.ok R) → R.WellFormed n := by
  induction fuel with
  | zero =>
    intro result base power R hr _ h
    by_cases hp : power > 0
    · simp [powLoop, hp] at h
    · simp only [powLoop, hp, if_false, Option.some.injEq, Except.ok.injEq] at h
      rw [← h]
      exact hr
  | succ fuel ih =>
    intro result base power R hr hb h
    by_cases hp : power > 0
    · simp only [powLoop, hp, if_true] at h
      cases h1 : (if power % 2 = 1 then result.mul base else .ok result) with
      | error e =>
        rw [h1] at h
        cases h
      | ok result' =>
        rw [h1] at h
        have hr' : result'.WellFormed n := by
          by_cases hodd : power % 2 = 1
          · simp only [hodd, if_true] at h1
            exact wellFormed_of_mul result base result' n hr h1
          · simp only [hodd, if_false, Except.ok.injEq] at h1
            rw [← h1]
            exact hr
        cases h2 : base.mul base with
        | error e =>
          rw [h2] at h
          cases h
        | ok base' =>
          rw [h2] at h
          exact ih result' base' (power / 2) R hr'
            (wellFormed_of_mul base base base' n hb h2) h
    · simp only [powLoop, hp, if_false, Option.some.injEq, Except.ok.injEq] at h
      rw [← h]
      exact hr

theorem wellFormed_of_pow (n : Nat) (fuel : Nat) (M R : SquareMatrix) (power : Int)
    (hM : M.WellFormed n) (h : pow fuel M power = some (.ok R)) : R.WellFormed n := by
  unfold pow at h
  by_cases hp : power < 0
  · simp only [hp, if_true, Option.some.injEq] at h
    cases h
  · simp only [hp, if_false, hM.1, identity_ofNat] at h
    by_cases h0 : power = 0
    · simp only [h0, if_true, Option.some.injEq, Except.ok.injEq] at h
      rw [← h]
      exact wellFormed_tab n _
    · simp only [h0, if_false] at h
      exact wellFormed_of_powLoop n fuel _ M power R (wellFormed_tab n _) hM h

/-- The transpose `operator~` leaves a well-formed matrix, thrown or not. -/
theorem wellFormed_transposeState (M : SquareMatrix) (n : Nat) (hM : M.WellFormed n) :
    M.transposeState.1.WellFormed n := by
  by_cases hn : 1 ≤ n
  · by_cases hi : M.FullyInit
    · have key := transposeState_ofFn n hn M.val
      rw [← eq_ofFn_of_fullyInit M n hM hi] at key
      rw [key]
      exact wellFormed_tab n _
    · have key := transposeState_tab_error n hn M.cellAt (exists_cellAt_uninit M n hM hi)
      rw [← eq_tab_of_wellFormed M n hM] at key
      rw [key]
      exact hM
  · have h0 : M.size = 0 := by
      have := hM.1
      omega
    have herr : M.transposeState = (M, some (.MyLogicError "Empty input")) := by
      simp [transposeState, Vector.transposeColumnsToRows, h0]
    rw [herr]
    exact hM

theorem wellFormed_of_transpose (M R : SquareMatrix) (n : Nat) (hM : M.WellFormed n)
    (h : M.transpose = .ok R) : R.WellFormed n := by
  have key := wellFormed_transposeState M n hM
  unfold transpose at h
  unfold transposeState at key
  cases hc : Vector.transposeColumnsToRows M.rows M.size with
  | error e =>
    simp only [hc, bind, Except.bind] at h
    cases h
  | ok rows =>
    simp only [hc, bind, Except.bind, pure, Except.pure, Except.ok.injEq] at h
    simp only [hc] at key
    rw [← h]
    exact key

/-- The copy constructor returns its argument. -/
theorem copy_of_wellFormed (M : SquareMatrix) (n : Nat) (hM : M.WellFormed n) :
    M.copy = M := by
  obtain ⟨hs, hl, _⟩ := hM
  cases M with
  | mk rows size =>
    simp only at hs hl
    subst hs
    unfold copy
    simp only [mk.injEq, and_true]
    rw [forLoopMut_eq_of_steps _
      (fun m => (List.range size).map fun a =>
        if a < m then rows.getD a Vector.empty else Vector.empty) size _ ?_ ?_]
    · apply List.ext_getElem
      · simp [hl]
      · intro i h1 h2
        simp only [List.length_map, List.length_range] at h1
        simp [List.getD, h1, h2]
    · apply List.ext_getElem <;> simp
    · intro i _
      simp only [List.map_range_set, Prod.mk.injEq, and_true]
      apply List.map_congr_left
      intro a _
      by_cases h1 : a = i
      · simp [h1]
      · by_cases h2 : a < i
        · have : a < i + 1 := by omega
          simp [h1, h2, this]
        · have : ¬ a < i + 1 := by omega
          simp [h1, h2, this]

end SquareMatrixGM.SquareMatrix

namespace SquareMatrixGM.SquareMatrix

open VectorGM

/-- C33: a matrix is well-formed of size `n` when its field `size` is `n`, it has `n` rows
and every row has length `n`.  The constructor `SquareMatrix(k)` and `identity(k)`, when
they return, return a well-formed matrix of size `k`; the copy of a well-formed matrix is
well-formed; and for a well-formed `A` of size `n`, every result returned by `A + B`,
`A - B`, `A * B`, `A % B`, `-A`, `A * s`, `A / s`, `A % k`, `A ^ p`, and the state left by
`~A`, `++A`, `--A`, `A++`, `A--`, `A += B`, `A -= B`, `A *= s`, `A /= s`, `A %= k`
(thrown or not), as well as the copy returned by `A++` and `A--`, is well-formed of
size `n`. -/
theorem square_invariant (A B : SquareMatrix) (n : Nat) (k : Int) (s : ℚ) (p : Int)
    (fuel : Nat) (hA : A.WellFormed n) :
    (∀ R, construct k = .ok R → R.WellFormed k.toNat) ∧
    (∀ R, identity k = .ok R → R.WellFormed k.toNat) ∧
    A.copy.WellFormed n ∧
    (∀ R, A.add B = .ok R → R.WellFormed n) ∧
    (∀ R, A.sub B = .ok R → R.WellFormed n) ∧
    (∀ R, A.mul B = .ok R → R.WellFormed n) ∧
    (∀ R, A.hadamard B = .ok R → R.WellFormed n) ∧
    (∀ R, A.neg = .ok R → R.WellFormed n) ∧
    (∀ R, A.mulScalar s = .ok R → R.WellFormed n) ∧
    (∀ R, A.divScalar s = .ok R → R.WellFormed n) ∧
    (∀ R, A.modScalar k = .ok R → R.WellFormed n) ∧
    (∀ R, A.pow fuel p = some (.ok R) → R.WellFormed n) ∧
    (∀ R, A.transpose = .ok R → R.WellFormed n) ∧
    A.transposeState.1.WellFormed n ∧
    A.preInc.1.WellFormed n ∧ A.preDec.1.WellFormed n ∧
    (A.postInc.1.1.WellFormed n ∧ ∀ T, A.postInc.2 = some T → T.WellFormed n) ∧
    (A.postDec.1.1.WellFormed n ∧ ∀ T, A.postDec.2 = some T → T.WellFormed n) ∧
    (A.addAssign B).1.WellFormed n ∧ (A.subAssign B).1.WellFormed n ∧
    (A.mulScalarAssign s).1.WellFormed n ∧ (A.divScalarAssign s).1.WellFormed n ∧
    (A.modScalarAssign k).1.WellFormed n := by
  have hinc : A.preInc.1.WellFormed n :=
    wellFormed_mapRowsInPlace _ (fun a => Vector.size_bumpInPlace _ _ a) A n hA
  have hdec : A.preDec.1.WellFormed n :=
    wellFormed_mapRowsInPlace _ (fun a => Vector.size_bumpInPlace _ _ a) A n hA
  have hpost : ∀ (r : Mutated SquareMatrix), r.1.WellFormed n →
      ((match r with
        | (M', none) => ((M', none), some A)
        | (M', some e) => ((M', some e), none) : Mutated SquareMatrix × Option SquareMatrix)
        ).1.1.WellFormed n ∧
      ∀ T, ((match r with
        | (M', none) => ((M', none), some A)
        | (M', some e) => ((M', some e), none) : Mutated SquareMatrix × Option SquareMatrix)
        ).2 = some T → T.WellFormed n := by
    intro r hr
    obtain ⟨M', o⟩ := r
    cases o with
    | none =>
      refine ⟨hr, fun T hT => ?_⟩
      cases hT
      exact hA
    | some e =>
      refine ⟨hr, fun T hT => ?_⟩
      cases hT
  refine ⟨wellFormed_of_construct k, wellFormed_of_identity k, ?_,
    fun R h => wellFormed_of_rowwise _ (Vector.size_of_elementwise _ _ _) _ A B R n hA h,
    fun R h => wellFormed_of_rowwise _ (Vector.size_of_elementwise _ _ _) _ A B R n hA h,
    fun R h => wellFormed_of_mul A B R n hA h,
    fun R h => wellFormed_of_rowwise _ (Vector.size_of_elementwise _ _ _) _ A B R n hA h,
    fun R h => wellFormed_of_mapRows _ (Vector.size_of_mapChecked _ _) A R n hA h,
    fun R h => wellFormed_of_mapRows _ (Vector.size_of_mapChecked _ _) A R n hA h,
    ?_, ?_, fun R h => wellFormed_of_pow n fuel A R p hA h,
    fun R h => wellFormed_of_transpose A R n hA h, wellFormed_transposeState A n hA,
    hinc, hdec, hpost A.preInc hinc, hpost A.preDec hdec,
    wellFormed_rowwiseAssign _ (Vector.size_compound _ _) _ A B n hA,
    wellFormed_rowwiseAssign _ (Vector.size_compound _ _) _ A B n hA,
    wellFormed_mapRowsInPlace _ (fun a => Vector.size_mapInPlace _ _ a) A n hA, ?_, ?_⟩
  · rw [copy_of_wellFormed A n hA]
    exact hA
  · intro R h
    by_cases hs : s = 0
    · simp only [divScalar, hs, if_true] at h
      cases h
    · have hfun : (fun row : Vector => row.divScalar s) =
          Vector.mapChecked (fun x => x / s) "Cannot divide uninitialized cell" := by
        funext row
        simp only [Vector.divScalar, hs, if_false]
      simp only [divScalar, hs, if_false, hfun] at h
      exact wellFormed_of_mapRows _ (Vector.size_of_mapChecked _ _) A R n hA h
  · intro R h
    by_cases hk : k = 0
    · simp only [modScalar, hk, if_true] at h
      cases h
    · have hfun : (fun row : Vector => row.modScalar k) =
          Vector.mapChecked (fun x => (cppRem (castInt x) k : Int))
            "Cannot modulo uninitialized cell" := by
        funext row
        simp only [Vector.modScalar, hk, if_false]
      simp only [modScalar, hk, if_false, hfun] at h
      exact wellFormed_of_mapRows _ (Vector.size_of_mapChecked _ _) A R n hA h
  · by_cases hs : s = 0
    · simp only [divScalarAssign, hs, if_true]
      exact hA
    · have hfun : (fun row : Vector => row.divScalarAssign s) =
          Vector.mapInPlace (fun x => x / s) "Cannot divide uninitialized cell" := by
        funext row
        simp only [Vector.divScalarAssign, hs, if_false]
      simp only [divScalarAssign, hs, if_false, hfun]
      exact wellFormed_mapRowsInPlace _ (fun a => Vector.size_mapInPlace _ _ a) A n hA
  · by_cases hk : k = 0
    · simp only [modScalarAssign, hk, if_true]
      exact hA
    · have hfun : (fun row : Vector => row.modScalarAssign k) =
          Vector.mapInPlace (fun x => (cppRem (castInt x) k : Int))
            "Cannot modulo uninitialized cell" := by
        funext row
        simp only [Vector.modScalarAssign, hk, if_false]
      simp only [modScalarAssign, hk, if_false, hfun]
      exact wellFormed_mapRowsInPlace _ (fun a => Vector.size_mapInPlace _ _ a) A n hA

/-- The matrix `[[1,2],[3,4]]`: its product with `[[0,1],[1,0]]`, its third power, its
transpose and its increment are returned and are well-formed of size 2; `SquareMatrix(3)`
is well-formed of size 3. -/
theorem square_invariant_witness :
    (ofLists [[1, 2], [3, 4]]).WellFormed 2 ∧
    (ofLists [[1, 2], [3, 4]]).mul (ofLists [[0, 1], [1, 0]]) =
      .ok (ofLists [[2, 1], [4, 3]]) ∧
    pow 2 (ofLists [[1, 2], [3, 4]]) 3 = some (.ok (ofLists [[37, 54], [81, 118]])) ∧
    (ofLists [[1, 2], [3, 4]]).transposeState = (ofLists [[1, 3], [2, 4]], none) ∧
    (∃ R, construct 3 = .ok R) ∧
    (∀ R, (ofLists [[1, 2], [3, 4]]).mul (ofLists [[0, 1], [1, 0]]) = .ok R →
      R.WellFormed 2) ∧
    (∀ R, pow 2 (ofLists [[1, 2], [3, 4]]) 3 = some (.ok R) → R.WellFormed 2) ∧
    (ofLists [[1, 2], [3, 4]]).transposeState.1.WellFormed 2 ∧
    (ofLists [[1, 2], [3, 4]]).preInc.1.WellFormed 2 ∧
    (∀ R, construct 3 = .ok R → R.WellFormed (3 : Int).toNat) :=
  have h := square_invariant (ofLists [[1, 2], [3, 4]]) (ofLists [[0, 1], [1, 0]]) 2 3 2 3 2
    (by decide)
  ⟨by decide, by decide!, by decide!, by decide!, ⟨_, construct_ofNat 3⟩,
    h.2.2.2.2.2.1, h.2.2.2.2.2.2.2.2.2.2.2.1, h.2.2.2.2.2.2.2.2.2.2.2.2.2.1,
    h.2.2.2.2.2.2.2.2.2.2.2.2.2.2.1, h.1⟩

end SquareMatrixGM.SquareMatrix

/-! ## When the matrix product returns -/

namespace SquareMatrixGM.SquareMatrix

open VectorGM

/-- The product of two matrices of size 0 throws in the transpose helper. -/
theorem mul_size_zero (A B : SquareMatrix) (hA : A.size = 0) (hB : B.size = 0) :
    A.mul B = .error (.MyLogicError "Empty input") := by
  simp [mul, hA, hB, Vector.transposeColumnsToRows, bind, Except.bind]

/-- The product with a right operand that has an unwritten cell throws in the transpose
helper, whatever the left operand holds. -/
theorem mul_right_error (n : Nat) (hn : 1 ≤ n) (A : SquareMatrix) (hA : A.size = n)
    (c : Nat → Nat → Cell) (hc : ∃ i j, i < n ∧ j < n ∧ (c i j).initialized = false) :
    A.mul (tab n c) = .error (.MyLogicError "Column vector is not fully initialized") := by
  unfold mul
  simp only [hA, size_tab, ne_eq, not_true_eq_false, if_false]
  rw [show (tab n c).rows = Vector.table n n c from rfl,
    Vector.transposeColumnsToRows_table_error n n c hn hc]
  rfl

/-- The product of a left operand that has an unwritten cell with a fully initialized
right operand throws in the dot product of the first row that has an unwritten cell. -/
theorem mul_left_error (n : Nat) (hn : 1 ≤ n) (c : Nat → Nat → Cell) (g : Nat → Nat → ℚ)
    (hc : ∃ i j, i < n ∧ j < n ∧ (c i j).initialized = false) :
    (tab n c).mul (ofFn n g) =
      .error (.MyLogicError "Both vectors must be fully initialized for dot product") := by
  unfold mul
  have hs' : (ofFn n g).size = n := rfl
  simp only [size_tab, hs', ne_eq, not_true_eq_false, if_false]
  rw [show (ofFn n g).rows = Vector.table n n fun i j => ⟨g i j, true⟩ from rfl,
    Vector.transposeColumnsToRows_table n n _ hn (fun _ _ _ _ => rfl)]
  simp only [bind, Except.bind, construct_ofNat]
  rw [show (tab n c).rows = Vector.table n n c from rfl]
  refine fill_loop_error (tab n) n n _
    (fun i j => ∑ k in Finset.range n, (c i k).value * g k j)
    (fun i _ => ∀ k, k < n → (c i k).initialized = true)
    (.MyLogicError "Both vectors must be fully initialized for dot product")
    (tab_congr n) ?_ ?_ _ ?_
  · intro i hi j hj hg c0
    simp only [Vector.getD_table n n _ i hi, Vector.getD_table n n _ j hj]
    have := Vector.dot_tab n (c i) (fun k => ⟨g k j, true⟩) hg (fun _ _ => rfl)
    simp only [] at this
    rw [this]
    exact setCell_tab n c0 i j _ hi hj
  · intro i hi j hj hg c0
    simp only [Vector.getD_table n n _ i hi, Vector.getD_table n n _ j hj]
    have := Vector.dot_tab_error n (c i) (fun k => ⟨g k j, true⟩) (by
      by_contra hcon
      apply hg
      intro k hk
      by_contra hne
      exact hcon ⟨k, hk, fun h => hne h.1⟩)
    simp only [] at this
    rw [this]
  · obtain ⟨i, j, hi, hj, hf⟩ := hc
    refine ⟨i, 0, hi, by omega, fun hall => ?_⟩
    rw [hall j hj] at hf
    cases hf

end SquareMatrixGM.SquareMatrix

namespace SquareMatrixGM.SquareMatrix

open VectorGM

/-- The three ways in which the product of two well-formed matrices of one size throws, and
the case in which it returns. -/
theorem mul_cases (A B : SquareMatrix) (n : Nat) (hA : A.WellFormed n)
    (hB : B.WellFormed n) :
    (n = 0 → A.mul B = .error (.MyLogicError "Empty input")) ∧
    (1 ≤ n → ¬ B.FullyInit →
      A.mul B = .error (.MyLogicError "Column vector is not fully initialized")) ∧
    (1 ≤ n → ¬ A.FullyInit → B.FullyInit → A.mul B =
      .error (.MyLogicError "Both vectors must be fully initialized for dot product")) ∧
    (1 ≤ n → A.FullyInit → B.FullyInit →
      A.mul B = .ok (ofFn n fun i j => ∑ k in Finset.range n, A.val i k * B.val k j)) := by
  refine ⟨?_, ?_, ?_, ?_⟩
  · intro h0
    exact mul_size_zero A B (by rw [hA.1, h0]) (by rw [hB.1, h0])
  · intro hn hBi
    have key := mul_right_error n hn A hA.1 B.cellAt (exists_cellAt_uninit B n hB hBi)
    rw [← eq_tab_of_wellFormed B n hB] at key
    exact key
  · intro hn hAi hBi
    have key := mul_left_error n hn A.cellAt B.val (exists_cellAt_uninit A n hA hAi)
    rw [← eq_tab_of_wellFormed A n hA, ← eq_ofFn_of_fullyInit B n hB hBi] at key
    exact key
  · intro hn hAi hBi
    have key := mul_ofFn n hn A.val B.val
    rw [← eq_ofFn_of_fullyInit A n hA hAi, ← eq_ofFn_of_fullyInit B n hB hBi] at key
    exact key

/-- C34: for well-formed matrices `A` and `B` of the same size `n`, `A * B` returns exactly
when `n ≥ 1` and both are fully initialized; in every other case it throws a logic error:
for `n = 0` the error of the transpose helper called with count 0, and for `n ≥ 1` an error
also when only the left operand has an unwritten cell. -/
theorem mul_returns_iff (A B : SquareMatrix) (n : Nat) (hA : A.WellFormed n)
    (hB : B.WellFormed n) :
    ((∃ R, A.mul B = .ok R) ↔ (1 ≤ n ∧ A.FullyInit ∧ B.FullyInit)) ∧
    (¬ (1 ≤ n ∧ A.FullyInit ∧ B.FullyInit) → ∃ msg, A.mul B = .error (.MyLogicError msg)) ∧
    (n = 0 → A.mul B = .error (.MyLogicError "Empty input")) ∧
    (1 ≤ n → ¬ A.FullyInit → B.FullyInit → ∃ msg, A.mul B = .error (.MyLogicError msg)) := by
  obtain ⟨h0, hr, hl, hok⟩ := mul_cases A B n hA hB
  have herr : ¬ (1 ≤ n ∧ A.FullyInit ∧ B.FullyInit) →
      ∃ msg, A.mul B = .error (.MyLogicError msg) := by
    intro hnot
    by_cases hn : 1 ≤ n
    · by_cases hBi : B.FullyInit
      · by_cases hAi : A.FullyInit
        · exact absurd ⟨hn, hAi, hBi⟩ hnot
        · exact ⟨_, hl hn hAi hBi⟩
      · exact ⟨_, hr hn hBi⟩
    · exact ⟨_, h0 (by omega)⟩
  refine ⟨⟨?_, fun h => ⟨_, hok h.1 h.2.1 h.2.2⟩⟩, herr, h0,
    fun hn hAi hBi => ⟨_, hl hn hAi hBi⟩⟩
  rintro ⟨R, hR⟩
  by_contra hnot
  obtain ⟨msg, hmsg⟩ := herr hnot
  rw [hmsg] at hR
  cases hR

/-- The product of two matrices of size 0 throws "Empty input"; the product of
`[[1, unwritten],[3,4]]` with the fully initialized `[[1,0],[0,1]]` throws in the dot
product; the product of `[[1,2],[3,4]]` with `[[2,0],[1,2]]` returns. -/
theorem mul_returns_iff_witness :
    (SquareMatrix.mk [] 0).mul (SquareMatrix.mk [] 0) =
      .error (.MyLogicError "Empty input") ∧
    (SquareMatrix.mk [⟨[⟨1, true⟩, ⟨0, false⟩]⟩, ⟨[⟨3, true⟩, ⟨4, true⟩]⟩] 2).mul
        (ofLists [[1, 0], [0, 1]]) =
      .error (.MyLogicError "Both vectors must be fully initialized for dot product") ∧
    (ofLists [[1, 2], [3, 4]]).mul (ofLists [[2, 0], [1, 2]]) =
      .ok (ofLists [[4, 4], [10, 8]]) ∧
    ((∃ R, (ofLists [[1, 2], [3, 4]]).mul (ofLists [[2, 0], [1, 2]]) = .ok R) ↔
      (1 ≤ 2 ∧ (ofLists [[1, 2], [3, 4]]).FullyInit ∧ (ofLists [[2, 0], [1, 2]]).FullyInit)) :=
  ⟨by decide, by decide!, by decide!,
    (mul_returns_iff (ofLists [[1, 2], [3, 4]]) (ofLists [[2, 0], [1, 2]]) 2 (by decide)
      (by decide)).1⟩

end SquareMatrixGM.SquareMatrix

/-! ## Termination of the determinant -/

namespace SquareMatrixGM.SquareMatrix

open VectorGM

/-- The cofactor loop runs out of fuel as soon as the determinant of its first minor
does. -/
theorem cofactorLoop_none (minorDet : SquareMatrix → Option (Except Error ℚ)) (m : Nat)
    (f : Nat → Nat → ℚ)
    (hnone : minorDet (ofFn m fun i j => f (skipIndex 0 i) (skipIndex 0 j)) = none) :
    ∀ k, cofactorLoop minorDet (ofFn (m + 1) f) (k + 1) = none := by
  intro k
  induction k with
  | zero =>
    have hcell : (ofFn (m + 1) f).getCell (0 : Int) ((0 : Nat) : Int) = .ok (f 0 0) :=
      getCell_tab (m + 1) _ 0 0 (by omega) (by omega)
    have hminor : getMinorWith minorDet (ofFn (m + 1) f) (0 : Int) ((0 : Nat) : Int) =
        none := by
      unfold getMinorWith
      rw [show ((0 : Int)) = ((0 : Nat) : Int) from rfl,
        buildMinor_ofFn m f 0 0 (by omega) (by omega)]
      exact hnone
    rw [cofactorLoop]
    simp only [cofactorLoop, hcell, hminor]
  | succ k ih =>
    rw [cofactorLoop, ih]

/-- On a fully initialized matrix of size `n ≥ fuel + 3` the determinant runs out of
fuel: the recursion is deeper than `fuel`. -/
theorem det_ofFn_none (fuel : Nat) : ∀ (n : Nat) (f : Nat → Nat → ℚ), fuel + 3 ≤ n →
    det fuel (ofFn n f) = none := by
  have hbody : ∀ (minorDet : SquareMatrix → Option (Except Error ℚ)) (m : Nat)
      (f : Nat → Nat → ℚ), 2 ≤ m →
      minorDet (ofFn m fun i j => f (skipIndex 0 i) (skipIndex 0 j)) = none →
      detBody minorDet (ofFn (m + 1) f) = none := by
    intro minorDet m f hm hnone
    simp only [detBody, show (ofFn (m + 1) f).size = m + 1 from rfl]
    rw [initCheck_ofFn (m + 1) f]
    simp only [show ¬ (m + 1 = 1) by omega, show ¬ (m + 1 = 2) by omega, if_false]
    exact cofactorLoop_none minorDet m f hnone m
  induction fuel with
  | zero =>
    intro n f hn
    obtain ⟨m, rfl⟩ : ∃ m, n = m + 1 := ⟨n - 1, by omega⟩
    rw [det]
    exact hbody _ m f (by omega) rfl
  | succ fuel ih =>
    intro n f hn
    obtain ⟨m, rfl⟩ : ∃ m, n = m + 1 := ⟨n - 1, by omega⟩
    rw [det]
    exact hbody _ m f (by omega) (ih m _ (by omega))

/-- With fuel `n - 2` or more the determinant of a well-formed matrix of size `n` does not
run out of fuel, whatever its cells hold. -/
theorem det_returns (M : SquareMatrix) (n fuel : Nat) (hM : M.WellFormed n)
    (hfuel : n ≤ fuel + 2) : ∃ r, det fuel M = some r := by
  by_cases hi : M.FullyInit
  · by_cases hn : 1 ≤ n
    · exact ⟨_, det_of_fullyInit n M fuel hn hM hi hfuel⟩
    · have h0 : n = 0 := by omega
      subst h0
      rw [eq_ofFn_of_fullyInit M 0 hM hi]
      cases fuel with
      | zero => exact ⟨_, detBody_ofFn_zero _ _⟩
      | succ fuel => exact ⟨_, detBody_ofFn_zero _ _⟩
  · exact ⟨_, det_of_not_fullyInit M (by rw [hM.2.1, hM.1]) hi fuel⟩

/-- The body of `operator!` on a matrix of size 0, 1 or 2 does not use the recursive
call. -/
theorem detBody_small (M : SquareMatrix) (h : M.size ≤ 2)
    (minorDet minorDet' : SquareMatrix → Option (Except Error ℚ)) :
    detBody minorDet M = detBody minorDet' M := by
  simp only [detBody]
  cases forLoop (fun i (_ : Unit) =>
      if !(M.rows.getD i Vector.empty).allInitialized then
        .error (.MyLogicError "Matrix must be fully initialized to compute determinant")
      else .ok ()) M.size () with
  | error e => rfl
  | ok u =>
    by_cases h1 : M.size = 1
    · simp only [h1, if_true]
    · by_cases h2 : M.size = 2
      · simp only [h2, if_true, OfNat.ofNat_ne_one, if_false]
      · have h0 : M.size = 0 := by omega
        simp only [h0, OfNat.zero_ne_ofNat, zero_ne_one, if_false]
        rfl

/-- The matrix `minor` built by `getMinor` is well-formed of size `n - 1`. -/
theorem wellFormed_of_buildMinor (M minor : SquareMatrix) (n : Nat) (r c : Int)
    (hM : M.WellFormed n) (h : buildMinor M r c = .ok minor) :
    minor.WellFormed (n - 1) := by
  unfold buildMinor at h
  simp only [hM.1] at h
  cases hc : construct ((n : Int) - 1) with
  | error e =>
    simp only [hc, bind, Except.bind] at h
    cases h
  | ok m0 =>
    have hm0 : m0.WellFormed (n - 1) := by
      have := wellFormed_of_construct _ m0 hc
      have hn : ((n : Int) - 1).toNat = n - 1 := by omega
      rw [hn] at this
      exact this
    simp only [hc, bind, Except.bind] at h
    split at h
    · cases h
    · rename_i out hout
      simp only [pure, Except.pure, Except.ok.injEq] at h
      rw [← h]
      refine forLoop_invariant (fun st : SquareMatrix × Nat => st.1.WellFormed (n - 1)) _ n
        (m0, 0) hm0 ?_ out hout
      intro i st st' _ hst hstep
      by_cases hir : (i : Int) = r
      · simp only [hir, if_true, Except.ok.injEq] at hstep
        rw [← hstep]
        exact hst
      · simp only [hir, if_false] at hstep
        split at hstep
        · cases hstep
        · rename_i inner hinner
          simp only [pure, Except.pure, Except.ok.injEq] at hstep
          rw [← hstep]
          refine forLoop_invariant (fun st : SquareMatrix × Nat => st.1.WellFormed (n - 1))
            _ n (st.1, 0) hst ?_ inner hinner
          intro j t t' _ ht hstep'
          by_cases hjc : (j : Int) = c
          · simp only [hjc, if_true, Except.ok.injEq] at hstep'
            rw [← hstep']
            exact ht
          · simp only [hjc, if_false] at hstep'
            split at hstep'
            · cases hstep'
            · split at hstep'
              · cases hstep'
              · rename_i minor' hs
                simp only [pure, Except.pure, Except.ok.injEq] at hstep'
                rw [← hstep']
                exact wellFormed_of_setCell t.1 minor' (n - 1) _ _ _ ht hs

end SquareMatrixGM.SquareMatrix

namespace SquareMatrixGM.SquareMatrix

open VectorGM

/-- C35: the determinant `!M` of a well-formed matrix of size `n ≥ 0` returns or throws
with fuel `n - 2` (the depth of the recursion through `getMinor`), whatever the cells
hold; for `n ≤ 2` it needs no fuel and its body makes no recursive call; on a fully
initialized matrix of size `n ≥ 3` fuel below `n - 2` is not enough, so the depth is
exactly `n - 2`; and the matrix on which `getMinor` calls `!` is well-formed of size
`n - 1`, that call using one unit of fuel. -/
theorem det_terminates (M : SquareMatrix) (n : Nat) (hM : M.WellFormed n) :
    (∀ fuel, n ≤ fuel + 2 → ∃ r, det fuel M = some r) ∧
    (n ≤ 2 → (∃ r, det 0 M = some r) ∧
      ∀ minorDet minorDet', detBody minorDet M = detBody minorDet' M) ∧
    (M.FullyInit → ∀ fuel, fuel + 2 < n → det fuel M = none) ∧
    (∀ (r c : Int) (minor : SquareMatrix), buildMinor M r c = .ok minor →
      minor.WellFormed (n - 1) ∧ ∀ fuel, getMinor (fuel + 1) M r c = det fuel minor) ∧
    (M.FullyInit → ∀ r c : Nat, r < n → c < n →
      ∃ minor, buildMinor M r c = .ok minor ∧ minor.WellFormed (n - 1)) := by
  refine ⟨fun fuel hfuel => det_returns M n fuel hM hfuel,
    fun hn => ⟨det_returns M n 0 hM (by omega),
      detBody_small M (by rw [hM.1]; exact hn)⟩, ?_, ?_, ?_⟩
  · intro hi fuel hfuel
    rw [eq_ofFn_of_fullyInit M n hM hi]
    exact det_ofFn_none fuel n _ (by omega)
  · intro r c minor h
    refine ⟨wellFormed_of_buildMinor M minor n r c hM h, fun fuel => ?_⟩
    simp only [getMinor, getMinorWith, h]
  · intro hi r c hr hc
    obtain ⟨m, rfl⟩ : ∃ m, n = m + 1 := ⟨n - 1, by omega⟩
    have key := buildMinor_ofFn m M.val r c (by omega) (by omega)
    rw [← eq_ofFn_of_fullyInit M (m + 1) hM hi] at key
    exact ⟨_, key, wellFormed_tab m _⟩

/-- The matrix `[[1,2,3],[4,5,6],[7,8,10]]` of size 3: without fuel the determinant does
not return, with fuel 1 it returns -3; the minor of row 0 and column 1 is `[[4,6],[7,10]]`;
matrices of size 0, 1 and 2 need no fuel. -/
theorem det_terminates_witness :
    det 0 (ofLists [[1, 2, 3], [4, 5, 6], [7, 8, 10]]) = none ∧
    det 1 (ofLists [[1, 2, 3], [4, 5, 6], [7, 8, 10]]) = some (.ok (-3)) ∧
    buildMinor (ofLists [[1, 2, 3], [4, 5, 6], [7, 8, 10]]) 0 1 =
      .ok (ofLists [[4, 6], [7, 10]]) ∧
    det 0 (ofLists []) = some (.ok 0) ∧ det 0 (ofLists [[5]]) = some (.ok 5) ∧
    det 0 (ofLists [[1, 2], [3, 4]]) = some (.ok (-2)) ∧
    (ofLists [[1, 2, 3], [4, 5, 6], [7, 8, 10]]).WellFormed 3 ∧
    (∀ fuel, 3 ≤ fuel + 2 →
      ∃ r, det fuel (ofLists [[1, 2, 3], [4, 5, 6], [7, 8, 10]]) = some r) :=
  ⟨by decide!, by decide!, by decide!, by decide!, by decide!, by decide!, by decide,
    (det_terminates (ofLists [[1, 2, 3], [4, 5, 6], [7, 8, 10]]) 3 (by decide)).1⟩

end SquareMatrixGM.SquareMatrix

/-! ## Scalar modulo at `INT_MIN % -1` -/

namespace SquareMatrixGM.SquareMatrix

open VectorGM

end SquareMatrixGM.SquareMatrix
